import Mathlib

/-!
# Parallel EEPROM programmer firmware: embedding and verified properties

The firmware (`main.cpp`, `peeprom.cpp`, `peeprom.hpp`) talks to the outside
world only through the Arduino API: `pinMode`, `digitalWrite`, `digitalRead`,
`shiftOut`, `millis`, `delay` and the `Serial` object.  The embedding keeps
that boundary:

* every pin-level API call is a `Call`; the external hardware (address shift
  register and EEPROM) is an arbitrary deterministic machine `Hardware σ` that
  reacts to each call and decides what every `digitalRead` samples;
* `millis()` reads a free-running clock: the `n`-th call returns
  `clock n % 2^32`, where `clock n` is the true time in milliseconds;
* C `while` loops that poll the hardware take a `fuel` bound on their number
  of iterations and return `none` when it is exhausted;
* `uint8_t`, `uint16_t` and `unsigned long` values are natural numbers reduced
  modulo `2^8`, `2^16`, `2^32` at the places where the C code truncates;
* the serial receive buffer is a list of bytes that is not refilled while
  `loop()` runs.
-/

namespace PEEPROM

/-! ## Pins and the Arduino API boundary (`peeprom.hpp`) -/

/-- The pins named by the pin assignment block of `peeprom.hpp`. -/
inductive Pin
  | EEPROM_IO_0
  | EEPROM_IO_1
  | EEPROM_IO_2
  | EEPROM_IO_3
  | EEPROM_IO_4
  | EEPROM_IO_5
  | EEPROM_IO_6
  | EEPROM_IO_7
  | EEPROM_ADR_DATA
  | EEPROM_ADR_SCLK
  | EEPROM_ADR_RCLK
  | EEPROM_WE
  | EEPROM_OE
  | EEPROM_CE
  deriving DecidableEq, Repr

/-- Arduino pin modes used by the driver. -/
inductive PinMode
  | INPUT
  | OUTPUT
  deriving DecidableEq, Repr

/-- Arduino logic level `HIGH`. -/
abbrev HIGH : Bool := true

/-- Arduino logic level `LOW`. -/
abbrev LOW : Bool := false

/-- One pin-level Arduino API call issued by the firmware.  `shiftOut` is always
called with `MSBFIRST` in the source, so the bit order is not a parameter. -/
inductive Call
  | pinMode (pin : Pin) (mode : PinMode)
  | digitalWrite (pin : Pin) (val : Bool)
  | digitalRead (pin : Pin)
  | shiftOut (dataPin clockPin : Pin) (val : Nat)
  | delay (ms : Nat)
  deriving DecidableEq, Repr

/-- The world outside the microcontroller: how the external hardware reacts to
each API call, what level a `digitalRead` samples, and the true time (in ms)
at the `n`-th call of `millis()`. -/
structure Hardware (σ : Type) where
  react : Call → σ → σ
  sample : Pin → σ → Bool
  clock : Nat → Nat

/-- Driver-side world state: the external hardware, the log of API calls issued
so far (oldest first) and the number of `millis()` calls made so far. -/
structure Dev (σ : Type) where
  hw : σ
  log : List Call
  ticks : Nat

/-- `WRITE_TIMEOUT_MS` of `peeprom.hpp`. -/
def WRITE_TIMEOUT_MS : Nat := 100

/-- `CHECK_BIT(var, pos)` of `peeprom.hpp`: `(var) & (1 << (pos))`. -/
def CHECK_BIT (var pos : Nat) : Nat := var &&& (1 <<< pos)

section Driver

variable {σ : Type} (H : Hardware σ)

/-- Issue one API call: the hardware reacts and the call is logged. -/
def call (c : Call) (s : Dev σ) : Dev σ :=
  { s with hw := H.react c s.hw, log := s.log ++ [c] }

/-- Arduino `pinMode(pin, mode)`. -/
def pinMode (pin : Pin) (mode : PinMode) (s : Dev σ) : Dev σ :=
  call H (Call.pinMode pin mode) s

/-- Arduino `digitalWrite(pin, val)`. -/
def digitalWrite (pin : Pin) (val : Bool) (s : Dev σ) : Dev σ :=
  call H (Call.digitalWrite pin val) s

/-- Arduino `digitalRead(pin)`: the sampled level and the state after the call. -/
def digitalRead (pin : Pin) (s : Dev σ) : Bool × Dev σ :=
  (H.sample pin s.hw, call H (Call.digitalRead pin) s)

/-- Arduino `shiftOut(dataPin, clockPin, MSBFIRST, val)`; `val` is a `uint8_t`. -/
def shiftOut (dataPin clockPin : Pin) (val : Nat) (s : Dev σ) : Dev σ :=
  call H (Call.shiftOut dataPin clockPin (val % 256)) s

/-- Arduino `delay(ms)`. -/
def delay (ms : Nat) (s : Dev σ) : Dev σ :=
  call H (Call.delay ms) s

/-- Arduino `millis()`: the 32-bit millisecond counter. -/
def millis (s : Dev σ) : Nat × Dev σ :=
  (H.clock s.ticks % 2 ^ 32, { s with ticks := s.ticks + 1 })

/-- The C expression `millis() - start` on `unsigned long` operands. -/
def elapsed (now start : Nat) : Nat :=
  (now % 2 ^ 32 + 2 ^ 32 - start % 2 ^ 32) % 2 ^ 32

/-! ## Internal API (`peeprom.cpp`) -/

/-- `_set_addr(uint16_t address)`. -/
def _set_addr (address : Nat) (s : Dev σ) : Dev σ :=
  let s := shiftOut H Pin.EEPROM_ADR_DATA Pin.EEPROM_ADR_SCLK ((address >>> 8) &&& 0xFF) s
  let s := shiftOut H Pin.EEPROM_ADR_DATA Pin.EEPROM_ADR_SCLK (address &&& 0xFF) s
  let s := digitalWrite H Pin.EEPROM_ADR_RCLK HIGH s
  digitalWrite H Pin.EEPROM_ADR_RCLK LOW s

/-- `_set_bus_mode(uint8_t mode)`. -/
def _set_bus_mode (mode : PinMode) (s : Dev σ) : Dev σ :=
  let s := pinMode H Pin.EEPROM_IO_0 mode s
  let s := pinMode H Pin.EEPROM_IO_1 mode s
  let s := pinMode H Pin.EEPROM_IO_2 mode s
  let s := pinMode H Pin.EEPROM_IO_3 mode s
  let s := pinMode H Pin.EEPROM_IO_4 mode s
  let s := pinMode H Pin.EEPROM_IO_5 mode s
  let s := pinMode H Pin.EEPROM_IO_6 mode s
  pinMode H Pin.EEPROM_IO_7 mode s

/-- `_write_bus(uint8_t data)`. -/
def _write_bus (data : Nat) (s : Dev σ) : Dev σ :=
  let s := _set_bus_mode H PinMode.OUTPUT s
  let s := digitalWrite H Pin.EEPROM_IO_0 (if CHECK_BIT data 0 ≠ 0 then HIGH else LOW) s
  let s := digitalWrite H Pin.EEPROM_IO_1 (if CHECK_BIT data 1 ≠ 0 then HIGH else LOW) s
  let s := digitalWrite H Pin.EEPROM_IO_2 (if CHECK_BIT data 2 ≠ 0 then HIGH else LOW) s
  let s := digitalWrite H Pin.EEPROM_IO_3 (if CHECK_BIT data 3 ≠ 0 then HIGH else LOW) s
  let s := digitalWrite H Pin.EEPROM_IO_4 (if CHECK_BIT data 4 ≠ 0 then HIGH else LOW) s
  let s := digitalWrite H Pin.EEPROM_IO_5 (if CHECK_BIT data 5 ≠ 0 then HIGH else LOW) s
  let s := digitalWrite H Pin.EEPROM_IO_6 (if CHECK_BIT data 6 ≠ 0 then HIGH else LOW) s
  digitalWrite H Pin.EEPROM_IO_7 (if CHECK_BIT data 7 ≠ 0 then HIGH else LOW) s

/-- One statement `data |= (digitalRead(pin) ? 1 : 0) << pos;` of `_read_bus`,
on the pair (accumulated `uint8_t data`, state). -/
def _read_bus_bit (pin : Pin) (pos : Nat) (a : Nat × Dev σ) : Nat × Dev σ :=
  let r := digitalRead H pin a.2
  ((a.1 ||| ((if r.1 then 1 else 0) <<< pos)) % 256, r.2)

/-- `_read_bus()`. -/
def _read_bus (s : Dev σ) : Nat × Dev σ :=
  let s := _set_bus_mode H PinMode.INPUT s
  let a : Nat × Dev σ := (0, s)
  let a := _read_bus_bit H Pin.EEPROM_IO_0 0 a
  let a := _read_bus_bit H Pin.EEPROM_IO_1 1 a
  let a := _read_bus_bit H Pin.EEPROM_IO_2 2 a
  let a := _read_bus_bit H Pin.EEPROM_IO_3 3 a
  let a := _read_bus_bit H Pin.EEPROM_IO_4 4 a
  let a := _read_bus_bit H Pin.EEPROM_IO_5 5 a
  let a := _read_bus_bit H Pin.EEPROM_IO_6 6 a
  _read_bus_bit H Pin.EEPROM_IO_7 7 a

/-- `_set_chip_enable(bool ce)`: active low. -/
def _set_chip_enable (ce : Bool) (s : Dev σ) : Dev σ :=
  digitalWrite H Pin.EEPROM_CE (if ce then LOW else HIGH) s

/-- `_set_output_enable(bool oe)`: active low. -/
def _set_output_enable (oe : Bool) (s : Dev σ) : Dev σ :=
  digitalWrite H Pin.EEPROM_OE (if oe then LOW else HIGH) s

/-- `_set_write_enable(bool we)`: active low. -/
def _set_write_enable (we : Bool) (s : Dev σ) : Dev σ :=
  digitalWrite H Pin.EEPROM_WE (if we then LOW else HIGH) s

/-- `_write_eeprom(uint16_t address, uint8_t data)`: one write strobe. -/
def _write_eeprom (address data : Nat) (s : Dev σ) : Dev σ :=
  let s := _set_addr H address s
  let s := _write_bus H data s
  let s := _set_write_enable H true s
  _set_write_enable H false s

/-! ## Command API -/

/-- `sdp_enable()`. -/
def sdp_enable (s : Dev σ) : Dev σ :=
  let s := _set_output_enable H false s
  let s := _set_chip_enable H true s
  let s := _set_bus_mode H PinMode.OUTPUT s
  let s := _write_eeprom H 0x5555 0xAA s
  let s := _write_eeprom H 0x2AAA 0x55 s
  let s := _write_eeprom H 0x5555 0xA0 s
  _set_chip_enable H false s

/-- `sdp_disable()`. -/
def sdp_disable (s : Dev σ) : Dev σ :=
  let s := _set_output_enable H false s
  let s := _set_chip_enable H true s
  let s := _set_bus_mode H PinMode.OUTPUT s
  let s := _write_eeprom H 0x5555 0xAA s
  let s := _write_eeprom H 0x2AAA 0x55 s
  let s := _write_eeprom H 0x5555 0x80 s
  let s := _write_eeprom H 0x5555 0xAA s
  let s := _write_eeprom H 0x2AAA 0x55 s
  let s := _write_eeprom H 0x5555 0x20 s
  _set_chip_enable H false s

/-- `chip_erase()`. -/
def chip_erase (s : Dev σ) : Dev σ :=
  let s := _set_output_enable H false s
  let s := _set_chip_enable H true s
  let s := _set_bus_mode H PinMode.OUTPUT s
  let s := _write_eeprom H 0x5555 0xAA s
  let s := _write_eeprom H 0x2AAA 0x55 s
  let s := _write_eeprom H 0x5555 0x80 s
  let s := _write_eeprom H 0x5555 0xAA s
  let s := _write_eeprom H 0x2AAA 0x55 s
  let s := _write_eeprom H 0x5555 0x10 s
  let s := _set_chip_enable H false s
  delay H 100 s

/-! ## Public API -/

/-- `initEEPROM()`. -/
def initEEPROM (s : Dev σ) : Dev σ :=
  let s := _set_bus_mode H PinMode.INPUT s
  let s := pinMode H Pin.EEPROM_ADR_DATA PinMode.OUTPUT s
  let s := pinMode H Pin.EEPROM_ADR_SCLK PinMode.OUTPUT s
  let s := pinMode H Pin.EEPROM_ADR_RCLK PinMode.OUTPUT s
  let s := _set_chip_enable H false s
  let s := _set_output_enable H false s
  let s := _set_write_enable H false s
  let s := pinMode H Pin.EEPROM_CE PinMode.OUTPUT s
  let s := pinMode H Pin.EEPROM_OE PinMode.OUTPUT s
  pinMode H Pin.EEPROM_WE PinMode.OUTPUT s

/-- `readByte(uint16_t address)`: the byte read and the state afterwards. -/
def readByte (address : Nat) (s : Dev σ) : Nat × Dev σ :=
  let s := _set_bus_mode H PinMode.INPUT s
  let s := _set_output_enable H true s
  let s := _set_chip_enable H true s
  let s := _set_addr H address s
  let r := _read_bus H s
  let s := _set_output_enable H false r.2
  let s := _set_chip_enable H false s
  (r.1, s)

/-- The polling loop of `writeByte`:
`while (readByte(address) != data) { if ((millis() - start) >= WRITE_TIMEOUT_MS) return false; } return true;`
with at most `fuel` evaluations of the loop condition. -/
def writeByte_poll (address data start : Nat) : Nat → Dev σ → Option (Bool × Dev σ)
  | 0, _ => none
  | fuel + 1, s =>
    let r := readByte H address s
    if r.1 ≠ data then
      let t := millis H r.2
      if elapsed t.1 start ≥ WRITE_TIMEOUT_MS then some (false, t.2)
      else writeByte_poll address data start fuel t.2
    else some (true, r.2)

/-- `writeByte(uint16_t address, uint8_t data)`. -/
def writeByte (fuel : Nat) (address data : Nat) (s : Dev σ) : Option (Bool × Dev σ) :=
  let s := _set_output_enable H false s
  let s := _set_bus_mode H PinMode.OUTPUT s
  let s := _set_chip_enable H true s
  let s := _write_eeprom H address data s
  let s := _set_chip_enable H false s
  let t := millis H s
  writeByte_poll H address data t.1 fuel t.2

/-- The programming loop of `writePage`:
`for (uint16_t i = 0; i < len; i++) { ... }`, entered at index `i` with `n`
iterations left (`n = len - i`). -/
def writePage_program (start : Nat) (data : Nat → Nat) : Nat → Nat → Dev σ → Dev σ
  | 0, _, s => s
  | n + 1, i, s =>
    let s := _set_addr H ((i + start) % 65536) s
    let s := _write_bus H (data i) s
    let s := _set_write_enable H true s
    let s := _set_write_enable H false s
    writePage_program start data n (i + 1) s

/-- The data polling loop of `writePage`:
`while (_read_bus() != data[0]) { if ((millis() - tStart) >= WRITE_TIMEOUT_MS) return false; }`
followed by the de-selection and `return true`. -/
def writePage_poll (d0 tStart : Nat) : Nat → Dev σ → Option (Bool × Dev σ)
  | 0, _ => none
  | fuel + 1, s =>
    let r := _read_bus H s
    if r.1 ≠ d0 then
      let t := millis H r.2
      if elapsed t.1 tStart ≥ WRITE_TIMEOUT_MS then some (false, t.2)
      else writePage_poll d0 tStart fuel t.2
    else
      let s := _set_output_enable H false r.2
      let s := _set_chip_enable H false s
      some (true, s)

/-- `writePage(uint16_t start, uint8_t *data, uint16_t len)`. -/
def writePage (fuel : Nat) (start : Nat) (data : Nat → Nat) (len : Nat) (s : Dev σ) :
    Option (Bool × Dev σ) :=
  let s := _set_output_enable H false s
  let s := _set_bus_mode H PinMode.OUTPUT s
  let s := _set_chip_enable H true s
  let s := writePage_program H start data len 0 s
  let s := _set_bus_mode H PinMode.INPUT s
  let s := _set_output_enable H true s
  let s := _set_addr H start s
  let t := millis H s
  writePage_poll H (data 0) t.1 fuel t.2

/-- The `for (;;)` loop of `ensureSDPEnabled`, with at most `n` iterations: the
loop is left when `writeByte(0x00, e)` returns false. -/
def ensureSDPEnabled_loop (fuel : Nat) (e : Nat) : Nat → Dev σ → Option (Dev σ)
  | 0, _ => none
  | n + 1, s =>
    let s := sdp_enable H s
    match writeByte H fuel 0x00 e s with
    | none => none
    | some r => if r.1 = false then some r.2 else ensureSDPEnabled_loop fuel e n r.2

/-- `ensureSDPEnabled()`; `fuel` bounds the iterations of every loop. -/
def ensureSDPEnabled (fuel : Nat) (s : Dev σ) : Option (Dev σ) :=
  let r := readByte H 0x00 s
  let e := (r.1 + 0xF) % 256
  ensureSDPEnabled_loop H fuel e fuel r.2

/-- The body of the `for` loop of `ensureSDPDisabled`. -/
def ensureSDPDisabled_body (e : Nat) (s : Dev σ) : Dev σ :=
  let s := sdp_disable H s
  let s := _set_output_enable H false s
  let s := _set_bus_mode H PinMode.OUTPUT s
  let s := _set_chip_enable H true s
  let s := _write_eeprom H 0 e s
  _set_chip_enable H false s

/-- The loop `for (int i = 0; i < 255; i++) { ... }` of `ensureSDPDisabled`, with
`n` iterations left. -/
def ensureSDPDisabled_loop (e : Nat) : Nat → Dev σ → Dev σ
  | 0, s => s
  | n + 1, s => ensureSDPDisabled_loop e n (ensureSDPDisabled_body H e s)

/-- `ensureSDPDisabled()`. -/
def ensureSDPDisabled (s : Dev σ) : Dev σ :=
  let r := readByte H 0x00 s
  let e := (r.1 + 0xF) % 256
  ensureSDPDisabled_loop H e 255 r.2

end Driver

/-! ## Packet framer and dispatcher (`main.cpp`) -/

/-- `PKG_START`. -/
def PKG_START : Nat := 0x7B

/-- `PKG_END`. -/
def PKG_END : Nat := 0x7D

/-- `CMD_READ`. -/
def CMD_READ : Nat := 0xAA

/-- `CMD_WRITE`. -/
def CMD_WRITE : Nat := 0xBB

/-- `CMD_PAGE_WRITE_START`. -/
def CMD_PAGE_WRITE_START : Nat := 0xCC

/-- `CMD_PAGE_WRITE_DATA`. -/
def CMD_PAGE_WRITE_DATA : Nat := 0xCD

/-- `PAGE_SIZE`. -/
def PAGE_SIZE : Nat := 256

/-- The C expression `~x` converted to `uint8_t` (as in `data = ~addr_l;` and
`Serial.write(~data)`): `(-1 - x) mod 256`, which is `255 - x` on bytes. -/
def not8 (x : Nat) : Nat := 255 - x % 256

/-- Whole firmware state: the driver world, the serial receive buffer (next
byte first), the bytes written to the serial port so far (oldest first) and the
globals of `main.cpp`.  `pageData` is kept as a map from index to byte: a store
at an index outside `0 .. PAGE_SIZE - 1` stays visible as such instead of being
hidden, so that staying in bounds is a property and not an assumption. -/
structure Firmware (σ : Type) where
  dev : Dev σ
  rx : List Nat
  tx : List Nat
  pageData : Nat → Nat
  currentPageAddress : Nat
  currentPageOffset : Nat

section Dispatcher

variable {σ : Type} (H : Hardware σ)

/-- `Serial.available()`. -/
def Serial_available (s : Firmware σ) : Nat := s.rx.length

/-- `Serial.read()` assigned to a `uint8_t`: the next byte is consumed; on an
empty buffer the call returns `-1`, which the conversion turns into 255. -/
def Serial_read (s : Firmware σ) : Nat × Firmware σ :=
  match s.rx with
  | [] => (255, s)
  | b :: rest => (b % 256, { s with rx := rest })

/-- `Serial.write(b)` of one byte. -/
def Serial_write (b : Nat) (s : Firmware σ) : Firmware σ :=
  { s with tx := s.tx ++ [b % 256] }

/-- The statement `pageData[currentPageOffset++] = v;` (`currentPageOffset` is a
`uint16_t`). -/
def pageData_push (v : Nat) (s : Firmware σ) : Firmware σ :=
  { s with
    pageData := fun i => if i = s.currentPageOffset then v else s.pageData i,
    currentPageOffset := (s.currentPageOffset + 1) % 65536 }

/-- The `switch (cmd)` of `loop()`: the new value of the local `data` and the
state afterwards. -/
def loop_switch (fuel : Nat) (cmd addr_l addr_h data addr : Nat) (s : Firmware σ) :
    Option (Nat × Firmware σ) :=
  if cmd = CMD_READ then
    let r := readByte H addr s.dev
    some (r.1, { s with dev := r.2 })
  else if cmd = CMD_WRITE then
    (writeByte H fuel addr data s.dev).map (fun r => (data, { s with dev := r.2 }))
  else if cmd = CMD_PAGE_WRITE_START then
    let s := { s with currentPageAddress := addr }
    let s := { s with currentPageOffset := 0 }
    let s := pageData_push data s
    some (data, s)
  else if cmd = CMD_PAGE_WRITE_DATA then
    let s := pageData_push addr_l s
    let s := pageData_push addr_h s
    let s := pageData_push data s
    if s.currentPageOffset ≥ PAGE_SIZE then
      (writePage H fuel s.currentPageAddress s.pageData PAGE_SIZE s.dev).map
        (fun r => (not8 addr_l, { s with dev := r.2 }))
    else
      some (addr_l, s)
  else
    some (data, s)

/-- The body of the second `while` loop of `loop()`: read six bytes, check the
markers, execute the command and send the response. -/
def loop_body (fuel : Nat) (s : Firmware σ) : Option (Firmware σ) :=
  let r0 := Serial_read s
  let r1 := Serial_read r0.2
  let r2 := Serial_read r1.2
  let r3 := Serial_read r2.2
  let r4 := Serial_read r3.2
  let r5 := Serial_read r4.2
  let sop := r0.1
  let cmd := r1.1
  let addr_l := r2.1
  let addr_h := r3.1
  let data := r4.1
  let eop := r5.1
  let s := r5.2
  if sop ≠ PKG_START ∨ eop ≠ PKG_END then
    some s
  else
    let addr := (addr_l ||| (addr_h <<< 8)) % 65536
    (loop_switch H fuel cmd addr_l addr_h data addr s).map (fun r =>
      let data := r.1
      let s := Serial_write sop r.2
      let s := Serial_write data s
      let s := Serial_write (not8 data) s
      Serial_write eop s)

/-- The first `while` loop of `loop()`:
`while (Serial.available() > 0 && Serial.peek() != PKG_START) Serial.read();`
by recursion on the receive buffer (`b` is what `Serial.peek()` returns, `rest`
what is left after `Serial.read()`). -/
def loop_seek_rx : List Nat → List Nat
  | [] => []
  | b :: rest => if b ≠ PKG_START then loop_seek_rx rest else b :: rest

/-- The first `while` loop of `loop()` on the firmware state. -/
def loop_seek (s : Firmware σ) : Firmware σ :=
  { s with rx := loop_seek_rx s.rx }

/-- The second `while` loop of `loop()`: `while (Serial.available() >= 6) { ... }`
with at most `n` iterations; every polling loop inside gets `fuel`. -/
def loop_frames (fuel : Nat) : Nat → Firmware σ → Option (Firmware σ)
  | 0, s => if Serial_available s ≥ 6 then none else some s
  | n + 1, s =>
    if Serial_available s ≥ 6 then
      (loop_body H fuel s).bind (loop_frames fuel n)
    else some s

/-- One call of `loop()`; `fuel` bounds the iterations of every `while` loop. -/
def loop (fuel : Nat) (s : Firmware σ) : Option (Firmware σ) :=
  loop_frames H fuel fuel (loop_seek s)

end Dispatcher

/-! ## The electrical side: address latch, data bus, an ideal EEPROM

Nothing below is firmware code.  `Lines` reconstructs, from the API calls, the
state of the wires the microcontroller drives; `idealChip` is the ideal memory
chip against which the round-trip properties are stated. -/

/-- Modelled from the spec: the wires driven by the microcontroller, with the
16-bit address latch of section 4.1 ("serializes the address
most-significant-byte-first into a shift register, then pulses a register-clock
line to latch the new value onto the address bus outputs").  `mode` and `level`
are the direction and output level last written to each pin, `shiftReg` the
contents of the shift register and `addr` the latched address outputs. -/
structure Lines where
  mode : Pin → PinMode
  level : Pin → Bool
  shiftReg : Nat
  addr : Nat

/-- Effect of one API call on the wires: `pinMode` and `digitalWrite` set the
direction and level of their pin; `shiftOut` on the address pins pushes eight
bits, most significant first, into the 16-bit shift register and leaves the
data pin at the last bit and the clock low; writing `HIGH` to the register
clock copies the shift register to the address outputs. -/
def Lines.step (c : Call) (l : Lines) : Lines :=
  match c with
  | Call.pinMode p m => { l with mode := fun q => if q = p then m else l.mode q }
  | Call.digitalWrite p v =>
    { l with
      level := fun q => if q = p then v else l.level q,
      addr := if p = Pin.EEPROM_ADR_RCLK ∧ v = HIGH then l.shiftReg else l.addr }
  | Call.digitalRead _ => l
  | Call.shiftOut d c v =>
    { l with
      level := fun q => if q = c then LOW else if q = d then decide (v % 2 = 1) else l.level q,
      shiftReg :=
        if d = Pin.EEPROM_ADR_DATA ∧ c = Pin.EEPROM_ADR_SCLK then
          (l.shiftReg * 256 + v % 256) % 65536
        else l.shiftReg }
  | Call.delay _ => l

/-- The wires after a sequence of API calls. -/
def Lines.run (l : Lines) (cs : List Call) : Lines :=
  cs.foldl (fun l c => l.step c) l

/-- The byte on the data bus as driven by the microcontroller: bit `i` is the
level of `EEPROM_IO_i`. -/
def Lines.busByte (l : Lines) : Nat :=
  (if l.level Pin.EEPROM_IO_0 then 1 else 0) +
  (if l.level Pin.EEPROM_IO_1 then 2 else 0) +
  (if l.level Pin.EEPROM_IO_2 then 4 else 0) +
  (if l.level Pin.EEPROM_IO_3 then 8 else 0) +
  (if l.level Pin.EEPROM_IO_4 then 16 else 0) +
  (if l.level Pin.EEPROM_IO_5 then 32 else 0) +
  (if l.level Pin.EEPROM_IO_6 then 64 else 0) +
  (if l.level Pin.EEPROM_IO_7 then 128 else 0)

/-- The write strobes contained in a sequence of API calls, oldest first: each
assertion of write-enable (`digitalWrite(EEPROM_WE, LOW)`) is listed with the
address latched and the byte driven on the data bus at that moment. -/
def writeStrobes : Lines → List Call → List (Nat × Nat)
  | _, [] => []
  | l, c :: cs =>
    if c = Call.digitalWrite Pin.EEPROM_WE LOW then
      (l.addr, l.busByte) :: writeStrobes (l.step c) cs
    else writeStrobes (l.step c) cs

/-- Index of a data-bus pin. -/
def ioIndex : Pin → Option Nat
  | Pin.EEPROM_IO_0 => some 0
  | Pin.EEPROM_IO_1 => some 1
  | Pin.EEPROM_IO_2 => some 2
  | Pin.EEPROM_IO_3 => some 3
  | Pin.EEPROM_IO_4 => some 4
  | Pin.EEPROM_IO_5 => some 5
  | Pin.EEPROM_IO_6 => some 6
  | Pin.EEPROM_IO_7 => some 7
  | _ => none

/-- State of the ideal chip: the wires and the stored bytes. -/
structure Ideal where
  lines : Lines
  mem : Nat → Nat

/-- Ideal chip, write side: asserting write-enable while chip-enable is asserted
and output-enable is de-asserted stores the data-bus byte at the latched
address; nothing else changes the memory. -/
def Ideal.react (c : Call) (s : Ideal) : Ideal :=
  { lines := s.lines.step c,
    mem :=
      if c = Call.digitalWrite Pin.EEPROM_WE LOW ∧ s.lines.level Pin.EEPROM_CE = LOW ∧
          s.lines.level Pin.EEPROM_OE = HIGH then
        fun a => if a = s.lines.addr then s.lines.busByte else s.mem a
      else s.mem }

/-- Ideal chip, read side: with chip-enable and output-enable asserted, data
line `i` carries bit `i` of the byte stored at the latched address; otherwise a
pin reads back the level last written to it. -/
def Ideal.sample (p : Pin) (s : Ideal) : Bool :=
  match ioIndex p with
  | some i =>
    if s.lines.level Pin.EEPROM_CE = LOW ∧ s.lines.level Pin.EEPROM_OE = LOW then
      (s.mem s.lines.addr).testBit i
    else s.lines.level p
  | none => s.lines.level p

/-- The ideal chip as external hardware, under an arbitrary clock. -/
def idealChip (clock : Nat → Nat) : Hardware Ideal :=
  { react := Ideal.react, sample := Ideal.sample, clock := clock }

/-- A chip that never answers: every data line always reads low. -/
def deadChip (clock : Nat → Nat) : Hardware Unit :=
  { react := fun _ u => u, sample := fun _ _ => false, clock := clock }

/-- The millisecond counter keeps running: after any call of `millis()` some
later call sees at least `WRITE_TIMEOUT_MS` elapsed on the 32-bit counter. -/
def ClockAdvances (clock : Nat → Nat) : Prop :=
  ∀ k, ∃ j, WRITE_TIMEOUT_MS ≤ elapsed (clock (k + 1 + j)) (clock k)

/-- Wires at power-up: every pin an input at low level, registers cleared. -/
def Lines.reset : Lines :=
  { mode := fun _ => PinMode.INPUT, level := fun _ => LOW, shiftReg := 0, addr := 0 }

/-- A driver state with an empty call log. -/
def Dev.init {σ : Type} (hw : σ) : Dev σ := { hw := hw, log := [], ticks := 0 }

/-- A firmware state as left by the global initialisers of `main.cpp`, with the
given receive buffer. -/
def Firmware.init {σ : Type} (hw : σ) (rx : List Nat) : Firmware σ :=
  { dev := Dev.init hw, rx := rx, tx := [], pageData := fun _ => 0,
    currentPageAddress := 0, currentPageOffset := 0 }

/-! ## Call sequences of the driver routines

Auxiliary definitions for the proofs: the list of API calls each routine
issues, and the replay of such a list on a driver state. -/

/-- Replay of a list of API calls on a driver state. -/
def Dev.run {σ : Type} (H : Hardware σ) (cs : List Call) (s : Dev σ) : Dev σ :=
  { hw := cs.foldl (fun h c => H.react c h) s.hw, log := s.log ++ cs, ticks := s.ticks }

/-- The calls of `_set_bus_mode(mode)`. -/
def busModeCalls (mode : PinMode) : List Call :=
  [Call.pinMode Pin.EEPROM_IO_0 mode, Call.pinMode Pin.EEPROM_IO_1 mode,
   Call.pinMode Pin.EEPROM_IO_2 mode, Call.pinMode Pin.EEPROM_IO_3 mode,
   Call.pinMode Pin.EEPROM_IO_4 mode, Call.pinMode Pin.EEPROM_IO_5 mode,
   Call.pinMode Pin.EEPROM_IO_6 mode, Call.pinMode Pin.EEPROM_IO_7 mode]

/-- The calls of `_set_addr(address)`. -/
def setAddrCalls (address : Nat) : List Call :=
  [Call.shiftOut Pin.EEPROM_ADR_DATA Pin.EEPROM_ADR_SCLK (((address >>> 8) &&& 0xFF) % 256),
   Call.shiftOut Pin.EEPROM_ADR_DATA Pin.EEPROM_ADR_SCLK ((address &&& 0xFF) % 256),
   Call.digitalWrite Pin.EEPROM_ADR_RCLK HIGH, Call.digitalWrite Pin.EEPROM_ADR_RCLK LOW]

/-- The calls of `_write_bus(data)`. -/
def writeBusCalls (data : Nat) : List Call :=
  busModeCalls PinMode.OUTPUT ++
  [Call.digitalWrite Pin.EEPROM_IO_0 (if CHECK_BIT data 0 ≠ 0 then HIGH else LOW),
   Call.digitalWrite Pin.EEPROM_IO_1 (if CHECK_BIT data 1 ≠ 0 then HIGH else LOW),
   Call.digitalWrite Pin.EEPROM_IO_2 (if CHECK_BIT data 2 ≠ 0 then HIGH else LOW),
   Call.digitalWrite Pin.EEPROM_IO_3 (if CHECK_BIT data 3 ≠ 0 then HIGH else LOW),
   Call.digitalWrite Pin.EEPROM_IO_4 (if CHECK_BIT data 4 ≠ 0 then HIGH else LOW),
   Call.digitalWrite Pin.EEPROM_IO_5 (if CHECK_BIT data 5 ≠ 0 then HIGH else LOW),
   Call.digitalWrite Pin.EEPROM_IO_6 (if CHECK_BIT data 6 ≠ 0 then HIGH else LOW),
   Call.digitalWrite Pin.EEPROM_IO_7 (if CHECK_BIT data 7 ≠ 0 then HIGH else LOW)]

/-- The calls of `_read_bus()`. -/
def readBusCalls : List Call :=
  busModeCalls PinMode.INPUT ++
  [Call.digitalRead Pin.EEPROM_IO_0, Call.digitalRead Pin.EEPROM_IO_1,
   Call.digitalRead Pin.EEPROM_IO_2, Call.digitalRead Pin.EEPROM_IO_3,
   Call.digitalRead Pin.EEPROM_IO_4, Call.digitalRead Pin.EEPROM_IO_5,
   Call.digitalRead Pin.EEPROM_IO_6, Call.digitalRead Pin.EEPROM_IO_7]

/-- The calls of `_write_eeprom(address, data)`: one write strobe. -/
def strobeCalls (address data : Nat) : List Call :=
  setAddrCalls address ++ writeBusCalls data ++
  [Call.digitalWrite Pin.EEPROM_WE LOW, Call.digitalWrite Pin.EEPROM_WE HIGH]

/-- The calls of `readByte(address)`. -/
def readByteCalls (address : Nat) : List Call :=
  busModeCalls PinMode.INPUT ++
  [Call.digitalWrite Pin.EEPROM_OE LOW, Call.digitalWrite Pin.EEPROM_CE LOW] ++
  setAddrCalls address ++ readBusCalls ++
  [Call.digitalWrite Pin.EEPROM_OE HIGH, Call.digitalWrite Pin.EEPROM_CE HIGH]

/-- The calls of `writeByte(address, data)` up to and including the
de-selection of the chip, before the polling starts. -/
def writeByteCalls (address data : Nat) : List Call :=
  [Call.digitalWrite Pin.EEPROM_OE HIGH] ++ busModeCalls PinMode.OUTPUT ++
  [Call.digitalWrite Pin.EEPROM_CE LOW] ++ strobeCalls address data ++
  [Call.digitalWrite Pin.EEPROM_CE HIGH]

/-- The calls of the programming loop of `writePage`, from index `i` for `n`
iterations. -/
def programCalls (start : Nat) (data : Nat → Nat) : Nat → Nat → List Call
  | 0, _ => []
  | n + 1, i => strobeCalls ((i + start) % 65536) (data i) ++ programCalls start data n (i + 1)

/-- A sample clock: the `n`-th call of `millis()` happens at `n` ms. -/
def tickClock : Nat → Nat := fun n => n

/-- A sample clock that jumps by a whole timeout per call of `millis()`. -/
def slowClock : Nat → Nat := fun n => 100 * n

/-- The byte `_read_bus` accumulates from the eight sampled levels `b0 .. b7`
(the eight `data |= (... ? 1 : 0) << i` statements, starting from `data = 0`). -/
def assemble (b0 b1 b2 b3 b4 b5 b6 b7 : Bool) : Nat :=
  ((((((((((((((((0 ||| ((if b0 then 1 else 0) <<< 0)) % 256) |||
    ((if b1 then 1 else 0) <<< 1)) % 256) |||
    ((if b2 then 1 else 0) <<< 2)) % 256) |||
    ((if b3 then 1 else 0) <<< 3)) % 256) |||
    ((if b4 then 1 else 0) <<< 4)) % 256) |||
    ((if b5 then 1 else 0) <<< 5)) % 256) |||
    ((if b6 then 1 else 0) <<< 6)) % 256) |||
    ((if b7 then 1 else 0) <<< 7)) % 256)

/-- An erased ideal chip (every byte `0xFF`) with the wires at power-up. -/
def Ideal.erased : Ideal := { lines := Lines.reset, mem := fun _ => 0xFF }

/-! ## Page-write frame sequences -/

/-- The frame `PAGE_WRITE_START` with address bytes `addr_l`, `addr_h` and first
data byte `d0`. -/
def startFrame (addr_l addr_h d0 : Nat) : List Nat :=
  [0x7B, 0xCC, addr_l, addr_h, d0, 0x7D]

/-- The concatenation of `PAGE_WRITE_DATA` frames, one per payload triple. -/
def dataFrames : List (Nat × Nat × Nat) → List Nat
  | [] => []
  | f :: fs => [0x7B, 0xCD, f.1, f.2.1, f.2.2, 0x7D] ++ dataFrames fs

/-- The payload bytes of a list of data frames, in frame order. -/
def payloadBytes : List (Nat × Nat × Nat) → List Nat
  | [] => []
  | f :: fs => [f.1, f.2.1, f.2.2] ++ payloadBytes fs

/-- The acknowledgements of data frames that do not commit the page: each echoes
the first payload byte of its frame. -/
def echoAcks : List (Nat × Nat × Nat) → List Nat
  | [] => []
  | f :: fs => [0x7B, f.1, 255 - f.1, 0x7D] ++ echoAcks fs

/-- Several `pageData[currentPageOffset++] = v;` statements in a row. -/
def pageData_pushAll {σ : Type} (vs : List Nat) (s : Firmware σ) : Firmware σ :=
  vs.foldl (fun s v => pageData_push v s) s

/-- A list of calls without any assertion of write-enable. -/
def NoStrobe (cs : List Call) : Prop :=
  ∀ c ∈ cs, c ≠ Call.digitalWrite Pin.EEPROM_WE LOW

/-- The bytes of a list of six-byte windows, in order. -/
def windowsBytes : List (List Nat) → List Nat
  | [] => []
  | w :: ws => w ++ windowsBytes ws

/-- A six-byte window of bytes that the framer rejects: the first byte is not
`PKG_START` or the sixth is not `PKG_END`. -/
def Malformed (w : List Nat) : Prop :=
  w.length = 6 ∧ (∀ b ∈ w, b < 256) ∧ (w.getD 0 0 ≠ PKG_START ∨ w.getD 5 0 ≠ PKG_END)

/-! ## The polls of `writeByte` as a sequence -/

/-- The state in which the polling loop of `writeByte(address, data)` starts: the
statements of `writeByte` up to and including `long start = millis();`. -/
def writeByte_strobed {σ : Type} (H : Hardware σ) (address data : Nat) (s : Dev σ) : Dev σ :=
  let s := _set_output_enable H false s
  let s := _set_bus_mode H PinMode.OUTPUT s
  let s := _set_chip_enable H true s
  let s := _write_eeprom H address data s
  let s := _set_chip_enable H false s
  (millis H s).2

/-- The state after `j` polls of `readByte(address)` that each went through the
loop body (one `readByte` and one `millis()` per poll). -/
def afterPolls {σ : Type} (H : Hardware σ) (address : Nat) : Nat → Dev σ → Dev σ
  | 0, s => s
  | j + 1, s => afterPolls H address j (millis H (readByte H address s).2).2

/-- The byte the `j`-th read-back poll (counted from 0) of `address` returns when
polling starts in state `s`. -/
def readback {σ : Type} (H : Hardware σ) (address : Nat) (j : Nat) (s : Dev σ) : Nat :=
  (readByte H address (afterPolls H address j s)).1

/-- A bus that holds its charge: every pin reads back the level last driven on
it (nothing external drives the lines). -/
def busHold (clock : Nat → Nat) : Hardware Lines :=
  { react := Lines.step, sample := fun p l => l.level p, clock := clock }


/-! ## Shapes of call sequences -/

/-- The calls of several write strobes in a row. -/
def strobesCalls : List (Nat × Nat) → List Call
  | [] => []
  | p :: ps => strobeCalls p.1 p.2 ++ strobesCalls ps

/-- A call that writes the chip-enable or the output-enable line. -/
def touchesEnable : Call → Bool
  | Call.digitalWrite p _ => decide (p = Pin.EEPROM_CE) || decide (p = Pin.EEPROM_OE)
  | _ => false

/-- A call that samples a pin. -/
def isRead : Call → Bool
  | Call.digitalRead _ => true
  | _ => false

/-! ## The bus-state invariant on the wires -/

/-- All eight data pins have direction `m`. -/
def Lines.busAll (l : Lines) (m : PinMode) : Prop :=
  l.mode Pin.EEPROM_IO_0 = m ∧ l.mode Pin.EEPROM_IO_1 = m ∧ l.mode Pin.EEPROM_IO_2 = m ∧
  l.mode Pin.EEPROM_IO_3 = m ∧ l.mode Pin.EEPROM_IO_4 = m ∧ l.mode Pin.EEPROM_IO_5 = m ∧
  l.mode Pin.EEPROM_IO_6 = m ∧ l.mode Pin.EEPROM_IO_7 = m

/-- The bus-state invariant of the data model: the data bus is an output whenever
write-enable is asserted (low), an input whenever output-enable is asserted
(low), and the two enables are never asserted together. -/
def BusInvariant (l : Lines) : Prop :=
  (l.level Pin.EEPROM_WE = LOW → l.busAll PinMode.OUTPUT) ∧
  (l.level Pin.EEPROM_OE = LOW → l.busAll PinMode.INPUT) ∧
  ¬(l.level Pin.EEPROM_OE = LOW ∧ l.level Pin.EEPROM_WE = LOW)

/-- The invariant holds in every pin state a sequence of calls goes through,
starting from the wires `l` (the state after each call is checked). -/
def busSafe : Lines → List Call → Prop
  | _, [] => True
  | l, c :: cs => BusInvariant (l.step c) ∧ busSafe (l.step c) cs

/-- A summary of the wires between driver statements: a uniform data-bus
direction and the levels of the three control lines. -/
structure BusView where
  bus : PinMode
  ce : Bool
  oe : Bool
  we : Bool
  deriving DecidableEq, Repr

/-- The wires `l` are summarised by the view `v`. -/
def Lines.hasView (l : Lines) (v : BusView) : Prop :=
  l.busAll v.bus ∧ l.level Pin.EEPROM_CE = v.ce ∧ l.level Pin.EEPROM_OE = v.oe ∧
  l.level Pin.EEPROM_WE = v.we

/-- From any wires summarised by `v`, the calls `cs` keep the bus-state invariant
in every intermediate pin state and end in wires summarised by `w`. -/
def Block (cs : List Call) (v w : BusView) : Prop :=
  ∀ l : Lines, l.hasView v → busSafe l cs ∧ (l.run cs).hasView w

/-- The views in which a public driver routine may be entered: write-enable is
de-asserted, and the data bus is an input unless output-enable is de-asserted
too. -/
def BusView.idle (v : BusView) : Prop :=
  v.we = HIGH ∧ (v.bus = PinMode.INPUT ∨ v.oe = HIGH)

/-- The calls of `initEEPROM()`. -/
def initCalls : List Call :=
  busModeCalls PinMode.INPUT ++
  [Call.pinMode Pin.EEPROM_ADR_DATA PinMode.OUTPUT,
   Call.pinMode Pin.EEPROM_ADR_SCLK PinMode.OUTPUT,
   Call.pinMode Pin.EEPROM_ADR_RCLK PinMode.OUTPUT,
   Call.digitalWrite Pin.EEPROM_CE HIGH, Call.digitalWrite Pin.EEPROM_OE HIGH,
   Call.digitalWrite Pin.EEPROM_WE HIGH,
   Call.pinMode Pin.EEPROM_CE PinMode.OUTPUT, Call.pinMode Pin.EEPROM_OE PinMode.OUTPUT,
   Call.pinMode Pin.EEPROM_WE PinMode.OUTPUT]

/-- The calls of `writePage(start, data, len)` before its polling loop. -/
def writePageCalls (start : Nat) (data : Nat → Nat) (len : Nat) : List Call :=
  [Call.digitalWrite Pin.EEPROM_OE HIGH] ++ busModeCalls PinMode.OUTPUT ++
  [Call.digitalWrite Pin.EEPROM_CE LOW] ++ programCalls start data len 0 ++
  (busModeCalls PinMode.INPUT ++ [Call.digitalWrite Pin.EEPROM_OE LOW] ++ setAddrCalls start)

/-- The calls of one SDP command with the given strobes. -/
def sdpCalls (ps : List (Nat × Nat)) : List Call :=
  [Call.digitalWrite Pin.EEPROM_OE HIGH, Call.digitalWrite Pin.EEPROM_CE LOW] ++
  (busModeCalls PinMode.OUTPUT ++ strobesCalls ps) ++ [Call.digitalWrite Pin.EEPROM_CE HIGH]

/-! ## Sequences of public driver operations -/

/-- One call of a public operation of the chip driver. -/
inductive PublicOp
  | readByte (address : Nat)
  | writeByte (address data : Nat)
  | writePage (start : Nat) (data : Nat → Nat) (len : Nat)
  | sdp_enable
  | sdp_disable
  | chip_erase
  | ensureSDPDisabled

/-- Run one public operation; only the resulting driver state is kept. -/
def PublicOp.exec {σ : Type} (H : Hardware σ) (fuel : Nat) : PublicOp → Dev σ → Option (Dev σ)
  | PublicOp.readByte a, s => some (PEEPROM.readByte H a s).2
  | PublicOp.writeByte a d, s => (PEEPROM.writeByte H fuel a d s).map (fun r => r.2)
  | PublicOp.writePage st data len, s => (PEEPROM.writePage H fuel st data len s).map (fun r => r.2)
  | PublicOp.sdp_enable, s => some (PEEPROM.sdp_enable H s)
  | PublicOp.sdp_disable, s => some (PEEPROM.sdp_disable H s)
  | PublicOp.chip_erase, s => some (PEEPROM.chip_erase H s)
  | PublicOp.ensureSDPDisabled, s => some (PEEPROM.ensureSDPDisabled H s)

/-- Run a sequence of public operations, one after the other. -/
def execOps {σ : Type} (H : Hardware σ) (fuel : Nat) : List PublicOp → Dev σ → Option (Dev σ)
  | [], s => some s
  | op :: ops, s => (op.exec H fuel s).bind (execOps H fuel ops)

/-- The calls of `n` iterations of the loop of `ensureSDPDisabled` with test byte
`e`. -/
def sdpDisableLoopCalls (e : Nat) : Nat → List Call
  | 0 => []
  | n + 1 =>
    sdpCalls [(0x5555, 0xAA), (0x2AAA, 0x55), (0x5555, 0x80),
      (0x5555, 0xAA), (0x2AAA, 0x55), (0x5555, 0x20)] ++ writeByteCalls 0 e ++
    sdpDisableLoopCalls e n

/-- Chip-enable, output-enable and write-enable are all de-asserted (the lines
are active low). -/
def Lines.released (l : Lines) : Prop :=
  l.level Pin.EEPROM_CE = HIGH ∧ l.level Pin.EEPROM_OE = HIGH ∧ l.level Pin.EEPROM_WE = HIGH

/-- The calls of the completion poll of `writePage` after the start time is taken:
`n` rounds of `_read_bus()`, followed on success by the de-assertion of
output-enable and chip-enable. -/
def pollCalls : Nat → Bool → List Call
  | 0, ok =>
    if ok then [Call.digitalWrite Pin.EEPROM_OE HIGH, Call.digitalWrite Pin.EEPROM_CE HIGH]
    else []
  | n + 1, ok => readBusCalls ++ pollCalls n ok

/-- One iteration of the `for (;;)` loop of `ensureSDPEnabled`: `sdp_enable()`
followed by the verification write `writeByte(0x00, e)`, with the value the
write returned. -/
def ensureSDPEnabled_body {σ : Type} (H : Hardware σ) (fuel e : Nat) (s : Dev σ) :
    Option (Bool × Dev σ) :=
  writeByte H fuel 0x00 e (sdp_enable H s)

/-- The driver state after `k` iterations of the loop of `ensureSDPEnabled` whose
verification writes all returned true. -/
def ensureSDPEnabled_iter {σ : Type} (H : Hardware σ) (fuel e : Nat) :
    Nat → Dev σ → Option (Dev σ)
  | 0, s => some s
  | k + 1, s =>
    match ensureSDPEnabled_body H fuel e s with
    | none => none
    | some r => if r.1 = true then ensureSDPEnabled_iter H fuel e k r.2 else none

/-- The concatenation of `READ` frames, one per triple `(addr_l, addr_h, x)`; the
data field `x` of a `READ` frame is ignored by the firmware. -/
def readFrames : List (Nat × Nat × Nat) → List Nat
  | [] => []
  | f :: fs => [0x7B, 0xAA, f.1, f.2.1, f.2.2, 0x7D] ++ readFrames fs

/-- The responses to a list of `READ` frames on a chip whose memory is `mem`: each
carries the byte stored at the address of its frame and the complement of it. -/
def readAcks (mem : Nat → Nat) : List (Nat × Nat × Nat) → List Nat
  | [] => []
  | f :: fs =>
    [0x7B, mem (f.1 + 256 * f.2.1) % 256, 255 - mem (f.1 + 256 * f.2.1) % 256, 0x7D] ++
      readAcks mem fs

/-! ## Replay lemmas: every driver routine as a list of API calls -/

section Replay

variable {σ : Type} (H : Hardware σ)

theorem Dev.run_nil (s : Dev σ) : Dev.run H [] s = s := by
  simp [Dev.run]

theorem call_eq_run (c : Call) (s : Dev σ) : call H c s = Dev.run H [c] s := by
  simp [call, Dev.run]

theorem Dev.run_run (cs ds : List Call) (s : Dev σ) :
    Dev.run H ds (Dev.run H cs s) = Dev.run H (cs ++ ds) s := by
  simp [Dev.run, List.foldl_append]

theorem _set_bus_mode_eq (mode : PinMode) (s : Dev σ) :
    _set_bus_mode H mode s = Dev.run H (busModeCalls mode) s := by
  simp [_set_bus_mode, pinMode, call_eq_run, Dev.run_run, busModeCalls]

theorem _set_addr_eq (a : Nat) (s : Dev σ) :
    _set_addr H a s = Dev.run H (setAddrCalls a) s := by
  simp [_set_addr, shiftOut, digitalWrite, call_eq_run, Dev.run_run, setAddrCalls]

theorem _write_bus_eq (d : Nat) (s : Dev σ) :
    _write_bus H d s = Dev.run H (writeBusCalls d) s := by
  simp only [_write_bus, _set_bus_mode_eq, digitalWrite, call_eq_run, Dev.run_run, writeBusCalls,
    List.append_assoc, List.cons_append, List.nil_append]

theorem _set_chip_enable_eq (b : Bool) (s : Dev σ) :
    _set_chip_enable H b s =
      Dev.run H [Call.digitalWrite Pin.EEPROM_CE (if b then LOW else HIGH)] s := by
  simp [_set_chip_enable, digitalWrite, call_eq_run]

theorem _set_output_enable_eq (b : Bool) (s : Dev σ) :
    _set_output_enable H b s =
      Dev.run H [Call.digitalWrite Pin.EEPROM_OE (if b then LOW else HIGH)] s := by
  simp [_set_output_enable, digitalWrite, call_eq_run]

theorem _set_write_enable_eq (b : Bool) (s : Dev σ) :
    _set_write_enable H b s =
      Dev.run H [Call.digitalWrite Pin.EEPROM_WE (if b then LOW else HIGH)] s := by
  simp [_set_write_enable, digitalWrite, call_eq_run]

theorem _write_eeprom_eq (a d : Nat) (s : Dev σ) :
    _write_eeprom H a d s = Dev.run H (strobeCalls a d) s := by
  simp [_write_eeprom, _set_addr_eq, _write_bus_eq, _set_write_enable_eq, Dev.run_run,
    strobeCalls]

theorem _read_bus_bit_snd (pin : Pin) (pos : Nat) (a : Nat × Dev σ) :
    (_read_bus_bit H pin pos a).2 = Dev.run H [Call.digitalRead pin] a.2 := by
  simp [_read_bus_bit, digitalRead, call_eq_run]

theorem _read_bus_snd (s : Dev σ) : (_read_bus H s).2 = Dev.run H readBusCalls s := by
  simp [_read_bus, _read_bus_bit_snd, _set_bus_mode_eq, Dev.run_run, readBusCalls]

theorem _read_bus_lt (s : Dev σ) : (_read_bus H s).1 < 256 := by
  simp only [_read_bus, _read_bus_bit]
  exact Nat.mod_lt _ (by norm_num)

theorem readByte_snd (a : Nat) (s : Dev σ) :
    (readByte H a s).2 = Dev.run H (readByteCalls a) s := by
  simp [readByte, _read_bus_snd, _set_bus_mode_eq, _set_output_enable_eq, _set_chip_enable_eq,
    _set_addr_eq, Dev.run_run, readByteCalls]

theorem readByte_lt (a : Nat) (s : Dev σ) : (readByte H a s).1 < 256 := by
  simp only [readByte]
  exact _read_bus_lt H _

theorem writePage_program_eq (start : Nat) (data : Nat → Nat) (n i : Nat) (s : Dev σ) :
    writePage_program H start data n i s = Dev.run H (programCalls start data n i) s := by
  induction n generalizing i s with
  | zero => simp [writePage_program, programCalls, Dev.run_nil]
  | succ n ih =>
    simp [writePage_program, programCalls, ih, _set_addr_eq, _write_bus_eq,
      _set_write_enable_eq, Dev.run_run, strobeCalls]

end Replay
/-! ## Termination of the polling loops -/

section Termination

variable {σ : Type} (H : Hardware σ)

theorem elapsed_mod_left (now start : Nat) : elapsed (now % 2 ^ 32) start = elapsed now start := by
  simp [elapsed]

theorem elapsed_mod_right (now start : Nat) : elapsed now (start % 2 ^ 32) = elapsed now start := by
  simp [elapsed]

theorem Dev.run_ticks (cs : List Call) (s : Dev σ) : (Dev.run H cs s).ticks = s.ticks := rfl

theorem Dev.run_log (cs : List Call) (s : Dev σ) : (Dev.run H cs s).log = s.log ++ cs := rfl

theorem writeByte_poll_some (a d start : Nat) (j : Nat) :
    ∀ s : Dev σ, WRITE_TIMEOUT_MS ≤ elapsed (H.clock (s.ticks + j)) start →
      ∀ fuel, j + 1 ≤ fuel → ∃ r, writeByte_poll H a d start fuel s = some r := by
  induction j with
  | zero =>
    intro s h fuel hf
    obtain ⟨f, rfl⟩ : ∃ f, fuel = f + 1 := ⟨fuel - 1, by omega⟩
    simp only [writeByte_poll]
    by_cases hne : (readByte H a s).1 ≠ d
    · have ht : WRITE_TIMEOUT_MS ≤ elapsed (millis H (readByte H a s).2).1 start := by
        simpa [millis, readByte_snd, Dev.run_ticks, elapsed] using h
      simp [hne, ht]
    · simp [hne]
  | succ j ih =>
    intro s h fuel hf
    obtain ⟨f, rfl⟩ : ∃ f, fuel = f + 1 := ⟨fuel - 1, by omega⟩
    simp only [writeByte_poll]
    by_cases hne : (readByte H a s).1 ≠ d
    · by_cases ht : WRITE_TIMEOUT_MS ≤ elapsed (millis H (readByte H a s).2).1 start
      · simp [hne, ht]
      · rw [if_pos hne, if_neg ht]
        apply ih
        · have : (millis H (readByte H a s).2).2.ticks = s.ticks + 1 := by
            simp [millis, readByte_snd, Dev.run_ticks]
          rw [this]
          have e : s.ticks + 1 + j = s.ticks + (j + 1) := by omega
          rw [e]; exact h
        · omega
    · simp [hne]

theorem writeByte_some (hclk : ClockAdvances H.clock) (a d : Nat) (s : Dev σ) :
    ∃ N, ∀ fuel, N ≤ fuel → ∃ r, writeByte H fuel a d s = some r := by
  obtain ⟨j, hj⟩ := hclk s.ticks
  refine ⟨j + 1, fun fuel hf => ?_⟩
  simp only [writeByte]
  apply writeByte_poll_some H a d _ j _ _ fuel hf
  simpa [millis, _set_output_enable_eq, _set_bus_mode_eq, _set_chip_enable_eq, _write_eeprom_eq,
    Dev.run_run, Dev.run_ticks, elapsed] using hj

theorem writePage_poll_some (d0 start : Nat) (j : Nat) :
    ∀ s : Dev σ, WRITE_TIMEOUT_MS ≤ elapsed (H.clock (s.ticks + j)) start →
      ∀ fuel, j + 1 ≤ fuel → ∃ r, writePage_poll H d0 start fuel s = some r := by
  induction j with
  | zero =>
    intro s h fuel hf
    obtain ⟨f, rfl⟩ : ∃ f, fuel = f + 1 := ⟨fuel - 1, by omega⟩
    simp only [writePage_poll]
    by_cases hne : (_read_bus H s).1 ≠ d0
    · have ht : WRITE_TIMEOUT_MS ≤ elapsed (millis H (_read_bus H s).2).1 start := by
        simpa [millis, _read_bus_snd, Dev.run_ticks, elapsed] using h
      simp [hne, ht]
    · simp [hne]
  | succ j ih =>
    intro s h fuel hf
    obtain ⟨f, rfl⟩ : ∃ f, fuel = f + 1 := ⟨fuel - 1, by omega⟩
    simp only [writePage_poll]
    by_cases hne : (_read_bus H s).1 ≠ d0
    · by_cases ht : WRITE_TIMEOUT_MS ≤ elapsed (millis H (_read_bus H s).2).1 start
      · simp [hne, ht]
      · rw [if_pos hne, if_neg ht]
        apply ih
        · have : (millis H (_read_bus H s).2).2.ticks = s.ticks + 1 := by
            simp [millis, _read_bus_snd, Dev.run_ticks]
          rw [this]
          have e : s.ticks + 1 + j = s.ticks + (j + 1) := by omega
          rw [e]; exact h
        · omega
    · simp [hne]

theorem writePage_some (hclk : ClockAdvances H.clock) (start : Nat) (data : Nat → Nat)
    (len : Nat) (s : Dev σ) :
    ∃ N, ∀ fuel, N ≤ fuel → ∃ r, writePage H fuel start data len s = some r := by
  obtain ⟨j, hj⟩ := hclk s.ticks
  refine ⟨j + 1, fun fuel hf => ?_⟩
  simp only [writePage]
  apply writePage_poll_some H _ _ j _ _ fuel hf
  simpa [millis, _set_output_enable_eq, _set_bus_mode_eq, _set_chip_enable_eq,
    writePage_program_eq, _set_addr_eq, Dev.run_run, Dev.run_ticks, elapsed] using hj

end Termination
/-! ## One iteration of the framing loop -/

section Framing

variable {σ : Type} (H : Hardware σ)

theorem addr_assemble (addr_l addr_h : Nat) (hl : addr_l < 256) (hh : addr_h < 256) :
    (addr_l ||| (addr_h <<< 8)) % 65536 = addr_l + 256 * addr_h := by
  have h : 2 ^ 8 * addr_h + addr_l = 2 ^ 8 * addr_h ||| addr_l :=
    Nat.mul_add_lt_is_or (by simpa using hl) addr_h
  rw [Nat.or_comm, Nat.shiftLeft_eq, Nat.mul_comm, ← h]
  omega

theorem not8_lt (x : Nat) : not8 x < 256 := by
  simp only [not8]; omega

theorem not8_of_lt (x : Nat) (h : x < 256) : not8 x = 255 - x := by
  simp only [not8]; rw [Nat.mod_eq_of_lt h]

theorem not8_not8 (x : Nat) (h : x < 256) : not8 (not8 x) = x := by
  simp only [not8]; omega

theorem loop_body_cons (fuel : Nat) (s : Firmware σ) (b0 b1 b2 b3 b4 b5 : Nat) (rest : List Nat)
    (hrx : s.rx = b0 :: b1 :: b2 :: b3 :: b4 :: b5 :: rest) :
    loop_body H fuel s =
      if b0 % 256 ≠ PKG_START ∨ b5 % 256 ≠ PKG_END then some { s with rx := rest }
      else
        (loop_switch H fuel (b1 % 256) (b2 % 256) (b3 % 256) (b4 % 256)
            ((b2 % 256 ||| ((b3 % 256) <<< 8)) % 65536) { s with rx := rest }).map
          (fun r => { r.2 with
            tx := r.2.tx ++ [b0 % 256, r.1 % 256, not8 r.1, b5 % 256] }) := by
  simp only [loop_body, Serial_read, hrx, Serial_write]
  split
  · rfl
  · congr 1
    funext r
    simp [Nat.mod_mod, Nat.mod_eq_of_lt (not8_lt r.1)]

end Framing
section Dispatch

variable {σ : Type} (H : Hardware σ)

theorem pageData_push_tx (v : Nat) (s : Firmware σ) : (pageData_push v s).tx = s.tx := rfl

theorem pageData_push_rx (v : Nat) (s : Firmware σ) : (pageData_push v s).rx = s.rx := rfl

theorem pageData_push_dev (v : Nat) (s : Firmware σ) : (pageData_push v s).dev = s.dev := rfl

theorem loop_switch_some (hclk : ClockAdvances H.clock) (cmd addr_l addr_h data addr : Nat)
    (s : Firmware σ) :
    ∃ N v, ∀ fuel, N ≤ fuel →
      ∃ r, loop_switch H fuel cmd addr_l addr_h data addr s = some r ∧
        r.1 = v ∧ r.2.tx = s.tx ∧ r.2.rx = s.rx := by
  simp only [loop_switch]
  by_cases h1 : cmd = CMD_READ
  · simp only [if_pos h1]
    exact ⟨0, _, fun fuel _ => ⟨_, rfl, rfl, rfl, rfl⟩⟩
  by_cases h2 : cmd = CMD_WRITE
  · simp only [if_neg h1, if_pos h2]
    obtain ⟨N, hN⟩ := writeByte_some H hclk addr data s.dev
    refine ⟨N, data, fun fuel hf => ?_⟩
    obtain ⟨r, hr⟩ := hN fuel hf
    rw [hr]
    exact ⟨_, rfl, rfl, rfl, rfl⟩
  by_cases h3 : cmd = CMD_PAGE_WRITE_START
  · simp only [if_neg h1, if_neg h2, if_pos h3]
    exact ⟨0, _, fun fuel _ => ⟨_, rfl, rfl, rfl, rfl⟩⟩
  by_cases h4 : cmd = CMD_PAGE_WRITE_DATA
  · simp only [if_neg h1, if_neg h2, if_neg h3, if_pos h4]
    by_cases hc : (pageData_push data (pageData_push addr_h
        (pageData_push addr_l s))).currentPageOffset ≥ PAGE_SIZE
    · simp only [if_pos hc]
      obtain ⟨N, hN⟩ := writePage_some H hclk
        (pageData_push data (pageData_push addr_h (pageData_push addr_l s))).currentPageAddress
        (pageData_push data (pageData_push addr_h (pageData_push addr_l s))).pageData
        PAGE_SIZE s.dev
      refine ⟨N, not8 addr_l, fun fuel hf => ?_⟩
      obtain ⟨r, hr⟩ := hN fuel hf
      simp only [pageData_push_dev]
      rw [hr]
      exact ⟨_, rfl, rfl, rfl, rfl⟩
    · simp only [if_neg hc]
      exact ⟨0, _, fun fuel _ => ⟨_, rfl, rfl, rfl, rfl⟩⟩
  · simp only [if_neg h1, if_neg h2, if_neg h3, if_neg h4]
    exact ⟨0, _, fun fuel _ => ⟨_, rfl, rfl, rfl, rfl⟩⟩

theorem not8_testBit (r : Nat) (hr : r < 256) (i : Nat) (hi : i < 8) :
    (255 - r).testBit i = !r.testBit i := by
  have h := Nat.testBit_two_pow_sub_succ (show r < 2 ^ 8 by simpa using hr) i
  have e : 2 ^ 8 - (r + 1) = 255 - r := by omega
  rw [e] at h
  simpa [hi] using h

/-- C1: a well-formed request frame, whatever its command code, address bytes and data byte and
whatever the chip does, is answered by exactly the four bytes `0x7B, r, ~r, 0x7D`, the third
being the bitwise complement of the second (the millisecond counter is assumed to keep running,
which bounds the polling loops). -/
theorem C1_response_frame (hclk : ClockAdvances H.clock) (s : Firmware σ)
    (cmd addr_l addr_h data : Nat) (rest : List Nat)
    (hrx : s.rx = 0x7B :: cmd :: addr_l :: addr_h :: data :: 0x7D :: rest) :
    ∃ N r, r < 256 ∧ (∀ i, i < 8 → (255 - r).testBit i = !r.testBit i) ∧
      ∀ fuel, N ≤ fuel →
        ∃ s', loop_body H fuel s = some s' ∧ s'.rx = rest ∧
          s'.tx = s.tx ++ [0x7B, r, 255 - r, 0x7D] := by
  obtain ⟨N, v, hN⟩ := loop_switch_some H hclk (cmd % 256) (addr_l % 256) (addr_h % 256)
    (data % 256) ((addr_l % 256 ||| ((addr_h % 256) <<< 8)) % 65536) { s with rx := rest }
  refine ⟨N, v % 256, Nat.mod_lt _ (by norm_num), not8_testBit _ (Nat.mod_lt _ (by norm_num)),
    fun fuel hf => ?_⟩
  obtain ⟨r, hr, hv, htx, hrx'⟩ := hN fuel hf
  rw [loop_body_cons H fuel s _ _ _ _ _ _ rest hrx]
  simp only [PKG_START, PKG_END, Nat.reduceMod, ne_eq, not_true_eq_false, or_self, if_false, hr,
    Option.map_some']
  refine ⟨_, rfl, hrx', ?_⟩
  simp [htx, hv, not8]

theorem tickClock_advances : ClockAdvances tickClock := by
  intro k
  refine ⟨99, ?_⟩
  simp only [elapsed, tickClock, WRITE_TIMEOUT_MS]
  omega

theorem slowClock_advances : ClockAdvances slowClock := by
  intro k
  refine ⟨0, ?_⟩
  simp only [elapsed, slowClock, WRITE_TIMEOUT_MS]
  omega

theorem C1_response_frame_witness :
    ClockAdvances (deadChip slowClock).clock ∧
    (Firmware.init () [0x7B, 0xBB, 0x00, 0x20, 0x42, 0x7D]).rx =
      0x7B :: 0xBB :: 0x00 :: 0x20 :: 0x42 :: 0x7D :: [] ∧
    ∃ N r, r < 256 ∧ (∀ i, i < 8 → (255 - r).testBit i = !r.testBit i) ∧
      ∀ fuel, N ≤ fuel →
        ∃ s', loop_body (deadChip slowClock) fuel
            (Firmware.init () [0x7B, 0xBB, 0x00, 0x20, 0x42, 0x7D]) = some s' ∧
          s'.rx = [] ∧
          s'.tx = (Firmware.init () [0x7B, 0xBB, 0x00, 0x20, 0x42, 0x7D]).tx ++
            [0x7B, r, 255 - r, 0x7D] :=
  ⟨slowClock_advances, rfl,
    C1_response_frame (deadChip slowClock) slowClock_advances
      (Firmware.init () [0x7B, 0xBB, 0x00, 0x20, 0x42, 0x7D]) 0xBB 0x00 0x20 0x42 [] rfl⟩

/-- C7: a six-byte window whose first byte is not `0x7B` or whose sixth byte is not `0x7D` is
consumed whole and has no other effect, whatever its command byte: nothing is written to the
serial port, no API call reaches the pins (the call log and the hardware are unchanged) and the
page buffer, base address and cursor stay as they were. -/
theorem C7_malformed_window_discarded (fuel : Nat) (s : Firmware σ)
    (b0 b1 b2 b3 b4 b5 : Nat) (rest : List Nat) (h0 : b0 < 256) (h5 : b5 < 256)
    (hrx : s.rx = b0 :: b1 :: b2 :: b3 :: b4 :: b5 :: rest)
    (hbad : b0 ≠ 0x7B ∨ b5 ≠ 0x7D) :
    ∃ s', loop_body H fuel s = some s' ∧ s'.rx = rest ∧ s'.tx = s.tx ∧ s'.dev = s.dev ∧
      s'.pageData = s.pageData ∧ s'.currentPageAddress = s.currentPageAddress ∧
      s'.currentPageOffset = s.currentPageOffset := by
  rw [loop_body_cons H fuel s _ _ _ _ _ _ rest hrx, Nat.mod_eq_of_lt h0, Nat.mod_eq_of_lt h5,
    if_pos (by simpa [PKG_START, PKG_END] using hbad)]
  exact ⟨_, rfl, rfl, rfl, rfl, rfl, rfl, rfl⟩

theorem C7_malformed_window_discarded_witness :
    (0x7B : Nat) < 256 ∧ (0x00 : Nat) < 256 ∧
    (Firmware.init () [0x7B, 0xBB, 0x00, 0x20, 0x42, 0x00, 0x11]).rx =
      0x7B :: 0xBB :: 0x00 :: 0x20 :: 0x42 :: 0x00 :: [0x11] ∧
    ((0x7B : Nat) ≠ 0x7B ∨ (0x00 : Nat) ≠ 0x7D) ∧
    ∃ s', loop_body (deadChip tickClock) 5
        (Firmware.init () [0x7B, 0xBB, 0x00, 0x20, 0x42, 0x00, 0x11]) = some s' ∧
      s'.rx = [0x11] ∧
      s'.tx = (Firmware.init () [0x7B, 0xBB, 0x00, 0x20, 0x42, 0x00, 0x11]).tx ∧
      s'.dev = (Firmware.init () [0x7B, 0xBB, 0x00, 0x20, 0x42, 0x00, 0x11]).dev ∧
      s'.pageData = (Firmware.init () [0x7B, 0xBB, 0x00, 0x20, 0x42, 0x00, 0x11]).pageData ∧
      s'.currentPageAddress =
        (Firmware.init () [0x7B, 0xBB, 0x00, 0x20, 0x42, 0x00, 0x11]).currentPageAddress ∧
      s'.currentPageOffset =
        (Firmware.init () [0x7B, 0xBB, 0x00, 0x20, 0x42, 0x00, 0x11]).currentPageOffset :=
  ⟨by decide, by decide, rfl, by decide,
    C7_malformed_window_discarded (deadChip tickClock) 5
      (Firmware.init () [0x7B, 0xBB, 0x00, 0x20, 0x42, 0x00, 0x11])
      0x7B 0xBB 0x00 0x20 0x42 0x00 [0x11] (by decide) (by decide) rfl (by decide)⟩

/-- C8: a well-formed frame whose command code is none of `0xAA`, `0xBB`, `0xCC`, `0xCD` changes
neither the chip side (call log and hardware untouched) nor the page buffer, base address and
cursor, and is acknowledged with `0x7B, d, ~d, 0x7D` where `d` is the data field of the
frame. -/
theorem C8_unknown_command_noop (fuel : Nat) (s : Firmware σ)
    (cmd addr_l addr_h d : Nat) (rest : List Nat) (hcmd : cmd < 256) (hd : d < 256)
    (hrx : s.rx = 0x7B :: cmd :: addr_l :: addr_h :: d :: 0x7D :: rest)
    (hunk : cmd ≠ 0xAA ∧ cmd ≠ 0xBB ∧ cmd ≠ 0xCC ∧ cmd ≠ 0xCD) :
    ∃ s', loop_body H fuel s = some s' ∧ s'.rx = rest ∧
      s'.tx = s.tx ++ [0x7B, d, 255 - d, 0x7D] ∧ s'.dev = s.dev ∧
      s'.pageData = s.pageData ∧ s'.currentPageAddress = s.currentPageAddress ∧
      s'.currentPageOffset = s.currentPageOffset := by
  rw [loop_body_cons H fuel s _ _ _ _ _ _ rest hrx]
  simp only [PKG_START, PKG_END, Nat.reduceMod, ne_eq, not_true_eq_false, or_self, if_false,
    loop_switch, Nat.mod_eq_of_lt hcmd, Nat.mod_eq_of_lt hd, CMD_READ, CMD_WRITE,
    CMD_PAGE_WRITE_START, CMD_PAGE_WRITE_DATA, if_neg hunk.1, if_neg hunk.2.1,
    if_neg hunk.2.2.1, if_neg hunk.2.2.2, Option.map_some']
  refine ⟨_, rfl, rfl, ?_, rfl, rfl, rfl, rfl⟩
  simp [not8, Nat.mod_eq_of_lt hd]

theorem C8_unknown_command_noop_witness :
    (0x11 : Nat) < 256 ∧ (0x42 : Nat) < 256 ∧
    (Firmware.init () [0x7B, 0x11, 0x00, 0x20, 0x42, 0x7D]).rx =
      0x7B :: 0x11 :: 0x00 :: 0x20 :: 0x42 :: 0x7D :: [] ∧
    ((0x11 : Nat) ≠ 0xAA ∧ (0x11 : Nat) ≠ 0xBB ∧ (0x11 : Nat) ≠ 0xCC ∧ (0x11 : Nat) ≠ 0xCD) ∧
    ∃ s', loop_body (deadChip tickClock) 5
        (Firmware.init () [0x7B, 0x11, 0x00, 0x20, 0x42, 0x7D]) = some s' ∧
      s'.rx = [] ∧
      s'.tx = (Firmware.init () [0x7B, 0x11, 0x00, 0x20, 0x42, 0x7D]).tx ++
        [0x7B, 0x42, 255 - 0x42, 0x7D] ∧
      s'.dev = (Firmware.init () [0x7B, 0x11, 0x00, 0x20, 0x42, 0x7D]).dev ∧
      s'.pageData = (Firmware.init () [0x7B, 0x11, 0x00, 0x20, 0x42, 0x7D]).pageData ∧
      s'.currentPageAddress =
        (Firmware.init () [0x7B, 0x11, 0x00, 0x20, 0x42, 0x7D]).currentPageAddress ∧
      s'.currentPageOffset =
        (Firmware.init () [0x7B, 0x11, 0x00, 0x20, 0x42, 0x7D]).currentPageOffset :=
  ⟨by decide, by decide, rfl, by decide,
    C8_unknown_command_noop (deadChip tickClock) 5
      (Firmware.init () [0x7B, 0x11, 0x00, 0x20, 0x42, 0x7D])
      0x11 0x00 0x20 0x42 [] (by decide) (by decide) rfl (by decide)⟩

end Dispatch
/-! ## Bit-level facts, the address latch and the ideal chip -/

theorem assemble_eq_sum (b0 b1 b2 b3 b4 b5 b6 b7 : Bool) :
    assemble b0 b1 b2 b3 b4 b5 b6 b7 =
      (if b0 then 1 else 0) + (if b1 then 2 else 0) + (if b2 then 4 else 0) +
      (if b3 then 8 else 0) + (if b4 then 16 else 0) + (if b5 then 32 else 0) +
      (if b6 then 64 else 0) + (if b7 then 128 else 0) := by
  revert b0 b1 b2 b3 b4 b5 b6 b7
  decide

theorem testBit_weight (m i : Nat) :
    (if m.testBit i then 2 ^ i else 0) = 2 ^ i * (m / 2 ^ i % 2) := by
  rw [Nat.testBit_to_div_mod]
  by_cases h : m / 2 ^ i % 2 = 1
  · simp [h]
  · have : m / 2 ^ i % 2 = 0 := by omega
    simp [this]

theorem bits_sum (m : Nat) :
    (if m.testBit 0 then 1 else 0) + (if m.testBit 1 then 2 else 0) +
      (if m.testBit 2 then 4 else 0) + (if m.testBit 3 then 8 else 0) +
      (if m.testBit 4 then 16 else 0) + (if m.testBit 5 then 32 else 0) +
      (if m.testBit 6 then 64 else 0) + (if m.testBit 7 then 128 else 0) = m % 256 := by
  have h0 := testBit_weight m 0
  have h1 := testBit_weight m 1
  have h2 := testBit_weight m 2
  have h3 := testBit_weight m 3
  have h4 := testBit_weight m 4
  have h5 := testBit_weight m 5
  have h6 := testBit_weight m 6
  have h7 := testBit_weight m 7
  simp only [pow_zero, Nat.div_one, one_mul] at h0
  norm_num at h1 h2 h3 h4 h5 h6 h7
  rw [h0, h1, h2, h3, h4, h5, h6, h7]
  have e1 : m % 256 = m % 2 + 2 * (m / 2 % 128) := by omega
  have e2 : m / 2 % 128 = m / 2 % 2 + 2 * (m / 4 % 64) := by omega
  have e3 : m / 4 % 64 = m / 4 % 2 + 2 * (m / 8 % 32) := by omega
  have e4 : m / 8 % 32 = m / 8 % 2 + 2 * (m / 16 % 16) := by omega
  have e5 : m / 16 % 16 = m / 16 % 2 + 2 * (m / 32 % 8) := by omega
  have e6 : m / 32 % 8 = m / 32 % 2 + 2 * (m / 64 % 4) := by omega
  have e7 : m / 64 % 4 = m / 64 % 2 + 2 * (m / 128 % 2) := by omega
  omega

theorem assemble_testBit (m : Nat) :
    assemble (m.testBit 0) (m.testBit 1) (m.testBit 2) (m.testBit 3) (m.testBit 4)
      (m.testBit 5) (m.testBit 6) (m.testBit 7) = m % 256 := by
  rw [assemble_eq_sum, bits_sum]

theorem _read_bus_val {σ : Type} (H : Hardware σ) (s : Dev σ) :
    (_read_bus H s).1 =
      assemble
        (H.sample Pin.EEPROM_IO_0 (Dev.run H (busModeCalls PinMode.INPUT) s).hw)
        (H.sample Pin.EEPROM_IO_1 (Dev.run H (readBusCalls.take 9) s).hw)
        (H.sample Pin.EEPROM_IO_2 (Dev.run H (readBusCalls.take 10) s).hw)
        (H.sample Pin.EEPROM_IO_3 (Dev.run H (readBusCalls.take 11) s).hw)
        (H.sample Pin.EEPROM_IO_4 (Dev.run H (readBusCalls.take 12) s).hw)
        (H.sample Pin.EEPROM_IO_5 (Dev.run H (readBusCalls.take 13) s).hw)
        (H.sample Pin.EEPROM_IO_6 (Dev.run H (readBusCalls.take 14) s).hw)
        (H.sample Pin.EEPROM_IO_7 (Dev.run H (readBusCalls.take 15) s).hw) := rfl


theorem and_255 (x : Nat) : x &&& 255 = x % 256 := Nat.and_pow_two_sub_one_eq_mod x 8

theorem shiftReg_two_bytes (r a : Nat) :
    ((r * 256 + ((a >>> 8) &&& 255) % 256) % 65536 * 256 + (a &&& 255) % 256) % 65536
      = a % 65536 := by
  rw [and_255, and_255, Nat.shiftRight_eq_div_pow]
  omega

theorem CHECK_BIT_ne_zero (d i : Nat) : CHECK_BIT d i ≠ 0 ↔ d.testBit i = true := by
  simp only [CHECK_BIT, Nat.one_shiftLeft]
  constructor
  · intro h
    by_contra hb
    apply h
    apply Nat.eq_of_testBit_eq
    intro j
    rw [Nat.testBit_and, Nat.testBit_two_pow, Nat.zero_testBit]
    by_cases hj : i = j
    · subst hj; simp [hb]
    · simp [hj]
  · intro h h0
    have : (d &&& 2 ^ i).testBit i = true := by
      rw [Nat.testBit_and, Nat.testBit_two_pow_self, h]; rfl
    rw [h0] at this
    simp at this

theorem busByte_writeBus (d : Nat) :
    (if CHECK_BIT d 0 ≠ 0 then 1 else 0) + (if CHECK_BIT d 1 ≠ 0 then 2 else 0) +
      (if CHECK_BIT d 2 ≠ 0 then 4 else 0) + (if CHECK_BIT d 3 ≠ 0 then 8 else 0) +
      (if CHECK_BIT d 4 ≠ 0 then 16 else 0) + (if CHECK_BIT d 5 ≠ 0 then 32 else 0) +
      (if CHECK_BIT d 6 ≠ 0 then 64 else 0) + (if CHECK_BIT d 7 ≠ 0 then 128 else 0) =
      d % 256 := by
  simp only [CHECK_BIT_ne_zero]
  exact bits_sum d

theorem Lines.run_append (l : Lines) (xs ys : List Call) :
    l.run (xs ++ ys) = (l.run xs).run ys := by
  simp [Lines.run, List.foldl_append]

theorem writeStrobes_append (xs ys : List Call) :
    ∀ l : Lines, writeStrobes l (xs ++ ys) = writeStrobes l xs ++ writeStrobes (l.run xs) ys := by
  induction xs with
  | nil => intro l; simp [writeStrobes, Lines.run]
  | cons c cs ih =>
    intro l
    simp only [List.cons_append, writeStrobes, Lines.run, List.foldl_cons]
    split <;> simp [ih, Lines.run]

theorem writeStrobes_strobeCalls (l : Lines) (a d : Nat) :
    writeStrobes l (strobeCalls a d) = [(a % 65536, d % 256)] := by
  simp [writeStrobes, strobeCalls, setAddrCalls, writeBusCalls, busModeCalls, Lines.step,
    Lines.busByte]
  refine ⟨shiftReg_two_bytes _ _, ?_⟩
  have h := busByte_writeBus d
  simp only [ne_eq, ite_not] at h
  exact h


theorem readByte_ideal_val (clock : Nat → Nat) (a : Nat) (s : Dev Ideal) :
    (readByte (idealChip clock) a s).1 = s.hw.mem (a % 65536) % 256 := by
  simp only [readByte]
  rw [_read_bus_val]
  simp only [_set_bus_mode_eq, _set_output_enable_eq, _set_chip_enable_eq, _set_addr_eq,
    Dev.run_run]
  simp [-Nat.testBit_zero, Dev.run, idealChip, busModeCalls, setAddrCalls, readBusCalls,
    Ideal.react, Ideal.sample, Lines.step, ioIndex]
  rw [assemble_testBit, shiftReg_two_bytes]

theorem readByte_ideal_mem (clock : Nat → Nat) (a : Nat) (s : Dev Ideal) :
    (readByte (idealChip clock) a s).2.hw.mem = s.hw.mem := by
  rw [readByte_snd]
  simp [Dev.run, idealChip, readByteCalls, busModeCalls, setAddrCalls, readBusCalls,
    Ideal.react]

theorem writeByteCalls_ideal_mem (clock : Nat → Nat) (a d : Nat) (s : Dev Ideal) :
    (Dev.run (idealChip clock) (writeByteCalls a d) s).hw.mem =
      fun x => if x = a % 65536 then d % 256 else s.hw.mem x := by
  simp [Dev.run, idealChip, writeByteCalls, strobeCalls, busModeCalls, setAddrCalls,
    writeBusCalls, Ideal.react, Lines.step, Lines.busByte]
  rw [shiftReg_two_bytes]
  have h := busByte_writeBus d
  simp only [ne_eq, ite_not] at h
  rw [h]

theorem writeByte_eq_poll {σ : Type} (H : Hardware σ) (fuel a d : Nat) (s : Dev σ) :
    writeByte H fuel a d s =
      writeByte_poll H a d (millis H (Dev.run H (writeByteCalls a d) s)).1 fuel
        (millis H (Dev.run H (writeByteCalls a d) s)).2 := by
  simp [writeByte, _set_output_enable_eq, _set_bus_mode_eq, _set_chip_enable_eq,
    _write_eeprom_eq, Dev.run_run, writeByteCalls]

theorem writeByte_ideal (clock : Nat → Nat) (fuel a b : Nat) (hb : b < 256) (s : Dev Ideal) :
    writeByte (idealChip clock) (fuel + 1) a b s =
      some (true, (readByte (idealChip clock) a
        (millis (idealChip clock) (Dev.run (idealChip clock) (writeByteCalls a b) s)).2).2) := by
  rw [writeByte_eq_poll]
  simp only [writeByte_poll]
  rw [if_neg]
  rw [readByte_ideal_val]
  simp [millis, writeByteCalls_ideal_mem, Nat.mod_eq_of_lt hb]

/-- C10: on the ideal chip, `writeByte(a, b)` returns true, an immediately following
`readByte(a)` returns `b`, and the write and the read leave every other address as it was. -/
theorem C10_write_read_round_trip (clock : Nat → Nat) (a b : Nat) (ha : a < 65536)
    (hb : b < 256) (s : Dev Ideal) (fuel : Nat) (hf : 1 ≤ fuel) :
    ∃ s', writeByte (idealChip clock) fuel a b s = some (true, s') ∧
      (readByte (idealChip clock) a s').1 = b ∧ s'.hw.mem a = b ∧
      ∀ a', a' ≠ a →
        s'.hw.mem a' = s.hw.mem a' ∧
        (readByte (idealChip clock) a s').2.hw.mem a' = s.hw.mem a' := by
  obtain ⟨f, rfl⟩ : ∃ f, fuel = f + 1 := ⟨fuel - 1, by omega⟩
  have hmem : (readByte (idealChip clock) a
      (millis (idealChip clock) (Dev.run (idealChip clock) (writeByteCalls a b) s)).2).2.hw.mem =
      fun x => if x = a then b else s.hw.mem x := by
    rw [readByte_ideal_mem]
    simp [millis, writeByteCalls_ideal_mem, Nat.mod_eq_of_lt hb, Nat.mod_eq_of_lt ha]
  refine ⟨_, writeByte_ideal clock f a b hb s, ?_, ?_, ?_⟩
  · rw [readByte_ideal_val, hmem]
    simp [Nat.mod_eq_of_lt hb, Nat.mod_eq_of_lt ha]
  · rw [hmem]; simp
  · intro a' ha'
    refine ⟨?_, ?_⟩
    · rw [hmem]; simp [ha']
    · rw [readByte_ideal_mem, hmem]; simp [ha']

theorem C10_write_read_round_trip_witness :
    (0x2000 : Nat) < 65536 ∧ (0x42 : Nat) < 256 ∧ 1 ≤ 1 ∧
    ∃ s', writeByte (idealChip tickClock) 1 0x2000 0x42
        (Dev.init Ideal.erased) = some (true, s') ∧
      (readByte (idealChip tickClock) 0x2000 s').1 = 0x42 ∧ s'.hw.mem 0x2000 = 0x42 ∧
      ∀ a', a' ≠ 0x2000 →
        s'.hw.mem a' = (Dev.init Ideal.erased).hw.mem a' ∧
        (readByte (idealChip tickClock) 0x2000 s').2.hw.mem a' =
          (Dev.init Ideal.erased).hw.mem a' :=
  ⟨by decide, by decide, by decide,
    C10_write_read_round_trip tickClock 0x2000 0x42 (by decide) (by decide)
      (Dev.init Ideal.erased) 1 (by decide)⟩
section ReadWriteFrames

variable {σ : Type} (H : Hardware σ)

/-- C2: a WRITE frame `0x7B, 0xBB, addr_lo, addr_hi, d, 0x7D` calls `writeByte` with the address
`addr_lo + 256 * addr_hi` and the data byte `d`, and is answered with `0x7B, d, ~d, 0x7D`
whatever `writeByte` returns (true, or false on timeout); with a running millisecond counter
`writeByte` does return. -/
theorem C2_write_frame (hclk : ClockAdvances H.clock) (s : Firmware σ)
    (addr_l addr_h d : Nat) (rest : List Nat)
    (hl : addr_l < 256) (hh : addr_h < 256) (hd : d < 256)
    (hrx : s.rx = 0x7B :: 0xBB :: addr_l :: addr_h :: d :: 0x7D :: rest) :
    (∀ fuel, loop_body H fuel s =
      (writeByte H fuel (addr_l + 256 * addr_h) d s.dev).map (fun r =>
        { s with dev := r.2, rx := rest, tx := s.tx ++ [0x7B, d, 255 - d, 0x7D] })) ∧
    ∃ N, ∀ fuel, N ≤ fuel →
      ∃ ok dev', writeByte H fuel (addr_l + 256 * addr_h) d s.dev = some (ok, dev') ∧
        loop_body H fuel s =
          some { s with dev := dev', rx := rest, tx := s.tx ++ [0x7B, d, 255 - d, 0x7D] } := by
  have key : ∀ fuel, loop_body H fuel s =
      (writeByte H fuel (addr_l + 256 * addr_h) d s.dev).map (fun r =>
        { s with dev := r.2, rx := rest, tx := s.tx ++ [0x7B, d, 255 - d, 0x7D] }) := by
    intro fuel
    rw [loop_body_cons H fuel s _ _ _ _ _ _ rest hrx]
    simp only [PKG_START, PKG_END, Nat.reduceMod, ne_eq, not_true_eq_false, or_self, if_false,
      loop_switch, Nat.mod_eq_of_lt hl, Nat.mod_eq_of_lt hh, Nat.mod_eq_of_lt hd, CMD_READ,
      CMD_WRITE, addr_assemble addr_l addr_h hl hh, Nat.reduceEqDiff, if_true, Option.map_map]
    congr 1
    funext r
    simp [not8, Nat.mod_eq_of_lt hd]
  refine ⟨key, ?_⟩
  obtain ⟨N, hN⟩ := writeByte_some H hclk (addr_l + 256 * addr_h) d s.dev
  refine ⟨N, fun fuel hf => ?_⟩
  obtain ⟨r, hr⟩ := hN fuel hf
  exact ⟨r.1, r.2, hr, by rw [key, hr]; rfl⟩

theorem C2_write_frame_witness :
    ClockAdvances (deadChip slowClock).clock ∧
    (0x00 : Nat) < 256 ∧ (0x20 : Nat) < 256 ∧ (0x42 : Nat) < 256 ∧
    (Firmware.init () [0x7B, 0xBB, 0x00, 0x20, 0x42, 0x7D]).rx =
      0x7B :: 0xBB :: 0x00 :: 0x20 :: 0x42 :: 0x7D :: [] ∧
    (∀ fuel, loop_body (deadChip slowClock) fuel
        (Firmware.init () [0x7B, 0xBB, 0x00, 0x20, 0x42, 0x7D]) =
      (writeByte (deadChip slowClock) fuel 0x2000 0x42 (Dev.init ())).map (fun r =>
        { Firmware.init () [0x7B, 0xBB, 0x00, 0x20, 0x42, 0x7D] with
          dev := r.2, rx := [], tx := [0x7B, 0x42, 0xBD, 0x7D] })) ∧
    ∃ N, ∀ fuel, N ≤ fuel →
      ∃ ok dev', writeByte (deadChip slowClock) fuel 0x2000 0x42 (Dev.init ()) =
          some (ok, dev') ∧
        loop_body (deadChip slowClock) fuel
            (Firmware.init () [0x7B, 0xBB, 0x00, 0x20, 0x42, 0x7D]) =
          some { Firmware.init () [0x7B, 0xBB, 0x00, 0x20, 0x42, 0x7D] with
            dev := dev', rx := [], tx := [0x7B, 0x42, 0xBD, 0x7D] } :=
  ⟨slowClock_advances, by decide, by decide, by decide, rfl,
    C2_write_frame (deadChip slowClock) slowClock_advances
      (Firmware.init () [0x7B, 0xBB, 0x00, 0x20, 0x42, 0x7D]) 0x00 0x20 0x42 []
      (by decide) (by decide) (by decide) rfl⟩

/-- The write of the example frame times out on a chip that never answers. -/
theorem writeByte_deadChip_times_out :
    (writeByte (deadChip slowClock) 1 0x2000 0x42 (Dev.init ())).map (fun r => r.1) =
      some false := by
  decide

/-- The write of the example frame succeeds on the ideal chip. -/
theorem writeByte_idealChip_succeeds :
    (writeByte (idealChip tickClock) 1 0x2000 0x42 (Dev.init Ideal.erased)).map
      (fun r => r.1) = some true := by
  decide

/-- C3: a READ frame `0x7B, 0xAA, addr_lo, addr_hi, x, 0x7D` calls `readByte` at the 16-bit
address `addr_lo + 256 * addr_hi`, for every `addr_hi` in `0..255`, and is answered with
`0x7B, v, ~v, 0x7D` where `v` is the byte `readByte` returned, whatever the data field `x`;
on the ideal chip `v` is the byte stored at that address. -/
theorem C3_read_frame (fuel : Nat) (s : Firmware σ) (addr_l addr_h x : Nat) (rest : List Nat)
    (hl : addr_l < 256) (hh : addr_h < 256)
    (hrx : s.rx = 0x7B :: 0xAA :: addr_l :: addr_h :: x :: 0x7D :: rest) :
    loop_body H fuel s =
      some { s with
        dev := (readByte H (addr_l + 256 * addr_h) s.dev).2,
        rx := rest,
        tx := s.tx ++ [0x7B, (readByte H (addr_l + 256 * addr_h) s.dev).1,
          255 - (readByte H (addr_l + 256 * addr_h) s.dev).1, 0x7D] } ∧
    (readByte H (addr_l + 256 * addr_h) s.dev).1 < 256 ∧
    addr_l + 256 * addr_h < 65536 ∧
    ∀ (clock : Nat → Nat) (c : Dev Ideal),
      (readByte (idealChip clock) (addr_l + 256 * addr_h) c).1 =
        c.hw.mem (addr_l + 256 * addr_h) % 256 := by
  refine ⟨?_, readByte_lt H _ _, by omega, fun clock c => ?_⟩
  · rw [loop_body_cons H fuel s _ _ _ _ _ _ rest hrx]
    simp only [PKG_START, PKG_END, Nat.reduceMod, ne_eq, not_true_eq_false, or_self, if_false,
      loop_switch, Nat.mod_eq_of_lt hl, Nat.mod_eq_of_lt hh, CMD_READ,
      addr_assemble addr_l addr_h hl hh, if_true, Option.map_some']
    simp [not8, Nat.mod_eq_of_lt (readByte_lt H _ _)]
  · rw [readByte_ideal_val, Nat.mod_eq_of_lt (by omega : addr_l + 256 * addr_h < 65536)]

theorem C3_read_frame_witness :
    (0x10 : Nat) < 256 ∧ (0x00 : Nat) < 256 ∧
    (Firmware.init Ideal.erased [0x7B, 0xAA, 0x10, 0x00, 0x00, 0x7D]).rx =
      0x7B :: 0xAA :: 0x10 :: 0x00 :: 0x00 :: 0x7D :: [] ∧
    (loop_body (idealChip tickClock) 1
        (Firmware.init Ideal.erased [0x7B, 0xAA, 0x10, 0x00, 0x00, 0x7D]) =
      some { Firmware.init Ideal.erased [0x7B, 0xAA, 0x10, 0x00, 0x00, 0x7D] with
        dev := (readByte (idealChip tickClock) 0x0010 (Dev.init Ideal.erased)).2,
        rx := [],
        tx := [0x7B, (readByte (idealChip tickClock) 0x0010 (Dev.init Ideal.erased)).1,
          255 - (readByte (idealChip tickClock) 0x0010 (Dev.init Ideal.erased)).1, 0x7D] } ∧
    (readByte (idealChip tickClock) 0x0010 (Dev.init Ideal.erased)).1 < 256 ∧
    0x0010 < 65536 ∧
    ∀ (clock : Nat → Nat) (c : Dev Ideal),
      (readByte (idealChip clock) 0x0010 c).1 = c.hw.mem 0x0010 % 256) :=
  ⟨by decide, by decide, rfl,
    C3_read_frame (idealChip tickClock) 1
      (Firmware.init Ideal.erased [0x7B, 0xAA, 0x10, 0x00, 0x00, 0x7D]) 0x10 0x00 0x00 []
      (by decide) (by decide) rfl⟩

end ReadWriteFrames
section PageBuffer

variable {σ : Type} (H : Hardware σ)

theorem pageData_pushAll_nil (s : Firmware σ) : pageData_pushAll [] s = s := rfl

theorem pageData_pushAll_cons (v : Nat) (vs : List Nat) (s : Firmware σ) :
    pageData_pushAll (v :: vs) s = pageData_pushAll vs (pageData_push v s) := rfl

theorem pageData_pushAll_append (us vs : List Nat) (s : Firmware σ) :
    pageData_pushAll (us ++ vs) s = pageData_pushAll vs (pageData_pushAll us s) := by
  simp [pageData_pushAll, List.foldl_append]

theorem pageData_pushAll_fields (vs : List Nat) :
    ∀ s : Firmware σ, (pageData_pushAll vs s).dev = s.dev ∧ (pageData_pushAll vs s).rx = s.rx ∧
      (pageData_pushAll vs s).tx = s.tx ∧
      (pageData_pushAll vs s).currentPageAddress = s.currentPageAddress := by
  induction vs with
  | nil => intro s; exact ⟨rfl, rfl, rfl, rfl⟩
  | cons v vs ih =>
    intro s
    rw [pageData_pushAll_cons]
    obtain ⟨h1, h2, h3, h4⟩ := ih (pageData_push v s)
    exact ⟨h1, h2, h3, h4⟩

theorem pageData_pushAll_offset (vs : List Nat) :
    ∀ s : Firmware σ, s.currentPageOffset + vs.length ≤ 65535 →
      (pageData_pushAll vs s).currentPageOffset = s.currentPageOffset + vs.length := by
  induction vs with
  | nil => intro s _; rfl
  | cons v vs ih =>
    intro s h
    simp only [List.length_cons] at h
    rw [pageData_pushAll_cons, ih]
    · simp only [pageData_push, List.length_cons]
      omega
    · simp only [pageData_push]
      omega

theorem pageData_pushAll_get (vs : List Nat) :
    ∀ (s : Firmware σ) (i : Nat), s.currentPageOffset + vs.length ≤ 65535 →
      (pageData_pushAll vs s).pageData i =
        if s.currentPageOffset ≤ i ∧ i < s.currentPageOffset + vs.length then
          vs.getD (i - s.currentPageOffset) 0
        else s.pageData i := by
  induction vs with
  | nil =>
    intro s i _
    rw [pageData_pushAll_nil, if_neg]
    simp only [List.length_nil]
    omega
  | cons v vs ih =>
    intro s i h
    simp only [List.length_cons] at h
    rw [pageData_pushAll_cons, ih]
    · have ho : (pageData_push v s).currentPageOffset = s.currentPageOffset + 1 := by
        simp only [pageData_push]; omega
      rw [ho]
      by_cases h1 : i = s.currentPageOffset
      · subst h1
        simp [pageData_push]
      · by_cases h2 : s.currentPageOffset + 1 ≤ i ∧ i < s.currentPageOffset + 1 + vs.length
        · have h3 : s.currentPageOffset ≤ i ∧ i < s.currentPageOffset + (vs.length + 1) := by
            omega
          have h4 : i - s.currentPageOffset = (i - (s.currentPageOffset + 1)) + 1 := by omega
          rw [if_pos h2, List.length_cons, if_pos h3, h4, List.getD_cons_succ]
        · have h3 : ¬(s.currentPageOffset ≤ i ∧ i < s.currentPageOffset + (vs.length + 1)) := by
            omega
          rw [if_neg h2, List.length_cons, if_neg h3]
          simp [pageData_push, h1]
    · simp only [pageData_push]
      omega

end PageBuffer
section PageFrames

variable {σ : Type} (H : Hardware σ)

theorem loop_body_start (fuel : Nat) (s : Firmware σ) (addr_l addr_h d0 : Nat) (rest : List Nat)
    (hl : addr_l < 256) (hh : addr_h < 256) (hd : d0 < 256)
    (hrx : s.rx = startFrame addr_l addr_h d0 ++ rest) :
    loop_body H fuel s =
      some { s with
        rx := rest,
        tx := s.tx ++ [0x7B, d0, 255 - d0, 0x7D],
        pageData := fun i => if i = 0 then d0 else s.pageData i,
        currentPageAddress := addr_l + 256 * addr_h,
        currentPageOffset := 1 } := by
  rw [loop_body_cons H fuel s _ _ _ _ _ _ rest (by simpa [startFrame] using hrx)]
  simp only [PKG_START, PKG_END, Nat.reduceMod, ne_eq, not_true_eq_false, or_self, if_false,
    loop_switch, Nat.mod_eq_of_lt hl, Nat.mod_eq_of_lt hh, Nat.mod_eq_of_lt hd, CMD_READ,
    CMD_WRITE, CMD_PAGE_WRITE_START, addr_assemble addr_l addr_h hl hh, Nat.reduceEqDiff,
    if_true, Option.map_some', pageData_push]
  simp [not8, Nat.mod_eq_of_lt hd]

theorem loop_body_data (fuel : Nat) (s : Firmware σ) (addr_l addr_h d : Nat) (rest : List Nat)
    (hl : addr_l < 256) (hh : addr_h < 256) (hd : d < 256)
    (hrx : s.rx = 0x7B :: 0xCD :: addr_l :: addr_h :: d :: 0x7D :: rest) :
    loop_body H fuel s =
      if 256 ≤ (pageData_pushAll [addr_l, addr_h, d] s).currentPageOffset then
        (writePage H fuel s.currentPageAddress (pageData_pushAll [addr_l, addr_h, d] s).pageData
          256 s.dev).map (fun r =>
            { pageData_pushAll [addr_l, addr_h, d] s with
              dev := r.2, rx := rest, tx := s.tx ++ [0x7B, 255 - addr_l, addr_l, 0x7D] })
      else
        some { pageData_pushAll [addr_l, addr_h, d] s with
          rx := rest, tx := s.tx ++ [0x7B, addr_l, 255 - addr_l, 0x7D] } := by
  rw [loop_body_cons H fuel s _ _ _ _ _ _ rest hrx]
  simp only [PKG_START, PKG_END, Nat.reduceMod, ne_eq, not_true_eq_false, or_self, if_false,
    loop_switch, Nat.mod_eq_of_lt hl, Nat.mod_eq_of_lt hh, Nat.mod_eq_of_lt hd, CMD_READ,
    CMD_WRITE, CMD_PAGE_WRITE_START, CMD_PAGE_WRITE_DATA, Nat.reduceEqDiff,
    if_true, PAGE_SIZE, ge_iff_le]
  have e : pageData_push d (pageData_push addr_h (pageData_push addr_l
      { s with rx := rest })) = { pageData_pushAll [addr_l, addr_h, d] s with rx := rest } := rfl
  rw [e]
  by_cases hc : 256 ≤ (pageData_pushAll [addr_l, addr_h, d] s).currentPageOffset
  · rw [if_pos hc, if_pos hc, Option.map_map]
    congr 1
    funext r
    have h1 : not8 addr_l % 256 = 255 - addr_l := by
      rw [Nat.mod_eq_of_lt (not8_lt _), not8_of_lt _ hl]
    have h2 : not8 (not8 addr_l) = addr_l := not8_not8 _ hl
    simp [h1, h2, (pageData_pushAll_fields [addr_l, addr_h, d] s).2.2.1]
  · rw [if_neg hc, if_neg hc]
    simp [not8, Nat.mod_eq_of_lt hl, (pageData_pushAll_fields [addr_l, addr_h, d] s).2.2.1]

end PageFrames
section PageSequence

variable {σ : Type} (H : Hardware σ)

theorem pageData_pushAll_congr (vs : List Nat) :
    ∀ s t : Firmware σ, s.pageData = t.pageData → s.currentPageOffset = t.currentPageOffset →
      (pageData_pushAll vs s).pageData = (pageData_pushAll vs t).pageData ∧
      (pageData_pushAll vs s).currentPageOffset = (pageData_pushAll vs t).currentPageOffset := by
  induction vs with
  | nil => intro s t h1 h2; exact ⟨h1, h2⟩
  | cons v vs ih =>
    intro s t h1 h2
    rw [pageData_pushAll_cons, pageData_pushAll_cons]
    apply ih
    · simp only [pageData_push, h1, h2]
    · simp only [pageData_push, h2]

theorem payloadBytes_length (frames : List (Nat × Nat × Nat)) :
    (payloadBytes frames).length = 3 * frames.length := by
  induction frames with
  | nil => rfl
  | cons f fs ih => simp only [payloadBytes, List.length_append, List.length_cons,
      List.length_nil, ih]; omega

theorem loop_frames_succ (fuel n : Nat) (s : Firmware σ) (h : 6 ≤ s.rx.length) :
    loop_frames H fuel (n + 1) s = (loop_body H fuel s).bind (loop_frames H fuel n) := by
  simp only [loop_frames, Serial_available, ge_iff_le, if_pos h]

theorem loop_frames_done (fuel n : Nat) (s : Firmware σ) (h : s.rx.length < 6) :
    loop_frames H fuel n s = some s := by
  cases n <;> simp only [loop_frames, Serial_available, ge_iff_le, if_neg (not_le.mpr h)]

/-- Data frames that do not fill the page are buffered and echoed, one per iteration of the
framing loop, without touching the chip. -/
theorem loop_frames_data (fuel : Nat) (frames : List (Nat × Nat × Nat)) :
    ∀ (s : Firmware σ) (rest : List Nat) (n : Nat),
      (∀ f ∈ frames, f.1 < 256 ∧ f.2.1 < 256 ∧ f.2.2 < 256) →
      s.currentPageOffset + 3 * frames.length < 256 →
      s.rx = dataFrames frames ++ rest →
      ∃ s1, loop_frames H fuel (frames.length + n) s = loop_frames H fuel n s1 ∧
        s1.rx = rest ∧ s1.tx = s.tx ++ echoAcks frames ∧ s1.dev = s.dev ∧
        s1.currentPageAddress = s.currentPageAddress ∧
        s1.pageData = (pageData_pushAll (payloadBytes frames) s).pageData ∧
        s1.currentPageOffset = (pageData_pushAll (payloadBytes frames) s).currentPageOffset := by
  induction frames with
  | nil =>
    intro s rest n _ _ hrx
    refine ⟨s, by simp, by simpa [dataFrames] using hrx, by simp [echoAcks], rfl, rfl, rfl, rfl⟩
  | cons f fs ih =>
    intro s rest n hb hoff hrx
    obtain ⟨h1, h2, h3⟩ := hb f (List.mem_cons_self _ _)
    simp only [List.length_cons] at hoff
    have hrx' : s.rx = 0x7B :: 0xCD :: f.1 :: f.2.1 :: f.2.2 :: 0x7D :: (dataFrames fs ++ rest) := by
      simpa [dataFrames] using hrx
    have hlen : 6 ≤ s.rx.length := by rw [hrx']; simp
    have ho3 : (pageData_pushAll [f.1, f.2.1, f.2.2] s).currentPageOffset =
        s.currentPageOffset + 3 := by
      have h := pageData_pushAll_offset [f.1, f.2.1, f.2.2] s
        (by simp only [List.length_cons, List.length_nil]; omega)
      simpa using h
    have hbody := loop_body_data H fuel s f.1 f.2.1 f.2.2 (dataFrames fs ++ rest) h1 h2 h3 hrx'
    rw [if_neg (by rw [ho3]; omega)] at hbody
    have e : (f :: fs).length + n = (fs.length + n) + 1 := by simp only [List.length_cons]; omega
    rw [e, loop_frames_succ H fuel _ s hlen, hbody, Option.some_bind]
    obtain ⟨s1, hs1, hr, ht, hd, ha, hp, ho⟩ := ih
      { pageData_pushAll [f.1, f.2.1, f.2.2] s with
        rx := dataFrames fs ++ rest, tx := s.tx ++ [0x7B, f.1, 255 - f.1, 0x7D] }
      rest n (fun g hg => hb g (List.mem_cons_of_mem _ hg))
      (by show (pageData_pushAll [f.1, f.2.1, f.2.2] s).currentPageOffset + 3 * fs.length < 256
          rw [ho3]; omega)
      rfl
    obtain ⟨c1, c2⟩ := pageData_pushAll_congr (payloadBytes fs)
      { pageData_pushAll [f.1, f.2.1, f.2.2] s with
        rx := dataFrames fs ++ rest, tx := s.tx ++ [0x7B, f.1, 255 - f.1, 0x7D] }
      (pageData_pushAll [f.1, f.2.1, f.2.2] s) rfl rfl
    refine ⟨s1, hs1, hr, ?_, ?_, ?_, ?_, ?_⟩
    · rw [ht]; simp [echoAcks]
    · rw [hd]; exact (pageData_pushAll_fields _ s).1
    · rw [ha]; exact (pageData_pushAll_fields _ s).2.2.2
    · rw [hp, c1]
      simp only [payloadBytes, pageData_pushAll_append]
    · rw [ho, c2]
      simp only [payloadBytes, pageData_pushAll_append]

end PageSequence
section Strobes

variable {σ : Type} (H : Hardware σ)

theorem writeStrobes_noStrobe (cs : List Call) :
    NoStrobe cs → ∀ l : Lines, writeStrobes l cs = [] := by
  induction cs with
  | nil => intro _ l; rfl
  | cons c cs ih =>
    intro h l
    have hc : c ≠ Call.digitalWrite Pin.EEPROM_WE LOW := h c (List.mem_cons_self _ _)
    simp only [writeStrobes, if_neg hc]
    exact ih (fun d hd => h d (List.mem_cons_of_mem _ hd)) _

theorem NoStrobe_append (xs ys : List Call) (hx : NoStrobe xs) (hy : NoStrobe ys) :
    NoStrobe (xs ++ ys) := by
  intro c hc
  rcases List.mem_append.mp hc with h | h
  · exact hx c h
  · exact hy c h

theorem NoStrobe_readBusCalls : NoStrobe readBusCalls := by
  intro c hc
  simp only [readBusCalls, busModeCalls, List.cons_append, List.nil_append, List.mem_cons,
    List.mem_singleton, List.not_mem_nil, or_false] at hc
  rcases hc with h | h | h | h | h | h | h | h | h | h | h | h | h | h | h | h <;>
    (subst h; simp)

theorem NoStrobe_pollEnter (a : Nat) :
    NoStrobe (busModeCalls PinMode.INPUT ++ [Call.digitalWrite Pin.EEPROM_OE LOW] ++
      setAddrCalls a) := by
  intro c hc
  simp only [busModeCalls, setAddrCalls, List.cons_append, List.nil_append, List.mem_cons,
    List.mem_singleton, List.not_mem_nil, or_false] at hc
  rcases hc with h | h | h | h | h | h | h | h | h | h | h | h | h <;> (subst h; simp)

theorem NoStrobe_pageEnter :
    NoStrobe ([Call.digitalWrite Pin.EEPROM_OE HIGH] ++ busModeCalls PinMode.OUTPUT ++
      [Call.digitalWrite Pin.EEPROM_CE LOW]) := by
  intro c hc
  simp only [busModeCalls, List.cons_append, List.nil_append, List.mem_cons,
    List.mem_singleton, List.not_mem_nil, or_false] at hc
  rcases hc with h | h | h | h | h | h | h | h | h | h <;> (subst h; simp)

theorem writePage_poll_log (d0 t : Nat) (fuel : Nat) :
    ∀ (s : Dev σ) (r : Bool × Dev σ), writePage_poll H d0 t fuel s = some r →
      ∃ P, r.2.log = s.log ++ P ∧ NoStrobe P := by
  induction fuel with
  | zero => intro s r h; simp [writePage_poll] at h
  | succ fuel ih =>
    intro s r h
    simp only [writePage_poll] at h
    by_cases hne : (_read_bus H s).1 ≠ d0
    · rw [if_pos hne] at h
      by_cases ht : elapsed (millis H (_read_bus H s).2).1 t ≥ WRITE_TIMEOUT_MS
      · rw [if_pos ht] at h
        cases h
        exact ⟨readBusCalls, by simp [millis, _read_bus_snd, Dev.run_log], NoStrobe_readBusCalls⟩
      · rw [if_neg ht] at h
        obtain ⟨P, hP, hno⟩ := ih _ r h
        refine ⟨readBusCalls ++ P, ?_, NoStrobe_append _ _ NoStrobe_readBusCalls hno⟩
        rw [hP]
        simp [millis, _read_bus_snd, Dev.run_log]
    · rw [if_neg hne] at h
      cases h
      refine ⟨readBusCalls ++ [Call.digitalWrite Pin.EEPROM_OE HIGH,
        Call.digitalWrite Pin.EEPROM_CE HIGH], ?_, NoStrobe_append _ _ NoStrobe_readBusCalls ?_⟩
      · simp [_read_bus_snd, _set_output_enable_eq, _set_chip_enable_eq, Dev.run_run,
          Dev.run_log]
      · intro c hc
        simp only [List.mem_cons, List.mem_singleton, List.not_mem_nil, or_false] at hc
        rcases hc with h | h <;> (subst h; simp)

theorem writeStrobes_programCalls (start : Nat) (data : Nat → Nat) (n : Nat) :
    ∀ (i : Nat) (l : Lines), writeStrobes l (programCalls start data n i) =
      (List.range' i n).map (fun j => ((j + start) % 65536, data j % 256)) := by
  induction n with
  | zero => intro i l; rfl
  | succ n ih =>
    intro i l
    simp only [programCalls, writeStrobes_append, writeStrobes_strobeCalls, ih, List.range',
      List.map_cons, Nat.mod_mod, List.singleton_append]

theorem writePage_strobes (fuel start : Nat) (data : Nat → Nat) (len : Nat) (s : Dev σ)
    (r : Bool × Dev σ) (h : writePage H fuel start data len s = some r) :
    ∃ L, r.2.log = s.log ++ L ∧
      ∀ l0 : Lines, writeStrobes l0 L =
        (List.range len).map (fun j => ((j + start) % 65536, data j % 256)) := by
  simp only [writePage, _set_output_enable_eq, _set_bus_mode_eq, _set_chip_enable_eq,
    writePage_program_eq, _set_addr_eq, Dev.run_run] at h
  obtain ⟨P, hP, hno⟩ := writePage_poll_log H _ _ fuel _ r h
  refine ⟨([Call.digitalWrite Pin.EEPROM_OE HIGH] ++ busModeCalls PinMode.OUTPUT ++
      [Call.digitalWrite Pin.EEPROM_CE LOW]) ++ programCalls start data len 0 ++
      (busModeCalls PinMode.INPUT ++ [Call.digitalWrite Pin.EEPROM_OE LOW] ++
        setAddrCalls start) ++ P, ?_, fun l0 => ?_⟩
  · rw [hP]
    simp [millis, Dev.run_log]
  · rw [writeStrobes_append, writeStrobes_append, writeStrobes_append,
      writeStrobes_noStrobe _ NoStrobe_pageEnter, writeStrobes_programCalls,
      writeStrobes_noStrobe _ (NoStrobe_pollEnter start), writeStrobes_noStrobe _ hno,
      List.range_eq_range']
    simp

end Strobes
section PageCommit

variable {σ : Type} (H : Hardware σ)

theorem dataFrames_append (xs ys : List (Nat × Nat × Nat)) :
    dataFrames (xs ++ ys) = dataFrames xs ++ dataFrames ys := by
  induction xs with
  | nil => rfl
  | cons f fs ih => simp [dataFrames, ih]

theorem payloadBytes_append (xs ys : List (Nat × Nat × Nat)) :
    payloadBytes (xs ++ ys) = payloadBytes xs ++ payloadBytes ys := by
  induction xs with
  | nil => rfl
  | cons f fs ih => simp [payloadBytes, ih]

theorem take_84_append_last (payload : List (Nat × Nat × Nat)) (hlen : payload.length = 85) :
    payload = payload.take 84 ++ [payload.getD 84 (0, 0, 0)] := by
  have h1 : payload.drop 84 = [payload.getD 84 (0, 0, 0)] := by
    have hl : (payload.drop 84).length = 1 := by simp [hlen]
    match hd : payload.drop 84, hl with
    | [x], _ =>
      have : payload.getD 84 (0, 0, 0) = x := by
        have h2 : (payload.drop 84).getD 0 (0, 0, 0) = x := by rw [hd]; rfl
        simpa [List.getD_eq_getElem?_getD, List.getElem?_drop] using h2
      rw [this]
  conv_lhs => rw [← List.take_append_drop 84 payload, h1]

theorem loop_seek_start (s : Firmware σ) (rest : List Nat) (hrx : s.rx = 0x7B :: rest) :
    loop_seek s = s := by
  cases s
  simp only [loop_seek] at *
  subst hrx
  simp [loop_seek_rx, PKG_START]


end PageCommit
section PageCommit

variable {σ : Type} (H : Hardware σ)

/-- The start frame followed by at most 84 data frames only fills the page buffer: the frames
are acknowledged and the chip side is untouched. -/
theorem page_sequence_fill (fuel : Nat) (s : Firmware σ) (addr_l addr_h d0 : Nat)
    (frames : List (Nat × Nat × Nat)) (rest : List Nat) (n : Nat)
    (hl : addr_l < 256) (hh : addr_h < 256) (hd0 : d0 < 256)
    (hpay : ∀ f ∈ frames, f.1 < 256 ∧ f.2.1 < 256 ∧ f.2.2 < 256)
    (hlen : frames.length ≤ 84)
    (hrx : s.rx = startFrame addr_l addr_h d0 ++ (dataFrames frames ++ rest)) :
    ∃ s1, loop_frames H fuel (1 + frames.length + n) s = loop_frames H fuel n s1 ∧
      s1.rx = rest ∧
      s1.tx = s.tx ++ [0x7B, d0, 255 - d0, 0x7D] ++ echoAcks frames ∧
      s1.dev = s.dev ∧ s1.currentPageAddress = addr_l + 256 * addr_h ∧
      s1.currentPageOffset = 1 + 3 * frames.length ∧
      ∀ i, s1.pageData i =
        if i < 1 + 3 * frames.length then (d0 :: payloadBytes frames).getD i 0
        else s.pageData i := by
  have hlen6 : 6 ≤ s.rx.length := by rw [hrx]; simp [startFrame]
  have e : 1 + frames.length + n = (frames.length + n) + 1 := by omega
  rw [e, loop_frames_succ H fuel _ s hlen6,
    loop_body_start H fuel s addr_l addr_h d0 _ hl hh hd0 hrx, Option.some_bind]
  obtain ⟨s1, hs1, hr, ht, hd, ha, hp, ho⟩ := loop_frames_data H fuel frames
    { s with
      rx := dataFrames frames ++ rest,
      tx := s.tx ++ [0x7B, d0, 255 - d0, 0x7D],
      pageData := fun i => if i = 0 then d0 else s.pageData i,
      currentPageAddress := addr_l + 256 * addr_h,
      currentPageOffset := 1 }
    rest n hpay (by show 1 + 3 * frames.length < 256; omega) rfl
  refine ⟨s1, hs1, hr, ht, hd, ha, ?_, ?_⟩
  · rw [ho, pageData_pushAll_offset]
    · simp only [payloadBytes_length]
    · simp only [payloadBytes_length]; omega
  · intro i
    rw [hp, pageData_pushAll_get]
    · simp only [payloadBytes_length]
      by_cases h0 : i = 0
      · subst h0; simp
      · by_cases h1 : i < 1 + 3 * frames.length
        · have h2 : 1 ≤ i ∧ i < 1 + 3 * frames.length := ⟨by omega, h1⟩
          have h3 : i = (i - 1) + 1 := by omega
          rw [if_pos h2, if_pos h1]
          conv_rhs => rw [h3, List.getD_cons_succ]
        · have h2 : ¬(1 ≤ i ∧ i < 1 + 3 * frames.length) := by omega
          rw [if_neg h2, if_neg h1]
          simp [h0]
    · simp only [payloadBytes_length]; omega

end PageCommit
section PageCommitFull

variable {σ : Type} (H : Hardware σ)

/-- The complete page-write sequence: one start frame and 85 data frames, all buffered. -/
theorem page_sequence (hclk : ClockAdvances H.clock) (s : Firmware σ) (addr_l addr_h d0 : Nat)
    (payload : List (Nat × Nat × Nat))
    (hl : addr_l < 256) (hh : addr_h < 256) (hd0 : d0 < 256)
    (hpay : ∀ f ∈ payload, f.1 < 256 ∧ f.2.1 < 256 ∧ f.2.2 < 256)
    (hlen : payload.length = 85)
    (hrx : s.rx = startFrame addr_l addr_h d0 ++ dataFrames payload) :
    ∃ N, ∀ fuel, N ≤ fuel → ∃ s' ok, loop H fuel s = some s' ∧ s'.rx = [] ∧
      s'.tx = s.tx ++ [0x7B, d0, 255 - d0, 0x7D] ++ echoAcks (payload.take 84) ++
        [0x7B, 255 - (payload.getD 84 (0, 0, 0)).1, (payload.getD 84 (0, 0, 0)).1, 0x7D] ∧
      s'.currentPageAddress = addr_l + 256 * addr_h ∧ s'.currentPageOffset = 256 ∧
      (∀ i, i < 256 → s'.pageData i = (d0 :: payloadBytes payload).getD i 0) ∧
      writePage H fuel (addr_l + 256 * addr_h) s'.pageData 256 s.dev = some (ok, s'.dev) := by
  have hsplit := take_84_append_last payload hlen
  have hlast : (payload.getD 84 (0, 0, 0)) ∈ payload := by
    have h84 : 84 < payload.length := by omega
    rw [List.getD_eq_getElem _ _ h84]
    exact List.getElem_mem _
  obtain ⟨b1, b2, b3⟩ := hpay _ hlast
  have htake : ∀ f ∈ payload.take 84, f.1 < 256 ∧ f.2.1 < 256 ∧ f.2.2 < 256 :=
    fun f hf => hpay f (List.mem_of_mem_take hf)
  have htl : (payload.take 84).length = 84 := by simp [hlen]
  have hrx2 : s.rx = startFrame addr_l addr_h d0 ++ (dataFrames (payload.take 84) ++
      [0x7B, 0xCD, (payload.getD 84 (0, 0, 0)).1, (payload.getD 84 (0, 0, 0)).2.1,
        (payload.getD 84 (0, 0, 0)).2.2, 0x7D]) := by
    rw [hrx]
    conv_lhs => rw [hsplit, dataFrames_append]
    simp [dataFrames]
  -- the buffer and the driver state at the moment of the commit do not depend on the fuel
  obtain ⟨s1, -, hr1, ht1, hdev1, ha1, ho1, hp1⟩ := page_sequence_fill H 0 s addr_l addr_h d0
    (payload.take 84) _ 0 hl hh hd0 htake (by omega) hrx2
  obtain ⟨Nw, hNw⟩ := writePage_some H hclk (addr_l + 256 * addr_h)
    (pageData_pushAll [(payload.getD 84 (0, 0, 0)).1, (payload.getD 84 (0, 0, 0)).2.1,
      (payload.getD 84 (0, 0, 0)).2.2] s1).pageData 256 s.dev
  refine ⟨max 86 Nw, fun fuel hf => ?_⟩
  have hf1 : 86 ≤ fuel := le_trans (le_max_left _ _) hf
  have hf2 : Nw ≤ fuel := le_trans (le_max_right _ _) hf
  obtain ⟨m, hm⟩ : ∃ m, fuel = 1 + (payload.take 84).length + (m + 1) :=
    ⟨fuel - 86, by rw [htl]; omega⟩
  obtain ⟨s2, hs2, hr2, ht2, hdev2, ha2, ho2, hp2⟩ := page_sequence_fill H fuel s addr_l addr_h d0
    (payload.take 84) _ (m + 1) hl hh hd0 htake (by omega) hrx2
  have hpd : s2.pageData = s1.pageData := by
    funext i; rw [hp1, hp2]
  have hc : (pageData_pushAll [(payload.getD 84 (0, 0, 0)).1, (payload.getD 84 (0, 0, 0)).2.1,
      (payload.getD 84 (0, 0, 0)).2.2] s2).pageData =
      (pageData_pushAll [(payload.getD 84 (0, 0, 0)).1, (payload.getD 84 (0, 0, 0)).2.1,
      (payload.getD 84 (0, 0, 0)).2.2] s1).pageData :=
    (pageData_pushAll_congr _ s2 s1 hpd (by rw [ho1, ho2])).1
  have ho3 : (pageData_pushAll [(payload.getD 84 (0, 0, 0)).1, (payload.getD 84 (0, 0, 0)).2.1,
      (payload.getD 84 (0, 0, 0)).2.2] s2).currentPageOffset = 256 := by
    rw [pageData_pushAll_offset]
    · rw [ho2, htl]; rfl
    · rw [ho2, htl]; simp
  obtain ⟨r, hr⟩ := hNw fuel hf2
  have hbody := loop_body_data H fuel s2 _ _ _ [] b1 b2 b3 hr2
  rw [if_pos (by rw [ho3]), ha2, hdev2, hc, hr, Option.map_some'] at hbody
  have hloop : loop H fuel s = some
      { pageData_pushAll [(payload.getD 84 (0, 0, 0)).1, (payload.getD 84 (0, 0, 0)).2.1,
          (payload.getD 84 (0, 0, 0)).2.2] s2 with
        dev := r.2, rx := [],
        tx := s2.tx ++ [0x7B, 255 - (payload.getD 84 (0, 0, 0)).1,
          (payload.getD 84 (0, 0, 0)).1, 0x7D] } := by
    have hseek : loop_seek s = s := loop_seek_start s _ (by rw [hrx]; rfl)
    simp only [loop]
    rw [hseek]
    have hfuel : loop_frames H fuel fuel s =
        loop_frames H fuel (1 + (payload.take 84).length + (m + 1)) s := by rw [← hm]
    rw [hfuel, hs2, loop_frames_succ H fuel m s2 (by rw [hr2]; simp), hbody, Option.some_bind,
      loop_frames_done H fuel m _ (by simp)]
  refine ⟨_, r.1, hloop, rfl, ?_, ?_, ho3, ?_, ?_⟩
  · show s2.tx ++ _ = _
    rw [ht2]
  · show (pageData_pushAll [(payload.getD 84 (0, 0, 0)).1, (payload.getD 84 (0, 0, 0)).2.1,
      (payload.getD 84 (0, 0, 0)).2.2] s2).currentPageAddress = addr_l + 256 * addr_h
    rw [(pageData_pushAll_fields _ s2).2.2.2, ha2]
  · intro i hi
    show (pageData_pushAll [(payload.getD 84 (0, 0, 0)).1, (payload.getD 84 (0, 0, 0)).2.1,
      (payload.getD 84 (0, 0, 0)).2.2] s2).pageData i = (d0 :: payloadBytes payload).getD i 0
    rw [pageData_pushAll_get _ s2 i (by rw [ho2, htl]; simp), ho2, htl, hp2, htl]
    have hpb : payloadBytes payload = payloadBytes (payload.take 84) ++
        [(payload.getD 84 (0, 0, 0)).1, (payload.getD 84 (0, 0, 0)).2.1,
          (payload.getD 84 (0, 0, 0)).2.2] := by
      conv_lhs => rw [hsplit, payloadBytes_append]
      simp [payloadBytes]
    have hpl : (payloadBytes (payload.take 84)).length = 252 := by
      rw [payloadBytes_length, htl]
    by_cases h1 : i < 1 + 3 * 84
    · have h2 : ¬(1 + 3 * 84 ≤ i ∧ i < 1 + 3 * 84 + [(payload.getD 84 (0, 0, 0)).1,
          (payload.getD 84 (0, 0, 0)).2.1, (payload.getD 84 (0, 0, 0)).2.2].length) := by
        omega
      rw [if_neg h2, if_pos h1, hpb]
      rcases i with _ | j
      · rfl
      · rw [List.getD_cons_succ, List.getD_cons_succ, List.getD_append _ _ _ _ (by omega)]
    · have h2 : 1 + 3 * 84 ≤ i ∧ i < 1 + 3 * 84 + [(payload.getD 84 (0, 0, 0)).1,
          (payload.getD 84 (0, 0, 0)).2.1, (payload.getD 84 (0, 0, 0)).2.2].length := by
        simp only [List.length_cons, List.length_nil]; omega
      rw [if_pos h2, hpb]
      obtain ⟨j, rfl⟩ : ∃ j, i = j + 1 := ⟨i - 1, by omega⟩
      rw [List.getD_cons_succ, List.getD_append_right _ _ _ _ (by omega), hpl]
      have : j + 1 - (1 + 3 * 84) = j - 252 := by omega
      rw [this]
  · show writePage H fuel _ (pageData_pushAll [(payload.getD 84 (0, 0, 0)).1,
      (payload.getD 84 (0, 0, 0)).2.1, (payload.getD 84 (0, 0, 0)).2.2] s2).pageData 256 s.dev =
      some (r.1, r.2)
    rw [hc, hr]

end PageCommitFull
section PageClaims

variable {σ : Type} (H : Hardware σ)

theorem payloadBytes_lt (payload : List (Nat × Nat × Nat))
    (hpay : ∀ f ∈ payload, f.1 < 256 ∧ f.2.1 < 256 ∧ f.2.2 < 256) :
    ∀ b ∈ payloadBytes payload, b < 256 := by
  induction payload with
  | nil => intro b hb; simp [payloadBytes] at hb
  | cons f fs ih =>
    intro b hb
    obtain ⟨h1, h2, h3⟩ := hpay f (List.mem_cons_self _ _)
    simp only [payloadBytes, List.cons_append, List.nil_append, List.mem_cons] at hb
    rcases hb with h | h | h | h
    · rw [h]; exact h1
    · rw [h]; exact h2
    · rw [h]; exact h3
    · exact ih (fun g hg => hpay g (List.mem_cons_of_mem _ hg)) b h

theorem map_range_eq_of_getD (f : Nat → Nat) (l : List Nat)
    (h : ∀ i, i < l.length → f i = l.getD i 0) : (List.range l.length).map f = l := by
  apply List.ext_getElem
  · simp
  · intro i h1 h2
    simp only [List.getElem_map, List.getElem_range]
    rw [h i h2, List.getD_eq_getElem _ _ h2]

/-- C4: from any prior page-buffer state, one `PAGE_WRITE_START` frame (address `A`, data `d0`)
followed by exactly 85 `PAGE_WRITE_DATA` frames leaves the page buffer equal to
`[d0, b1, ..., b255]` in frame order; the start frame and the first 84 data frames do not touch
the chip, the 85th data frame runs `writePage` once, and that commit issues 256 write strobes in
index order, the `i`-th writing `buffer[i]` to the 16-bit address `A + i` (which is `A + i`
itself whenever the page does not run past `0xFFFF`). -/
theorem C4_page_write_commit (hclk : ClockAdvances H.clock) (s : Firmware σ)
    (addr_l addr_h d0 : Nat) (payload : List (Nat × Nat × Nat))
    (hl : addr_l < 256) (hh : addr_h < 256) (hd0 : d0 < 256)
    (hpay : ∀ f ∈ payload, f.1 < 256 ∧ f.2.1 < 256 ∧ f.2.2 < 256)
    (hlen : payload.length = 85)
    (hrx : s.rx = startFrame addr_l addr_h d0 ++ dataFrames payload) :
    (∀ fuel, 85 ≤ fuel →
      ∃ s84, loop H fuel
          { s with rx := startFrame addr_l addr_h d0 ++ dataFrames (payload.take 84) } =
            some s84 ∧
        s84.dev = s.dev ∧ s84.currentPageOffset = 253) ∧
    ∃ N, ∀ fuel, N ≤ fuel → ∃ s' ok L, loop H fuel s = some s' ∧
      (List.range 256).map s'.pageData = d0 :: payloadBytes payload ∧
      writePage H fuel (addr_l + 256 * addr_h) s'.pageData 256 s.dev = some (ok, s'.dev) ∧
      s'.dev.log = s.dev.log ++ L ∧
      (∀ l0 : Lines, writeStrobes l0 L =
        (List.range 256).map (fun i =>
          ((addr_l + 256 * addr_h + i) % 65536, (d0 :: payloadBytes payload).getD i 0))) ∧
      (addr_l + 256 * addr_h + 255 < 65536 →
        ∀ l0 : Lines, writeStrobes l0 L =
          (List.range 256).map (fun i =>
            (addr_l + 256 * addr_h + i, (d0 :: payloadBytes payload).getD i 0))) := by
  have hblen : (d0 :: payloadBytes payload).length = 256 := by
    simp [payloadBytes_length, hlen]
  have hblt : ∀ i, (d0 :: payloadBytes payload).getD i 0 < 256 := by
    intro i
    by_cases hi : i < (d0 :: payloadBytes payload).length
    · rw [List.getD_eq_getElem _ _ hi]
      have hm : (d0 :: payloadBytes payload)[i] ∈ d0 :: payloadBytes payload :=
        List.getElem_mem _
      rcases List.mem_cons.mp hm with h | h
      · rw [h]; exact hd0
      · exact payloadBytes_lt payload hpay _ h
    · rw [List.getD_eq_default _ _ (by omega)]
      norm_num
  constructor
  · intro fuel hf
    have htl : (payload.take 84).length = 84 := by simp [hlen]
    obtain ⟨s1, hs1, hr, -, hd, -, ho, -⟩ := page_sequence_fill H fuel
      { s with rx := startFrame addr_l addr_h d0 ++ dataFrames (payload.take 84) }
      addr_l addr_h d0 (payload.take 84) [] (fuel - 85) hl hh hd0
      (fun f hf => hpay f (List.mem_of_mem_take hf)) (by omega) (by simp)
    refine ⟨s1, ?_, hd, by rw [ho, htl]⟩
    have hseek := loop_seek_start
      { s with rx := startFrame addr_l addr_h d0 ++ dataFrames (payload.take 84) } _ rfl
    have hfuel : loop_frames H fuel fuel
        { s with rx := startFrame addr_l addr_h d0 ++ dataFrames (payload.take 84) } =
        loop_frames H fuel (1 + (payload.take 84).length + (fuel - 85))
          { s with rx := startFrame addr_l addr_h d0 ++ dataFrames (payload.take 84) } := by
      congr 1; rw [htl]; omega
    simp only [loop]
    rw [hseek, hfuel, hs1, loop_frames_done H fuel _ s1 (by rw [hr]; simp)]
  · obtain ⟨N, hN⟩ := page_sequence H hclk s addr_l addr_h d0 payload hl hh hd0 hpay hlen hrx
    refine ⟨N, fun fuel hf => ?_⟩
    obtain ⟨s', ok, hloop, -, -, -, -, hp, hw⟩ := hN fuel hf
    obtain ⟨L, hL, hst⟩ := writePage_strobes H fuel _ _ _ _ _ hw
    have hmod : ∀ l0 : Lines, writeStrobes l0 L =
        (List.range 256).map (fun i =>
          ((addr_l + 256 * addr_h + i) % 65536, (d0 :: payloadBytes payload).getD i 0)) := by
      intro l0
      rw [hst l0]
      apply List.map_congr_left
      intro i hi
      rw [List.mem_range] at hi
      rw [hp i hi, Nat.mod_eq_of_lt (hblt i), Nat.add_comm]
    refine ⟨s', ok, L, hloop, ?_, hw, hL, hmod, fun hA l0 => ?_⟩
    · have := map_range_eq_of_getD s'.pageData (d0 :: payloadBytes payload)
        (fun i hi => hp i (by rw [hblen] at hi; exact hi))
      rw [hblen] at this
      exact this
    · rw [hmod l0]
      apply List.map_congr_left
      intro i hi
      rw [List.mem_range] at hi
      rw [Nat.mod_eq_of_lt (by omega)]

theorem C4_page_write_commit_witness :
    ClockAdvances (deadChip slowClock).clock ∧
    (0x00 : Nat) < 256 ∧ (0x20 : Nat) < 256 ∧ (0x42 : Nat) < 256 ∧
    (∀ f ∈ List.replicate 85 ((1 : Nat), (2 : Nat), (3 : Nat)),
      f.1 < 256 ∧ f.2.1 < 256 ∧ f.2.2 < 256) ∧
    (List.replicate 85 ((1 : Nat), (2 : Nat), (3 : Nat))).length = 85 ∧
    (Firmware.init ()
      (startFrame 0x00 0x20 0x42 ++ dataFrames (List.replicate 85 (1, 2, 3)))).rx =
      startFrame 0x00 0x20 0x42 ++ dataFrames (List.replicate 85 (1, 2, 3)) ∧
    ((∀ fuel, 85 ≤ fuel →
      ∃ s84, loop (deadChip slowClock) fuel
          { Firmware.init ()
              (startFrame 0x00 0x20 0x42 ++ dataFrames (List.replicate 85 (1, 2, 3))) with
            rx := startFrame 0x00 0x20 0x42 ++
              dataFrames ((List.replicate 85 (1, 2, 3)).take 84) } = some s84 ∧
        s84.dev = (Firmware.init ()
          (startFrame 0x00 0x20 0x42 ++ dataFrames (List.replicate 85 (1, 2, 3)))).dev ∧
        s84.currentPageOffset = 253) ∧
    ∃ N, ∀ fuel, N ≤ fuel → ∃ s' ok L,
      loop (deadChip slowClock) fuel (Firmware.init ()
        (startFrame 0x00 0x20 0x42 ++ dataFrames (List.replicate 85 (1, 2, 3)))) = some s' ∧
      (List.range 256).map s'.pageData = 0x42 :: payloadBytes (List.replicate 85 (1, 2, 3)) ∧
      writePage (deadChip slowClock) fuel (0x00 + 256 * 0x20) s'.pageData 256
        (Firmware.init ()
          (startFrame 0x00 0x20 0x42 ++ dataFrames (List.replicate 85 (1, 2, 3)))).dev =
        some (ok, s'.dev) ∧
      s'.dev.log = (Firmware.init ()
        (startFrame 0x00 0x20 0x42 ++ dataFrames (List.replicate 85 (1, 2, 3)))).dev.log ++ L ∧
      (∀ l0 : Lines, writeStrobes l0 L =
        (List.range 256).map (fun i =>
          ((0x00 + 256 * 0x20 + i) % 65536,
            (0x42 :: payloadBytes (List.replicate 85 (1, 2, 3))).getD i 0))) ∧
      (0x00 + 256 * 0x20 + 255 < 65536 →
        ∀ l0 : Lines, writeStrobes l0 L =
          (List.range 256).map (fun i =>
            (0x00 + 256 * 0x20 + i,
              (0x42 :: payloadBytes (List.replicate 85 (1, 2, 3))).getD i 0)))) :=
  ⟨slowClock_advances, by decide, by decide, by decide,
    fun f hf => by rw [List.eq_of_mem_replicate hf]; decide,
    List.length_replicate _ _, rfl,
    C4_page_write_commit (deadChip slowClock) slowClock_advances
      (Firmware.init ()
        (startFrame 0x00 0x20 0x42 ++ dataFrames (List.replicate 85 (1, 2, 3))))
      0x00 0x20 0x42 (List.replicate 85 (1, 2, 3)) (by decide) (by decide) (by decide)
      (fun f hf => by rw [List.eq_of_mem_replicate hf]; decide)
      (List.length_replicate _ _) rfl⟩

end PageClaims
section PageAck

variable {σ : Type} (H : Hardware σ)

/-- C5: the response data byte of a `PAGE_WRITE_DATA` frame is the complement of the frame's
address-low byte exactly when the frame committed the page (the cursor is at or above 256 after
its three bytes were appended, and `writePage` ran), and the address-low byte itself exactly
when it did not (chip untouched); in a start + 85 data-frame sequence the first 84 data frames
are echoed and the 85th is answered with the complement, whatever `writePage` returned. -/
theorem C5_page_data_ack (hclk : ClockAdvances H.clock) (s : Firmware σ)
    (addr_l addr_h d : Nat) (rest : List Nat)
    (hl : addr_l < 256) (hh : addr_h < 256) (hd : d < 256)
    (hrx : s.rx = 0x7B :: 0xCD :: addr_l :: addr_h :: d :: 0x7D :: rest)
    (t : Firmware σ) (start_l start_h d0 : Nat) (payload : List (Nat × Nat × Nat))
    (hsl : start_l < 256) (hsh : start_h < 256) (hd0 : d0 < 256)
    (hpay : ∀ f ∈ payload, f.1 < 256 ∧ f.2.1 < 256 ∧ f.2.2 < 256)
    (hlen : payload.length = 85)
    (htrx : t.rx = startFrame start_l start_h d0 ++ dataFrames payload) :
    (∃ N, ∀ fuel, N ≤ fuel → ∃ s' r, loop_body H fuel s = some s' ∧
      s'.tx = s.tx ++ [0x7B, r, 255 - r, 0x7D] ∧
      s'.currentPageOffset = (pageData_pushAll [addr_l, addr_h, d] s).currentPageOffset ∧
      (r = 255 - addr_l ↔ 256 ≤ s'.currentPageOffset) ∧
      (r = addr_l ↔ s'.currentPageOffset < 256) ∧
      (256 ≤ s'.currentPageOffset →
        ∃ ok, writePage H fuel s.currentPageAddress s'.pageData 256 s.dev =
          some (ok, s'.dev)) ∧
      (s'.currentPageOffset < 256 → s'.dev = s.dev)) ∧
    ∃ N, ∀ fuel, N ≤ fuel → ∃ t' ok, loop H fuel t = some t' ∧
      writePage H fuel (start_l + 256 * start_h) t'.pageData 256 t.dev = some (ok, t'.dev) ∧
      t'.tx = t.tx ++ [0x7B, d0, 255 - d0, 0x7D] ++ echoAcks (payload.take 84) ++
        [0x7B, 255 - (payload.getD 84 (0, 0, 0)).1, (payload.getD 84 (0, 0, 0)).1, 0x7D] := by
  constructor
  · by_cases hc : 256 ≤ (pageData_pushAll [addr_l, addr_h, d] s).currentPageOffset
    · obtain ⟨N, hN⟩ := writePage_some H hclk s.currentPageAddress
        (pageData_pushAll [addr_l, addr_h, d] s).pageData 256 s.dev
      refine ⟨N, fun fuel hf => ?_⟩
      obtain ⟨r, hr⟩ := hN fuel hf
      have hbody := loop_body_data H fuel s addr_l addr_h d rest hl hh hd hrx
      rw [if_pos hc, hr, Option.map_some'] at hbody
      refine ⟨_, 255 - addr_l, hbody, ?_, rfl, ?_, ?_, ?_, ?_⟩
      · have e : 255 - (255 - addr_l) = addr_l := by omega
        rw [e]
      · exact ⟨fun _ => hc, fun _ => rfl⟩
      · constructor
        · intro h; omega
        · intro h
          have : (pageData_pushAll [addr_l, addr_h, d] s).currentPageOffset < 256 := h
          omega
      · intro _
        exact ⟨r.1, hr⟩
      · intro h
        have : (pageData_pushAll [addr_l, addr_h, d] s).currentPageOffset < 256 := h
        omega
    · refine ⟨0, fun fuel _ => ?_⟩
      have hbody := loop_body_data H fuel s addr_l addr_h d rest hl hh hd hrx
      rw [if_neg hc] at hbody
      refine ⟨_, addr_l, hbody, rfl, rfl, ?_, ?_, ?_, ?_⟩
      · constructor
        · intro h; omega
        · intro h
          exact absurd h hc
      · exact ⟨fun _ => not_le.mp hc, fun _ => rfl⟩
      · intro h
        exact absurd h hc
      · intro _
        exact (pageData_pushAll_fields _ s).1
  · obtain ⟨N, hN⟩ := page_sequence H hclk t start_l start_h d0 payload hsl hsh hd0 hpay hlen htrx
    refine ⟨N, fun fuel hf => ?_⟩
    obtain ⟨t', ok, hloop, -, htx, -, -, -, hw⟩ := hN fuel hf
    exact ⟨t', ok, hloop, hw, htx⟩

theorem C5_page_data_ack_witness :
    ClockAdvances (deadChip slowClock).clock ∧
    (0x11 : Nat) < 256 ∧ (0x22 : Nat) < 256 ∧ (0x33 : Nat) < 256 ∧
    (Firmware.init () [0x7B, 0xCD, 0x11, 0x22, 0x33, 0x7D]).rx =
      0x7B :: 0xCD :: 0x11 :: 0x22 :: 0x33 :: 0x7D :: [] ∧
    (0x00 : Nat) < 256 ∧ (0x20 : Nat) < 256 ∧ (0x42 : Nat) < 256 ∧
    (∀ f ∈ List.replicate 85 ((1 : Nat), (2 : Nat), (3 : Nat)),
      f.1 < 256 ∧ f.2.1 < 256 ∧ f.2.2 < 256) ∧
    (List.replicate 85 ((1 : Nat), (2 : Nat), (3 : Nat))).length = 85 ∧
    (Firmware.init ()
      (startFrame 0x00 0x20 0x42 ++ dataFrames (List.replicate 85 (1, 2, 3)))).rx =
      startFrame 0x00 0x20 0x42 ++ dataFrames (List.replicate 85 (1, 2, 3)) ∧
    ((∃ N, ∀ fuel, N ≤ fuel → ∃ s' r,
      loop_body (deadChip slowClock) fuel
        (Firmware.init () [0x7B, 0xCD, 0x11, 0x22, 0x33, 0x7D]) = some s' ∧
      s'.tx = (Firmware.init () [0x7B, 0xCD, 0x11, 0x22, 0x33, 0x7D]).tx ++
        [0x7B, r, 255 - r, 0x7D] ∧
      s'.currentPageOffset = (pageData_pushAll [0x11, 0x22, 0x33]
        (Firmware.init () [0x7B, 0xCD, 0x11, 0x22, 0x33, 0x7D])).currentPageOffset ∧
      (r = 255 - 0x11 ↔ 256 ≤ s'.currentPageOffset) ∧
      (r = 0x11 ↔ s'.currentPageOffset < 256) ∧
      (256 ≤ s'.currentPageOffset →
        ∃ ok, writePage (deadChip slowClock) fuel
          (Firmware.init () [0x7B, 0xCD, 0x11, 0x22, 0x33, 0x7D]).currentPageAddress
          s'.pageData 256 (Firmware.init () [0x7B, 0xCD, 0x11, 0x22, 0x33, 0x7D]).dev =
          some (ok, s'.dev)) ∧
      (s'.currentPageOffset < 256 →
        s'.dev = (Firmware.init () [0x7B, 0xCD, 0x11, 0x22, 0x33, 0x7D]).dev)) ∧
    ∃ N, ∀ fuel, N ≤ fuel → ∃ t' ok,
      loop (deadChip slowClock) fuel (Firmware.init ()
        (startFrame 0x00 0x20 0x42 ++ dataFrames (List.replicate 85 (1, 2, 3)))) = some t' ∧
      writePage (deadChip slowClock) fuel (0x00 + 256 * 0x20) t'.pageData 256
        (Firmware.init ()
          (startFrame 0x00 0x20 0x42 ++ dataFrames (List.replicate 85 (1, 2, 3)))).dev =
        some (ok, t'.dev) ∧
      t'.tx = (Firmware.init ()
          (startFrame 0x00 0x20 0x42 ++ dataFrames (List.replicate 85 (1, 2, 3)))).tx ++
        [0x7B, 0x42, 255 - 0x42, 0x7D] ++ echoAcks ((List.replicate 85 (1, 2, 3)).take 84) ++
        [0x7B, 255 - ((List.replicate 85 ((1 : Nat), (2 : Nat), (3 : Nat))).getD 84 (0, 0, 0)).1,
          ((List.replicate 85 ((1 : Nat), (2 : Nat), (3 : Nat))).getD 84 (0, 0, 0)).1, 0x7D]) :=
  ⟨slowClock_advances, by decide, by decide, by decide, rfl, by decide, by decide, by decide,
    fun f hf => by rw [List.eq_of_mem_replicate hf]; decide,
    List.length_replicate _ _, rfl,
    C5_page_data_ack (deadChip slowClock) slowClock_advances
      (Firmware.init () [0x7B, 0xCD, 0x11, 0x22, 0x33, 0x7D]) 0x11 0x22 0x33 []
      (by decide) (by decide) (by decide) rfl
      (Firmware.init ()
        (startFrame 0x00 0x20 0x42 ++ dataFrames (List.replicate 85 (1, 2, 3))))
      0x00 0x20 0x42 (List.replicate 85 (1, 2, 3)) (by decide) (by decide) (by decide)
      (fun f hf => by rw [List.eq_of_mem_replicate hf]; decide)
      (List.length_replicate _ _) rfl⟩

end PageAck
section FrameSync

variable {σ : Type} (H : Hardware σ)

theorem loop_seek_rx_skip (junk : List Nat) (rest : List Nat)
    (hjunk : ∀ b ∈ junk, b ≠ 0x7B) :
    loop_seek_rx (junk ++ 0x7B :: rest) = 0x7B :: rest := by
  induction junk with
  | nil => simp [loop_seek_rx, PKG_START]
  | cons b bs ih =>
    have hb : b ≠ PKG_START := hjunk b (List.mem_cons_self _ _)
    simp only [List.cons_append, loop_seek_rx, if_pos hb]
    exact ih (fun c hc => hjunk c (List.mem_cons_of_mem _ hc))

theorem loop_body_discard (fuel : Nat) (s : Firmware σ) (w rest : List Nat) (hw : Malformed w)
    (hrx : s.rx = w ++ rest) : loop_body H fuel s = some { s with rx := rest } := by
  obtain ⟨hlen, hb, hbad⟩ := hw
  match w, hlen with
  | [b0, b1, b2, b3, b4, b5], _ =>
    have h0 : b0 < 256 := hb b0 (by simp)
    have h5 : b5 < 256 := hb b5 (by simp)
    rw [loop_body_cons H fuel s b0 b1 b2 b3 b4 b5 rest (by simpa using hrx),
      Nat.mod_eq_of_lt h0, Nat.mod_eq_of_lt h5, if_pos (by simpa using hbad)]

theorem loop_frames_discard (fuel : Nat) (windows : List (List Nat)) :
    ∀ (s : Firmware σ) (rest : List Nat) (n : Nat), (∀ w ∈ windows, Malformed w) →
      s.rx = windowsBytes windows ++ rest →
      loop_frames H fuel (windows.length + n) s = loop_frames H fuel n { s with rx := rest } := by
  induction windows with
  | nil =>
    intro s rest n _ hrx
    have : s = { s with rx := rest } := by
      cases s; simp only [windowsBytes, List.nil_append] at hrx; subst hrx; rfl
    rw [← this]; simp
  | cons w ws ih =>
    intro s rest n hw hrx
    have hm : Malformed w := hw w (List.mem_cons_self _ _)
    have hrx' : s.rx = w ++ (windowsBytes ws ++ rest) := by
      rw [hrx]; simp [windowsBytes]
    have hlen : 6 ≤ s.rx.length := by rw [hrx']; simp [hm.1]
    have e : (w :: ws).length + n = (ws.length + n) + 1 := by simp only [List.length_cons]; omega
    rw [e, loop_frames_succ H fuel _ s hlen, loop_body_discard H fuel s w _ hm hrx',
      Option.some_bind, ih _ rest n (fun v hv => hw v (List.mem_cons_of_mem _ hv)) rfl]

/-- C6 (as amended): junk without the marker is skipped by seeking, every malformed six-byte
window that follows is discarded without a response, and a well-formed frame that starts right
after these windows is parsed and answered. -/
theorem C6_frame_sync_on_window_boundary (hclk : ClockAdvances H.clock) (s : Firmware σ)
    (junk : List Nat) (windows : List (List Nat)) (cmd addr_l addr_h data : Nat)
    (tail : List Nat)
    (hjunk : ∀ b ∈ junk, b ≠ 0x7B)
    (hwin : ∀ w ∈ windows, Malformed w)
    (hhead : (windowsBytes windows ++ [0x7B, cmd, addr_l, addr_h, data, 0x7D]).head? = some 0x7B)
    (htail : tail.length < 6)
    (hrx : s.rx = junk ++ (windowsBytes windows ++ [0x7B, cmd, addr_l, addr_h, data, 0x7D]) ++
      tail) :
    ∃ N r, r < 256 ∧ ∀ fuel, N ≤ fuel →
      ∃ s', loop H fuel s = some s' ∧ s'.rx = tail ∧
        s'.tx = s.tx ++ [0x7B, r, 255 - r, 0x7D] := by
  obtain ⟨N, v, hN⟩ := loop_switch_some H hclk (cmd % 256) (addr_l % 256) (addr_h % 256)
    (data % 256) ((addr_l % 256 ||| ((addr_h % 256) <<< 8)) % 65536) { s with rx := tail }
  refine ⟨max N (windows.length + 2), v % 256, Nat.mod_lt _ (by norm_num), fun fuel hf => ?_⟩
  have hf1 : N ≤ fuel := le_trans (le_max_left _ _) hf
  have hf2 : windows.length + 2 ≤ fuel := le_trans (le_max_right _ _) hf
  obtain ⟨r, hr, hv, htx, hrx'⟩ := hN fuel hf1
  -- seeking stops at the first marker
  obtain ⟨rest0, hrest0⟩ : ∃ rest0,
      windowsBytes windows ++ [0x7B, cmd, addr_l, addr_h, data, 0x7D] = 0x7B :: rest0 := by
    cases hw : windowsBytes windows ++ [0x7B, cmd, addr_l, addr_h, data, 0x7D] with
    | nil => rw [hw] at hhead; simp at hhead
    | cons b bs =>
      rw [hw] at hhead
      simp only [List.head?_cons, Option.some.injEq] at hhead
      exact ⟨bs, by rw [hhead]⟩
  have hseek : loop_seek s =
      { s with rx := windowsBytes windows ++
        ([0x7B, cmd, addr_l, addr_h, data, 0x7D] ++ tail) } := by
    simp only [loop_seek]
    congr 1
    rw [hrx, List.append_assoc, hrest0, List.cons_append, loop_seek_rx_skip junk _ hjunk,
      ← List.cons_append, ← hrest0, List.append_assoc]
  obtain ⟨m, hm⟩ : ∃ m, fuel = windows.length + (m + 1) := ⟨fuel - windows.length - 1, by omega⟩
  have hfuel : loop_frames H fuel fuel (loop_seek s) =
      loop_frames H fuel (windows.length + (m + 1)) (loop_seek s) := by rw [← hm]
  simp only [loop]
  rw [hfuel, hseek, loop_frames_discard H fuel windows _ _ (m + 1) hwin rfl,
    loop_frames_succ H fuel m _ (by simp),
    loop_body_cons H fuel _ 0x7B cmd addr_l addr_h data 0x7D tail rfl]
  simp only [PKG_START, PKG_END, Nat.reduceMod, ne_eq, not_true_eq_false, or_self, if_false]
  rw [hr, Option.map_some', Option.some_bind, loop_frames_done H fuel m _ (by simpa [hrx'] using htail)]
  refine ⟨_, rfl, hrx', ?_⟩
  simp [htx, hv, not8]

end FrameSync
theorem C6_frame_sync_on_window_boundary_witness :
    ClockAdvances (idealChip tickClock).clock ∧
    (∀ b ∈ [(0x01 : Nat), 0x02], b ≠ 0x7B) ∧
    (∀ w ∈ [[(0x7B : Nat), 0x01, 0x02, 0x03, 0x04, 0x05]], Malformed w) ∧
    (windowsBytes [[0x7B, 0x01, 0x02, 0x03, 0x04, 0x05]] ++
      [0x7B, 0xAA, 0x10, 0x00, 0x00, 0x7D]).head? = some 0x7B ∧
    ([] : List Nat).length < 6 ∧
    (Firmware.init Ideal.erased
      [0x01, 0x02, 0x7B, 0x01, 0x02, 0x03, 0x04, 0x05, 0x7B, 0xAA, 0x10, 0x00, 0x00, 0x7D]).rx =
      [0x01, 0x02] ++ (windowsBytes [[0x7B, 0x01, 0x02, 0x03, 0x04, 0x05]] ++
        [0x7B, 0xAA, 0x10, 0x00, 0x00, 0x7D]) ++ [] ∧
    ∃ N r, r < 256 ∧ ∀ fuel, N ≤ fuel →
      ∃ s', loop (idealChip tickClock) fuel (Firmware.init Ideal.erased
          [0x01, 0x02, 0x7B, 0x01, 0x02, 0x03, 0x04, 0x05, 0x7B, 0xAA, 0x10, 0x00, 0x00, 0x7D]) =
          some s' ∧
        s'.rx = [] ∧
        s'.tx = (Firmware.init Ideal.erased
          [0x01, 0x02, 0x7B, 0x01, 0x02, 0x03, 0x04, 0x05, 0x7B, 0xAA, 0x10, 0x00, 0x00,
            0x7D]).tx ++ [0x7B, r, 255 - r, 0x7D] :=
  ⟨tickClock_advances, by decide, by simp [Malformed, PKG_START, PKG_END], rfl, by decide, rfl,
    C6_frame_sync_on_window_boundary (idealChip tickClock) tickClock_advances
      (Firmware.init Ideal.erased
        [0x01, 0x02, 0x7B, 0x01, 0x02, 0x03, 0x04, 0x05, 0x7B, 0xAA, 0x10, 0x00, 0x00, 0x7D])
      [0x01, 0x02] [[0x7B, 0x01, 0x02, 0x03, 0x04, 0x05]] 0xAA 0x10 0x00 0x00 []
      (by decide) (by simp [Malformed, PKG_START, PKG_END]) rfl (by decide) rfl⟩

/-- C6 as stated fails: (1) the stream `0x7B, 0x00, 0x00` followed by the well-formed frame
`0x7B, 0xAA, 0x10, 0x00, 0x00, 0x7D` is never answered, because the window opened by the stray
marker swallows the first three bytes of the frame, and a second call of `loop()` only drains
the rest; (2) with seven unrelated bytes `0x7B, 1, 2, 3, 4, 5, 6` before the frame, the framer
does not return to seeking after the first discarded window but takes `6, 0x7B, 0xAA, 0x10,
0x00, 0x00` as the next window, and the frame is lost as well. -/
theorem C6_counterexample :
    (loop (idealChip tickClock) 10 (Firmware.init Ideal.erased
        [0x7B, 0x00, 0x00, 0x7B, 0xAA, 0x10, 0x00, 0x00, 0x7D])).map
      (fun s => (s.tx, s.rx)) = some ([], [0x00, 0x00, 0x7D]) ∧
    ((loop (idealChip tickClock) 10 (Firmware.init Ideal.erased
        [0x7B, 0x00, 0x00, 0x7B, 0xAA, 0x10, 0x00, 0x00, 0x7D])).bind
      (loop (idealChip tickClock) 10)).map (fun s => (s.tx, s.rx)) = some ([], []) ∧
    (loop (idealChip tickClock) 10 (Firmware.init Ideal.erased
        [0x7B, 1, 2, 3, 4, 5, 6, 0x7B, 0xAA, 0x10, 0x00, 0x00, 0x7D])).map
      (fun s => (s.tx, s.rx)) = some ([], [0x7D]) ∧
    ((loop (idealChip tickClock) 10 (Firmware.init Ideal.erased
        [0x7B, 1, 2, 3, 4, 5, 6, 0x7B, 0xAA, 0x10, 0x00, 0x00, 0x7D])).bind
      (loop (idealChip tickClock) 10)).map (fun s => (s.tx, s.rx)) = some ([], []) := by
  refine ⟨?_, ?_, ?_, ?_⟩ <;> decide
section WriteBytePolls

variable {σ : Type} (H : Hardware σ)

theorem afterPolls_ticks (a : Nat) (j : Nat) :
    ∀ s : Dev σ, (afterPolls H a j s).ticks = s.ticks + j := by
  induction j with
  | zero => intro s; rfl
  | succ j ih =>
    intro s
    simp only [afterPolls, ih]
    simp only [millis, readByte_snd, Dev.run_ticks]
    omega

theorem readback_succ (a j : Nat) (s : Dev σ) :
    readback H a (j + 1) s = readback H a j (millis H (readByte H a s).2).2 := rfl

theorem millis_readByte_ticks (a : Nat) (s : Dev σ) :
    (millis H (readByte H a s).2).2.ticks = s.ticks + 1 := by
  simp only [millis, readByte_snd, Dev.run_ticks]

theorem millis_readByte_val (a : Nat) (s : Dev σ) (t : Nat) :
    elapsed (millis H (readByte H a s).2).1 t = elapsed (H.clock s.ticks) t := by
  simp only [millis, readByte_snd, Dev.run_ticks, elapsed_mod_left]

/-- What a terminating run of the polling loop went through. -/
theorem writeByte_poll_result (a d t : Nat) (fuel : Nat) :
    ∀ (s : Dev σ) (b : Bool) (s' : Dev σ), writeByte_poll H a d t fuel s = some (b, s') →
      ∃ j, (∀ i, i < j → readback H a i s ≠ d ∧
          elapsed (H.clock (s.ticks + i)) t < WRITE_TIMEOUT_MS) ∧
        (b = true → readback H a j s = d ∧ s'.ticks = s.ticks + j) ∧
        (b = false → readback H a j s ≠ d ∧
          WRITE_TIMEOUT_MS ≤ elapsed (H.clock (s.ticks + j)) t) := by
  induction fuel with
  | zero => intro s b s' h; simp [writeByte_poll] at h
  | succ fuel ih =>
    intro s b s' h
    simp only [writeByte_poll] at h
    by_cases hne : (readByte H a s).1 ≠ d
    · rw [if_pos hne] at h
      by_cases ht : elapsed (millis H (readByte H a s).2).1 t ≥ WRITE_TIMEOUT_MS
      · rw [if_pos ht] at h
        simp only [Option.some.injEq, Prod.mk.injEq] at h
        refine ⟨0, fun i hi => absurd hi (Nat.not_lt_zero i), ?_, ?_⟩
        · intro hb; rw [← h.1] at hb; cases hb
        · intro _
          rw [millis_readByte_val] at ht
          exact ⟨hne, ht⟩
      · rw [if_neg ht] at h
        obtain ⟨j, hj, htrue, hfalse⟩ := ih _ b s' h
        rw [millis_readByte_ticks] at hj htrue hfalse
        rw [millis_readByte_val] at ht
        refine ⟨j + 1, ?_, ?_, ?_⟩
        · intro i hi
          rcases i with _ | i
          · exact ⟨hne, not_le.mp ht⟩
          · have := hj i (by omega)
            rw [readback_succ]
            have e : s.ticks + (i + 1) = s.ticks + 1 + i := by omega
            rw [e]
            exact this
        · intro hb
          obtain ⟨h1, h2⟩ := htrue hb
          rw [readback_succ]
          exact ⟨h1, by rw [h2]; omega⟩
        · intro hb
          have e : s.ticks + (j + 1) = s.ticks + 1 + j := by omega
          rw [readback_succ, e]
          exact hfalse hb
    · rw [if_neg hne] at h
      simp only [Option.some.injEq, Prod.mk.injEq] at h
      refine ⟨0, fun i hi => absurd hi (Nat.not_lt_zero i), ?_, ?_⟩
      · intro _
        refine ⟨not_not.mp hne, ?_⟩
        rw [← h.2]
        simp only [readByte_snd, Dev.run_ticks]
        rfl
      · intro hb; rw [← h.1] at hb; cases hb

/-- Polls that mismatch before the timeout only consume fuel. -/
theorem writeByte_poll_skip (a d t : Nat) (j : Nat) :
    ∀ (s : Dev σ) (fuel : Nat),
      (∀ i, i < j → readback H a i s ≠ d ∧
        elapsed (H.clock (s.ticks + i)) t < WRITE_TIMEOUT_MS) →
      writeByte_poll H a d t (j + fuel) s = writeByte_poll H a d t fuel (afterPolls H a j s) := by
  induction j with
  | zero => intro s fuel _; simp [afterPolls]
  | succ j ih =>
    intro s fuel h
    obtain ⟨h0, h0'⟩ := h 0 (by omega)
    have e : j + 1 + fuel = (j + fuel) + 1 := by omega
    have hne : (readByte H a s).1 ≠ d := h0
    have ht : ¬ elapsed (millis H (readByte H a s).2).1 t ≥ WRITE_TIMEOUT_MS := by
      rw [millis_readByte_val]
      exact not_le.mpr h0'
    rw [e]
    simp only [writeByte_poll]
    rw [if_pos hne, if_neg ht, ih]
    · rfl
    · intro i hi
      have := h (i + 1) (by omega)
      rw [readback_succ] at this
      rw [millis_readByte_ticks]
      have e2 : s.ticks + 1 + i = s.ticks + (i + 1) := by omega
      rw [e2]
      exact this

end WriteBytePolls
section WriteByteResult

variable {σ : Type} (H : Hardware σ)

theorem writeByte_eq_strobed (fuel a d : Nat) (s : Dev σ) :
    writeByte H fuel a d s =
      writeByte_poll H a d (H.clock s.ticks % 2 ^ 32) fuel (writeByte_strobed H a d s) := by
  simp only [writeByte, writeByte_strobed, millis, _set_output_enable_eq, _set_bus_mode_eq,
    _set_chip_enable_eq, _write_eeprom_eq, Dev.run_run, Dev.run_ticks]

theorem writeByte_strobed_ticks (a d : Nat) (s : Dev σ) :
    (writeByte_strobed H a d s).ticks = s.ticks + 1 := by
  simp only [writeByte_strobed, millis, _set_output_enable_eq, _set_bus_mode_eq,
    _set_chip_enable_eq, _write_eeprom_eq, Dev.run_run, Dev.run_ticks]

/-- The exact run of `writeByte` that returns `false`: poll `j` is the first one that
mismatches after the timeout, all earlier polls mismatch before the timeout. -/
theorem writeByte_false_iff (a d : Nat) (s : Dev σ) :
    (∃ fuel s', writeByte H fuel a d s = some (false, s')) ↔
      ∃ j, (∀ i, i < j → readback H a i (writeByte_strobed H a d s) ≠ d ∧
          elapsed (H.clock (s.ticks + 1 + i)) (H.clock s.ticks) < WRITE_TIMEOUT_MS) ∧
        readback H a j (writeByte_strobed H a d s) ≠ d ∧
        WRITE_TIMEOUT_MS ≤ elapsed (H.clock (s.ticks + 1 + j)) (H.clock s.ticks) := by
  constructor
  · rintro ⟨fuel, s', h⟩
    rw [writeByte_eq_strobed] at h
    obtain ⟨j, hj, -, hfalse⟩ := writeByte_poll_result H a d _ fuel _ _ _ h
    have hf := hfalse rfl
    simp only [writeByte_strobed_ticks, elapsed_mod_right] at hj hf
    exact ⟨j, hj, hf⟩
  · rintro ⟨j, hj, hne, ht⟩
    refine ⟨j + 1, ?_⟩
    rw [writeByte_eq_strobed, writeByte_poll_skip H a d _ j _ 1
      (by simpa only [writeByte_strobed_ticks, elapsed_mod_right] using hj)]
    simp only [writeByte_poll]
    have hne' : (readByte H a (afterPolls H a j (writeByte_strobed H a d s))).1 ≠ d := hne
    have ht' : elapsed (millis H (readByte H a
        (afterPolls H a j (writeByte_strobed H a d s))).2).1 (H.clock s.ticks % 2 ^ 32) ≥
        WRITE_TIMEOUT_MS := by
      rw [millis_readByte_val, afterPolls_ticks, writeByte_strobed_ticks, elapsed_mod_right]
      exact ht
    rw [if_pos hne', if_pos ht']
    exact ⟨_, rfl⟩

/-- The exact run of `writeByte` that returns `true`: poll `j` is the first one that matches,
all earlier polls mismatch before the timeout; `millis()` has then been called `j + 1` times. -/
theorem writeByte_true_iff (a d : Nat) (s : Dev σ) :
    (∃ fuel s', writeByte H fuel a d s = some (true, s')) ↔
      ∃ j, (∀ i, i < j → readback H a i (writeByte_strobed H a d s) ≠ d ∧
          elapsed (H.clock (s.ticks + 1 + i)) (H.clock s.ticks) < WRITE_TIMEOUT_MS) ∧
        readback H a j (writeByte_strobed H a d s) = d := by
  constructor
  · rintro ⟨fuel, s', h⟩
    rw [writeByte_eq_strobed] at h
    obtain ⟨j, hj, htrue, -⟩ := writeByte_poll_result H a d _ fuel _ _ _ h
    simp only [writeByte_strobed_ticks, elapsed_mod_right] at hj
    exact ⟨j, hj, (htrue rfl).1⟩
  · rintro ⟨j, hj, heq⟩
    refine ⟨j + 1, ?_⟩
    rw [writeByte_eq_strobed, writeByte_poll_skip H a d _ j _ 1
      (by simpa only [writeByte_strobed_ticks, elapsed_mod_right] using hj)]
    simp only [writeByte_poll]
    have heq' : ¬ (readByte H a (afterPolls H a j (writeByte_strobed H a d s))).1 ≠ d :=
      not_not.mpr heq
    rw [if_neg heq']
    exact ⟨_, rfl⟩

theorem elapsed_of_le (T0 T1 : Nat) (h : T0 ≤ T1) (hw : T1 - T0 < 2 ^ 32) :
    elapsed T1 T0 = T1 - T0 := by
  simp only [elapsed]
  norm_num at hw ⊢
  omega

/-- C9: `writeByte(addr, data)` returns false exactly when one of its read-back polls differs
from `data` while at least `WRITE_TIMEOUT_MS = 100` ms have elapsed on the millisecond counter
(no earlier poll having matched), and returns true exactly when some poll equals `data` before
any such timed-out mismatch; a first poll that already matches returns true without any
`millis()` call for the timeout, and the elapsed time computed on the 32-bit counter is the
true elapsed time across a wrap-around. -/
theorem C9_writeByte_result (a d : Nat) (s : Dev σ) :
    ((∃ fuel s', writeByte H fuel a d s = some (false, s')) ↔
      ∃ j, (readback H a j (writeByte_strobed H a d s) ≠ d ∧
          WRITE_TIMEOUT_MS ≤ elapsed (H.clock (s.ticks + 1 + j)) (H.clock s.ticks)) ∧
        ∀ i, i < j → readback H a i (writeByte_strobed H a d s) ≠ d) ∧
    ((∃ fuel s', writeByte H fuel a d s = some (true, s')) ↔
      ∃ j, readback H a j (writeByte_strobed H a d s) = d ∧
        ∀ i, i < j → ¬(readback H a i (writeByte_strobed H a d s) ≠ d ∧
          WRITE_TIMEOUT_MS ≤ elapsed (H.clock (s.ticks + 1 + i)) (H.clock s.ticks))) ∧
    (readback H a 0 (writeByte_strobed H a d s) = d →
      ∀ fuel, 1 ≤ fuel →
        ∃ s', writeByte H fuel a d s = some (true, s') ∧ s'.ticks = s.ticks + 1) ∧
    (∀ T0 T1 : Nat, T0 ≤ T1 → T1 - T0 < 2 ^ 32 → elapsed T1 T0 = T1 - T0) ∧
    WRITE_TIMEOUT_MS = 100 := by
  refine ⟨?_, ?_, ?_, elapsed_of_le, rfl⟩
  · rw [writeByte_false_iff]
    constructor
    · rintro ⟨j, hj, hne, ht⟩
      exact ⟨j, ⟨hne, ht⟩, fun i hi => (hj i hi).1⟩
    · rintro ⟨j, hP, hj⟩
      have hex : ∃ k, readback H a k (writeByte_strobed H a d s) ≠ d ∧
          WRITE_TIMEOUT_MS ≤ elapsed (H.clock (s.ticks + 1 + k)) (H.clock s.ticks) := ⟨j, hP⟩
      refine ⟨Nat.find hex, fun i hi => ?_, (Nat.find_spec hex).1, (Nat.find_spec hex).2⟩
      have hle : Nat.find hex ≤ j := Nat.find_min' hex hP
      have hne : readback H a i (writeByte_strobed H a d s) ≠ d := hj i (by omega)
      have hmin := Nat.find_min hex hi
      refine ⟨hne, ?_⟩
      by_contra hc
      exact hmin ⟨hne, not_lt.mp hc⟩
  · rw [writeByte_true_iff]
    constructor
    · rintro ⟨j, hj, heq⟩
      exact ⟨j, heq, fun i hi hc => absurd hc.2 (not_le.mpr (hj i hi).2)⟩
    · rintro ⟨j, heq, hj⟩
      have hex : ∃ k, readback H a k (writeByte_strobed H a d s) = d := ⟨j, heq⟩
      refine ⟨Nat.find hex, fun i hi => ?_, Nat.find_spec hex⟩
      have hle : Nat.find hex ≤ j := Nat.find_min' hex heq
      have hne : readback H a i (writeByte_strobed H a d s) ≠ d := Nat.find_min hex hi
      refine ⟨hne, ?_⟩
      by_contra hc
      exact hj i (by omega) ⟨hne, not_lt.mp hc⟩
  · intro h0 fuel hf
    obtain ⟨f, rfl⟩ : ∃ f, fuel = f + 1 := ⟨fuel - 1, by omega⟩
    rw [writeByte_eq_strobed]
    simp only [writeByte_poll]
    have h0' : ¬ (readByte H a (writeByte_strobed H a d s)).1 ≠ d := not_not.mpr h0
    rw [if_neg h0']
    refine ⟨_, rfl, ?_⟩
    simp only [readByte_snd, Dev.run_ticks, writeByte_strobed_ticks]

end WriteByteResult

section Seeking

variable {σ : Type}

theorem loop_seek_rx_split (rx : List Nat) :
    ∃ pre, rx = pre ++ loop_seek_rx rx ∧ (∀ b ∈ pre, b ≠ 0x7B) ∧
      (loop_seek_rx rx = [] ∨ (loop_seek_rx rx).head? = some 0x7B) := by
  induction rx with
  | nil => exact ⟨[], rfl, by simp, Or.inl rfl⟩
  | cons b rest ih =>
    by_cases hb : b ≠ PKG_START
    · obtain ⟨pre, h1, h2, h3⟩ := ih
      refine ⟨b :: pre, ?_, ?_, ?_⟩
      · simp only [loop_seek_rx, if_pos hb, List.cons_append]
        rw [← h1]
      · intro c hc
        rcases List.mem_cons.mp hc with h | h
        · rw [h]; exact hb
        · exact h2 c h
      · simpa only [loop_seek_rx, if_pos hb] using h3
    · refine ⟨[], ?_, by simp, Or.inr ?_⟩
      · simp only [loop_seek_rx, if_neg hb, List.nil_append]
      · simp only [loop_seek_rx, if_neg hb, List.head?_cons]
        simp only [ne_eq, not_not, PKG_START] at hb
        rw [hb]

theorem marker_free_prefix_le (pre rest pre' rest' : List Nat)
    (h : pre ++ rest = pre' ++ rest') (hfree : ∀ b ∈ pre', b ≠ 0x7B)
    (hr : rest = [] ∨ rest.head? = some 0x7B) : pre'.length ≤ pre.length := by
  by_contra hlt
  have hlt' : pre.length < pre'.length := not_le.mp hlt
  rcases hr with h0 | hhead
  · have hlen : (pre ++ rest).length = (pre' ++ rest').length := by rw [h]
    rw [h0] at hlen
    simp only [List.append_nil, List.length_append] at hlen
    omega
  · cases rest with
    | nil => simp at hhead
    | cons x tl =>
      simp only [List.head?_cons, Option.some.injEq] at hhead
      subst hhead
      have hget : (pre ++ 0x7B :: tl)[pre.length]? = some 0x7B := by
        rw [List.getElem?_append_right (le_refl _)]
        simp
      rw [h, List.getElem?_append_left hlt'] at hget
      exact hfree _ (List.getElem?_mem hget) rfl

/-- C16: the first loop of `loop()` discards exactly the longest prefix of the buffered input
that contains no `0x7B` byte: the input is `pre ++ rest` with no `0x7B` in `pre`, `rest` is
what is left in the buffer and is empty or starts with `0x7B`, no longer marker-free prefix
exists, and nothing but the receive buffer changes (no response byte, no chip access, page
buffer, base address and cursor as before). -/
theorem C16_seek_discards_marker_free_prefix (s : Firmware σ) :
    ∃ pre, s.rx = pre ++ (loop_seek s).rx ∧ (∀ b ∈ pre, b ≠ 0x7B) ∧
      ((loop_seek s).rx = [] ∨ (loop_seek s).rx.head? = some 0x7B) ∧
      (∀ pre' rest', s.rx = pre' ++ rest' → (∀ b ∈ pre', b ≠ 0x7B) →
        pre'.length ≤ pre.length) ∧
      (loop_seek s).tx = s.tx ∧ (loop_seek s).dev = s.dev ∧
      (loop_seek s).pageData = s.pageData ∧
      (loop_seek s).currentPageAddress = s.currentPageAddress ∧
      (loop_seek s).currentPageOffset = s.currentPageOffset := by
  obtain ⟨pre, h1, h2, h3⟩ := loop_seek_rx_split s.rx
  refine ⟨pre, h1, h2, h3, ?_, rfl, rfl, rfl, rfl, rfl⟩
  intro pre' rest' hsplit hfree
  exact marker_free_prefix_le pre (loop_seek_rx s.rx) pre' rest' (by rw [← h1, hsplit]) hfree h3

end Seeking
section BusBits

variable {σ : Type} (H : Hardware σ)

theorem assemble_bit (b0 b1 b2 b3 b4 b5 b6 b7 : Bool) :
    (assemble b0 b1 b2 b3 b4 b5 b6 b7).testBit 0 = b0 ∧
    (assemble b0 b1 b2 b3 b4 b5 b6 b7).testBit 1 = b1 ∧
    (assemble b0 b1 b2 b3 b4 b5 b6 b7).testBit 2 = b2 ∧
    (assemble b0 b1 b2 b3 b4 b5 b6 b7).testBit 3 = b3 ∧
    (assemble b0 b1 b2 b3 b4 b5 b6 b7).testBit 4 = b4 ∧
    (assemble b0 b1 b2 b3 b4 b5 b6 b7).testBit 5 = b5 ∧
    (assemble b0 b1 b2 b3 b4 b5 b6 b7).testBit 6 = b6 ∧
    (assemble b0 b1 b2 b3 b4 b5 b6 b7).testBit 7 = b7 := by
  revert b0 b1 b2 b3 b4 b5 b6 b7
  decide

theorem writeBusCalls_level (l : Lines) (b : Nat) (p : Pin) (i : Nat) (h : ioIndex p = some i) :
    (l.run (writeBusCalls b)).level p = b.testBit i := by
  have hk : ∀ k, (if CHECK_BIT b k ≠ 0 then HIGH else LOW) = b.testBit k := by
    intro k
    by_cases hc : CHECK_BIT b k ≠ 0
    · rw [if_pos hc, (CHECK_BIT_ne_zero b k).mp hc]
    · rw [if_neg hc]
      cases ht : b.testBit k
      · rfl
      · exact absurd ((CHECK_BIT_ne_zero b k).mpr ht) hc
  cases p <;> simp [ioIndex] at h <;>
    (subst h
     simp [-Nat.testBit_zero, Lines.run, writeBusCalls, busModeCalls, Lines.step, hk,
       -ne_eq, -ite_not])

theorem writeBusCalls_mode (l : Lines) (b : Nat) (p : Pin) (i : Nat) (h : ioIndex p = some i) :
    (l.run (writeBusCalls b)).mode p = PinMode.OUTPUT := by
  cases p <;> simp [ioIndex] at h <;>
    simp [Lines.run, writeBusCalls, busModeCalls, Lines.step]

theorem readBusCalls_mode (l : Lines) (p : Pin) (i : Nat) (h : ioIndex p = some i) :
    (l.run readBusCalls).mode p = PinMode.INPUT := by
  cases p <;> simp [ioIndex] at h <;>
    simp [Lines.run, readBusCalls, busModeCalls, Lines.step]


theorem busHold_run_hw (clock : Nat → Nat) (cs : List Call) (c : Dev Lines) :
    (Dev.run (busHold clock) cs c).hw = c.hw.run cs := rfl

theorem readBus_level_quiet (l : Lines) (k : Nat) (p : Pin) :
    (l.run (readBusCalls.take k)).level p = l.level p := by
  have h : ∀ cs : List Call, (∀ c ∈ cs, (∃ q m, c = Call.pinMode q m) ∨ ∃ q, c = Call.digitalRead q) →
      ∀ l : Lines, (l.run cs).level p = l.level p := by
    intro cs
    induction cs with
    | nil => intro _ l; rfl
    | cons c cs ih =>
      intro hc l
      have h1 : (l.step c).level p = l.level p := by
        rcases hc c (List.mem_cons_self _ _) with ⟨q, m, rfl⟩ | ⟨q, rfl⟩ <;> rfl
      show ((l.step c).run cs).level p = l.level p
      rw [ih (fun d hd => hc d (List.mem_cons_of_mem _ hd)), h1]
  apply h
  intro c hc
  have hc' := List.mem_of_mem_take hc
  simp only [readBusCalls, busModeCalls, List.cons_append, List.nil_append, List.mem_cons,
    List.mem_singleton, List.not_mem_nil, or_false] at hc'
  rcases hc' with h | h | h | h | h | h | h | h | h | h | h | h | h | h | h | h <;>
    (subst h; simp)

/-- C17: `_write_bus(b)` drives data line `i` high exactly when bit `i` of `b` is 1, for every
`i` in `0..7`, and leaves all data pins outputs; `_read_bus()` returns the byte whose bit `i` is
the level sampled on data line `i` and leaves all data pins inputs; reading lines that hold the
levels driven by `_write_bus(b)` returns `b`. -/
theorem C17_bus_bit_mapping (s : Dev σ) (l : Lines) (clock : Nat → Nat) (c : Dev Lines)
    (b : Nat) (hb : b < 256) (p : Pin) (i : Nat) (hp : ioIndex p = some i) :
    (_write_bus H b s).log = s.log ++ writeBusCalls b ∧
    (l.run (writeBusCalls b)).level p = b.testBit i ∧
    (l.run (writeBusCalls b)).mode p = PinMode.OUTPUT ∧
    (_read_bus H s).2.log = s.log ++ readBusCalls ∧
    ((_read_bus H s).1).testBit i =
      H.sample p (Dev.run H (readBusCalls.take (8 + i)) s).hw ∧
    (_read_bus H s).1 < 256 ∧
    (l.run readBusCalls).mode p = PinMode.INPUT ∧
    (_read_bus (busHold clock) (_write_bus (busHold clock) b c)).1 = b := by
  refine ⟨by rw [_write_bus_eq]; rfl, writeBusCalls_level l b p i hp,
    writeBusCalls_mode l b p i hp, by rw [_read_bus_snd]; rfl, ?_, _read_bus_lt H s,
    readBusCalls_mode l p i hp, ?_⟩
  · rw [_read_bus_val]
    obtain ⟨h0, h1, h2, h3, h4, h5, h6, h7⟩ := assemble_bit
      (H.sample Pin.EEPROM_IO_0 (Dev.run H (busModeCalls PinMode.INPUT) s).hw)
      (H.sample Pin.EEPROM_IO_1 (Dev.run H (readBusCalls.take 9) s).hw)
      (H.sample Pin.EEPROM_IO_2 (Dev.run H (readBusCalls.take 10) s).hw)
      (H.sample Pin.EEPROM_IO_3 (Dev.run H (readBusCalls.take 11) s).hw)
      (H.sample Pin.EEPROM_IO_4 (Dev.run H (readBusCalls.take 12) s).hw)
      (H.sample Pin.EEPROM_IO_5 (Dev.run H (readBusCalls.take 13) s).hw)
      (H.sample Pin.EEPROM_IO_6 (Dev.run H (readBusCalls.take 14) s).hw)
      (H.sample Pin.EEPROM_IO_7 (Dev.run H (readBusCalls.take 15) s).hw)
    cases p <;> simp [ioIndex] at hp <;> subst hp
    · exact h0
    · exact h1
    · exact h2
    · exact h3
    · exact h4
    · exact h5
    · exact h6
    · exact h7
  · rw [_read_bus_val, _write_bus_eq]
    simp only [Dev.run_run, busHold_run_hw, Lines.run_append]
    have hs : ∀ (q : Pin) (l' : Lines), (busHold clock).sample q l' = l'.level q := fun _ _ => rfl
    have hb8 : busModeCalls PinMode.INPUT = readBusCalls.take 8 := rfl
    simp only [hs, hb8, readBus_level_quiet]
    rw [writeBusCalls_level _ b Pin.EEPROM_IO_0 0 rfl, writeBusCalls_level _ b Pin.EEPROM_IO_1 1 rfl,
      writeBusCalls_level _ b Pin.EEPROM_IO_2 2 rfl, writeBusCalls_level _ b Pin.EEPROM_IO_3 3 rfl,
      writeBusCalls_level _ b Pin.EEPROM_IO_4 4 rfl, writeBusCalls_level _ b Pin.EEPROM_IO_5 5 rfl,
      writeBusCalls_level _ b Pin.EEPROM_IO_6 6 rfl, writeBusCalls_level _ b Pin.EEPROM_IO_7 7 rfl,
      assemble_testBit, Nat.mod_eq_of_lt hb]

theorem C17_bus_bit_mapping_witness :
    (0xA5 : Nat) < 256 ∧ ioIndex Pin.EEPROM_IO_7 = some 7 ∧
    ((_write_bus (busHold tickClock) 0xA5 (Dev.init Lines.reset)).log =
      (Dev.init Lines.reset).log ++ writeBusCalls 0xA5 ∧
    (Lines.reset.run (writeBusCalls 0xA5)).level Pin.EEPROM_IO_7 = (0xA5 : Nat).testBit 7 ∧
    (Lines.reset.run (writeBusCalls 0xA5)).mode Pin.EEPROM_IO_7 = PinMode.OUTPUT ∧
    (_read_bus (busHold tickClock) (Dev.init Lines.reset)).2.log =
      (Dev.init Lines.reset).log ++ readBusCalls ∧
    ((_read_bus (busHold tickClock) (Dev.init Lines.reset)).1).testBit 7 =
      (busHold tickClock).sample Pin.EEPROM_IO_7
        (Dev.run (busHold tickClock) (readBusCalls.take (8 + 7)) (Dev.init Lines.reset)).hw ∧
    (_read_bus (busHold tickClock) (Dev.init Lines.reset)).1 < 256 ∧
    (Lines.reset.run readBusCalls).mode Pin.EEPROM_IO_7 = PinMode.INPUT ∧
    (_read_bus (busHold tickClock)
      (_write_bus (busHold tickClock) 0xA5 (Dev.init Lines.reset))).1 = 0xA5) :=
  ⟨by decide, rfl,
    C17_bus_bit_mapping (busHold tickClock) (Dev.init Lines.reset) Lines.reset tickClock
      (Dev.init Lines.reset) 0xA5 (by decide) Pin.EEPROM_IO_7 7 rfl⟩

end BusBits

section SdpCommands

variable {σ : Type} (H : Hardware σ)

theorem writeStrobes_strobesCalls (ps : List (Nat × Nat)) :
    ∀ l : Lines, writeStrobes l (strobesCalls ps) = ps.map (fun p => (p.1 % 65536, p.2 % 256)) := by
  induction ps with
  | nil => intro l; rfl
  | cons p ps ih =>
    intro l
    simp only [strobesCalls, writeStrobes_append, writeStrobes_strobeCalls, ih, List.map_cons,
      List.singleton_append]

theorem NoStrobe_busModeCalls (m : PinMode) : NoStrobe (busModeCalls m) := by
  intro c hc
  simp only [busModeCalls, List.mem_cons, List.mem_singleton, List.not_mem_nil, or_false] at hc
  rcases hc with h | h | h | h | h | h | h | h <;> (subst h; simp)

theorem writeStrobes_sdpBody (ps : List (Nat × Nat)) (l : Lines) :
    writeStrobes l (busModeCalls PinMode.OUTPUT ++ strobesCalls ps) =
      ps.map (fun p => (p.1 % 65536, p.2 % 256)) := by
  rw [writeStrobes_append, writeStrobes_noStrobe _ (NoStrobe_busModeCalls _),
    writeStrobes_strobesCalls, List.nil_append]

/-- C15: each SDP command first de-asserts output-enable and asserts chip-enable, then issues
its write strobes in a fixed order without touching either enable line again (and without
sampling any pin), and finally de-asserts chip-enable: `sdp_enable` issues exactly the strobes
`(0x5555,0xAA), (0x2AAA,0x55), (0x5555,0xA0)`, `sdp_disable` exactly
`(0x5555,0xAA), (0x2AAA,0x55), (0x5555,0x80), (0x5555,0xAA), (0x2AAA,0x55), (0x5555,0x20)`, and
`chip_erase` the same six with final data `0x10`, followed by `delay(100)`. -/
theorem C15_sdp_command_sequences (s : Dev σ) :
    (∃ M, sdp_enable H s =
        Dev.run H ([Call.digitalWrite Pin.EEPROM_OE HIGH, Call.digitalWrite Pin.EEPROM_CE LOW] ++
          M ++ [Call.digitalWrite Pin.EEPROM_CE HIGH]) s ∧
      M.all (fun c => !touchesEnable c && !isRead c) = true ∧
      ∀ l : Lines, writeStrobes l M = [(0x5555, 0xAA), (0x2AAA, 0x55), (0x5555, 0xA0)]) ∧
    (∃ M, sdp_disable H s =
        Dev.run H ([Call.digitalWrite Pin.EEPROM_OE HIGH, Call.digitalWrite Pin.EEPROM_CE LOW] ++
          M ++ [Call.digitalWrite Pin.EEPROM_CE HIGH]) s ∧
      M.all (fun c => !touchesEnable c && !isRead c) = true ∧
      ∀ l : Lines, writeStrobes l M =
        [(0x5555, 0xAA), (0x2AAA, 0x55), (0x5555, 0x80),
         (0x5555, 0xAA), (0x2AAA, 0x55), (0x5555, 0x20)]) ∧
    (∃ M, chip_erase H s =
        Dev.run H ([Call.digitalWrite Pin.EEPROM_OE HIGH, Call.digitalWrite Pin.EEPROM_CE LOW] ++
          M ++ [Call.digitalWrite Pin.EEPROM_CE HIGH, Call.delay 100]) s ∧
      M.all (fun c => !touchesEnable c && !isRead c) = true ∧
      ∀ l : Lines, writeStrobes l M =
        [(0x5555, 0xAA), (0x2AAA, 0x55), (0x5555, 0x80),
         (0x5555, 0xAA), (0x2AAA, 0x55), (0x5555, 0x10)]) := by
  refine ⟨⟨busModeCalls PinMode.OUTPUT ++
      strobesCalls [(0x5555, 0xAA), (0x2AAA, 0x55), (0x5555, 0xA0)], ?_, by decide, ?_⟩,
    ⟨busModeCalls PinMode.OUTPUT ++
      strobesCalls [(0x5555, 0xAA), (0x2AAA, 0x55), (0x5555, 0x80),
        (0x5555, 0xAA), (0x2AAA, 0x55), (0x5555, 0x20)], ?_, by decide, ?_⟩,
    ⟨busModeCalls PinMode.OUTPUT ++
      strobesCalls [(0x5555, 0xAA), (0x2AAA, 0x55), (0x5555, 0x80),
        (0x5555, 0xAA), (0x2AAA, 0x55), (0x5555, 0x10)], ?_, by decide, ?_⟩⟩
  · simp [sdp_enable, _set_output_enable_eq, _set_chip_enable_eq, _set_bus_mode_eq,
      _write_eeprom_eq, Dev.run_run, strobesCalls]
  · intro l; rw [writeStrobes_sdpBody]; rfl
  · simp [sdp_disable, _set_output_enable_eq, _set_chip_enable_eq, _set_bus_mode_eq,
      _write_eeprom_eq, Dev.run_run, strobesCalls]
  · intro l; rw [writeStrobes_sdpBody]; rfl
  · simp [chip_erase, _set_output_enable_eq, _set_chip_enable_eq, _set_bus_mode_eq,
      _write_eeprom_eq, Dev.run_run, strobesCalls, delay, call_eq_run]
  · intro l; rw [writeStrobes_sdpBody]; rfl

end SdpCommands

section BusBlocks

theorem busSafe_append (xs ys : List Call) :
    ∀ l : Lines, busSafe l (xs ++ ys) ↔ busSafe l xs ∧ busSafe (l.run xs) ys := by
  induction xs with
  | nil => intro l; simp [busSafe, Lines.run]
  | cons c cs ih =>
    intro l
    show (BusInvariant (l.step c) ∧ busSafe (l.step c) (cs ++ ys)) ↔
      (BusInvariant (l.step c) ∧ busSafe (l.step c) cs) ∧ busSafe ((l.step c).run cs) ys
    rw [ih, and_assoc]

theorem Block_append (xs ys : List Call) (u v w : BusView) (h1 : Block xs u v)
    (h2 : Block ys v w) : Block (xs ++ ys) u w := by
  intro l hl
  obtain ⟨a1, a2⟩ := h1 l hl
  obtain ⟨b1, b2⟩ := h2 _ a2
  exact ⟨(busSafe_append xs ys l).mpr ⟨a1, b1⟩, by rw [Lines.run_append]; exact b2⟩

theorem Block_strobeCalls (a d : Nat) (ce : Bool) :
    Block (strobeCalls a d) ⟨PinMode.OUTPUT, ce, HIGH, HIGH⟩ ⟨PinMode.OUTPUT, ce, HIGH, HIGH⟩ := by
  intro l ⟨⟨h0, h1, h2, h3, h4, h5, h6, h7⟩, hce, hoe, hwe⟩
  simp only at h0 h1 h2 h3 h4 h5 h6 h7 hce hoe hwe
  simp [busSafe, BusInvariant, Lines.hasView, Lines.busAll, Lines.run, strobeCalls,
    setAddrCalls, writeBusCalls, busModeCalls, Lines.step, h0, h1, h2, h3, h4, h5, h6, h7, hce,
    hoe, hwe]

end BusBlocks
section BusBlocks2

theorem idle_cases (v : BusView) (h : v.idle) :
    (∃ ce oe, v = ⟨PinMode.INPUT, ce, oe, HIGH⟩) ∨ ∃ ce, v = ⟨PinMode.OUTPUT, ce, HIGH, HIGH⟩ := by
  obtain ⟨bus, ce, oe, we⟩ := v
  obtain ⟨hwe, hb⟩ := h
  simp only at hwe hb
  subst hwe
  cases bus
  · exact Or.inl ⟨ce, oe, rfl⟩
  · rcases hb with hb | hb
    · cases hb
    · subst hb; exact Or.inr ⟨ce, rfl⟩

theorem Block_readByteCalls_in (a : Nat) (ce oe : Bool) :
    Block (readByteCalls a) ⟨PinMode.INPUT, ce, oe, HIGH⟩ ⟨PinMode.INPUT, HIGH, HIGH, HIGH⟩ := by
  intro l ⟨⟨h0, h1, h2, h3, h4, h5, h6, h7⟩, hce, hoe, hwe⟩
  simp only at h0 h1 h2 h3 h4 h5 h6 h7 hce hoe hwe
  simp [busSafe, BusInvariant, Lines.hasView, Lines.busAll, Lines.run, readByteCalls,
    readBusCalls, setAddrCalls, busModeCalls, Lines.step, h0, h1, h2, h3, h4, h5, h6, h7, hce,
    hoe, hwe]

theorem Block_readByteCalls_out (a : Nat) (ce : Bool) :
    Block (readByteCalls a) ⟨PinMode.OUTPUT, ce, HIGH, HIGH⟩
      ⟨PinMode.INPUT, HIGH, HIGH, HIGH⟩ := by
  intro l ⟨⟨h0, h1, h2, h3, h4, h5, h6, h7⟩, hce, hoe, hwe⟩
  simp only at h0 h1 h2 h3 h4 h5 h6 h7 hce hoe hwe
  simp [busSafe, BusInvariant, Lines.hasView, Lines.busAll, Lines.run, readByteCalls,
    readBusCalls, setAddrCalls, busModeCalls, Lines.step, h0, h1, h2, h3, h4, h5, h6, h7, hce,
    hoe, hwe]

theorem Block_readByteCalls (a : Nat) (v : BusView) (h : v.idle) :
    Block (readByteCalls a) v ⟨PinMode.INPUT, HIGH, HIGH, HIGH⟩ := by
  rcases idle_cases v h with ⟨ce, oe, rfl⟩ | ⟨ce, rfl⟩
  · exact Block_readByteCalls_in a ce oe
  · exact Block_readByteCalls_out a ce

end BusBlocks2
section BusBlocks3

theorem Block_enter (v : BusView) (h : v.idle) :
    Block ([Call.digitalWrite Pin.EEPROM_OE HIGH] ++ busModeCalls PinMode.OUTPUT ++
      [Call.digitalWrite Pin.EEPROM_CE LOW]) v ⟨PinMode.OUTPUT, LOW, HIGH, HIGH⟩ := by
  rcases idle_cases v h with ⟨ce, oe, rfl⟩ | ⟨ce, rfl⟩ <;>
  · intro l ⟨⟨h0, h1, h2, h3, h4, h5, h6, h7⟩, hce, hoe, hwe⟩
    simp only at h0 h1 h2 h3 h4 h5 h6 h7 hce hoe hwe
    simp [busSafe, BusInvariant, Lines.hasView, Lines.busAll, Lines.run, busModeCalls,
      Lines.step, h0, h1, h2, h3, h4, h5, h6, h7, hce, hoe, hwe]

theorem Block_sdpEnter (v : BusView) (h : v.idle) :
    Block ([Call.digitalWrite Pin.EEPROM_OE HIGH, Call.digitalWrite Pin.EEPROM_CE LOW] ++
      busModeCalls PinMode.OUTPUT) v ⟨PinMode.OUTPUT, LOW, HIGH, HIGH⟩ := by
  rcases idle_cases v h with ⟨ce, oe, rfl⟩ | ⟨ce, rfl⟩ <;>
  · intro l ⟨⟨h0, h1, h2, h3, h4, h5, h6, h7⟩, hce, hoe, hwe⟩
    simp only at h0 h1 h2 h3 h4 h5 h6 h7 hce hoe hwe
    simp [busSafe, BusInvariant, Lines.hasView, Lines.busAll, Lines.run, busModeCalls,
      Lines.step, h0, h1, h2, h3, h4, h5, h6, h7, hce, hoe, hwe]

theorem Block_ceHigh (ce : Bool) :
    Block [Call.digitalWrite Pin.EEPROM_CE HIGH] ⟨PinMode.OUTPUT, ce, HIGH, HIGH⟩
      ⟨PinMode.OUTPUT, HIGH, HIGH, HIGH⟩ := by
  intro l ⟨⟨h0, h1, h2, h3, h4, h5, h6, h7⟩, hce, hoe, hwe⟩
  simp only at h0 h1 h2 h3 h4 h5 h6 h7 hce hoe hwe
  simp [busSafe, BusInvariant, Lines.hasView, Lines.busAll, Lines.run,
    Lines.step, h0, h1, h2, h3, h4, h5, h6, h7, hce, hoe, hwe]

theorem Block_delay (ms : Nat) (v : BusView) (hv : v = ⟨PinMode.OUTPUT, HIGH, HIGH, HIGH⟩) :
    Block [Call.delay ms] v v := by
  subst hv
  intro l ⟨⟨h0, h1, h2, h3, h4, h5, h6, h7⟩, hce, hoe, hwe⟩
  simp only at h0 h1 h2 h3 h4 h5 h6 h7 hce hoe hwe
  simp [busSafe, BusInvariant, Lines.hasView, Lines.busAll, Lines.run,
    Lines.step, h0, h1, h2, h3, h4, h5, h6, h7, hce, hoe, hwe]

theorem Block_pollEnter (a : Nat) :
    Block (busModeCalls PinMode.INPUT ++ [Call.digitalWrite Pin.EEPROM_OE LOW] ++
      setAddrCalls a) ⟨PinMode.OUTPUT, LOW, HIGH, HIGH⟩ ⟨PinMode.INPUT, LOW, LOW, HIGH⟩ := by
  intro l ⟨⟨h0, h1, h2, h3, h4, h5, h6, h7⟩, hce, hoe, hwe⟩
  simp only at h0 h1 h2 h3 h4 h5 h6 h7 hce hoe hwe
  simp [busSafe, BusInvariant, Lines.hasView, Lines.busAll, Lines.run, busModeCalls,
    setAddrCalls, Lines.step, h0, h1, h2, h3, h4, h5, h6, h7, hce, hoe, hwe]

theorem Block_readBusCalls :
    Block readBusCalls ⟨PinMode.INPUT, LOW, LOW, HIGH⟩ ⟨PinMode.INPUT, LOW, LOW, HIGH⟩ := by
  intro l ⟨⟨h0, h1, h2, h3, h4, h5, h6, h7⟩, hce, hoe, hwe⟩
  simp only at h0 h1 h2 h3 h4 h5 h6 h7 hce hoe hwe
  simp [busSafe, BusInvariant, Lines.hasView, Lines.busAll, Lines.run, busModeCalls,
    readBusCalls, Lines.step, h0, h1, h2, h3, h4, h5, h6, h7, hce, hoe, hwe]

theorem Block_pollExit :
    Block [Call.digitalWrite Pin.EEPROM_OE HIGH, Call.digitalWrite Pin.EEPROM_CE HIGH]
      ⟨PinMode.INPUT, LOW, LOW, HIGH⟩ ⟨PinMode.INPUT, HIGH, HIGH, HIGH⟩ := by
  intro l ⟨⟨h0, h1, h2, h3, h4, h5, h6, h7⟩, hce, hoe, hwe⟩
  simp only at h0 h1 h2 h3 h4 h5 h6 h7 hce hoe hwe
  simp [busSafe, BusInvariant, Lines.hasView, Lines.busAll, Lines.run,
    Lines.step, h0, h1, h2, h3, h4, h5, h6, h7, hce, hoe, hwe]

theorem Block_nil (v : BusView) : Block [] v v := by
  intro l hl
  exact ⟨trivial, hl⟩

theorem Block_programCalls (start : Nat) (data : Nat → Nat) (ce : Bool) (n : Nat) :
    ∀ i, Block (programCalls start data n i) ⟨PinMode.OUTPUT, ce, HIGH, HIGH⟩
      ⟨PinMode.OUTPUT, ce, HIGH, HIGH⟩ := by
  induction n with
  | zero => intro i; exact Block_nil _
  | succ n ih =>
    intro i
    exact Block_append _ _ _ _ _ (Block_strobeCalls _ _ ce) (ih (i + 1))

theorem Block_strobesCalls (ce : Bool) (ps : List (Nat × Nat)) :
    Block (strobesCalls ps) ⟨PinMode.OUTPUT, ce, HIGH, HIGH⟩
      ⟨PinMode.OUTPUT, ce, HIGH, HIGH⟩ := by
  induction ps with
  | nil => exact Block_nil _
  | cons p ps ih => exact Block_append _ _ _ _ _ (Block_strobeCalls _ _ ce) ih

theorem Block_writeByteCalls (a d : Nat) (v : BusView) (h : v.idle) :
    Block (writeByteCalls a d) v ⟨PinMode.OUTPUT, HIGH, HIGH, HIGH⟩ :=
  Block_append _ _ _ _ _
    (Block_append _ _ _ _ _ (Block_enter v h) (Block_strobeCalls a d LOW)) (Block_ceHigh LOW)

theorem Block_writePageCalls (start : Nat) (data : Nat → Nat) (len : Nat) (v : BusView)
    (h : v.idle) :
    Block (writePageCalls start data len) v ⟨PinMode.INPUT, LOW, LOW, HIGH⟩ :=
  Block_append _ _ _ _ _
    (Block_append _ _ _ _ _ (Block_enter v h) (Block_programCalls start data LOW len 0))
    (Block_pollEnter start)

theorem Block_sdpCalls (ps : List (Nat × Nat)) (v : BusView) (h : v.idle) :
    Block (sdpCalls ps) v ⟨PinMode.OUTPUT, HIGH, HIGH, HIGH⟩ := by
  have e : sdpCalls ps =
      ([Call.digitalWrite Pin.EEPROM_OE HIGH, Call.digitalWrite Pin.EEPROM_CE LOW] ++
        busModeCalls PinMode.OUTPUT) ++ strobesCalls ps ++
        [Call.digitalWrite Pin.EEPROM_CE HIGH] := by
    simp only [sdpCalls, List.append_assoc]
  rw [e]
  exact Block_append _ _ _ _ _
    (Block_append _ _ _ _ _ (Block_sdpEnter v h) (Block_strobesCalls LOW ps)) (Block_ceHigh LOW)

theorem initCalls_view (l : Lines) :
    (l.run initCalls).hasView ⟨PinMode.INPUT, HIGH, HIGH, HIGH⟩ := by
  simp [Lines.hasView, Lines.busAll, Lines.run, initCalls, busModeCalls, Lines.step]

theorem hasView_invariant (l : Lines) (v : BusView) (h : l.hasView v) (hi : v.idle) :
    BusInvariant l := by
  obtain ⟨hb, -, hoe, hwe⟩ := h
  obtain ⟨h1, h2⟩ := hi
  refine ⟨?_, ?_, ?_⟩
  · intro hw; rw [hwe, h1] at hw; cases hw
  · intro ho
    rcases h2 with h2 | h2
    · rw [← h2]; exact hb
    · rw [hoe, h2] at ho; cases ho
  · rintro ⟨-, hw⟩; rw [hwe, h1] at hw; cases hw

end BusBlocks3

section OpLogs

variable {σ : Type} (H : Hardware σ)

theorem sdp_enable_eq (s : Dev σ) :
    sdp_enable H s = Dev.run H (sdpCalls [(0x5555, 0xAA), (0x2AAA, 0x55), (0x5555, 0xA0)]) s := by
  simp [sdp_enable, _set_output_enable_eq, _set_chip_enable_eq, _set_bus_mode_eq,
    _write_eeprom_eq, Dev.run_run, strobesCalls, sdpCalls]

theorem sdp_disable_eq (s : Dev σ) :
    sdp_disable H s = Dev.run H (sdpCalls [(0x5555, 0xAA), (0x2AAA, 0x55), (0x5555, 0x80),
      (0x5555, 0xAA), (0x2AAA, 0x55), (0x5555, 0x20)]) s := by
  simp [sdp_disable, _set_output_enable_eq, _set_chip_enable_eq, _set_bus_mode_eq,
    _write_eeprom_eq, Dev.run_run, strobesCalls, sdpCalls]

theorem chip_erase_eq (s : Dev σ) :
    chip_erase H s = Dev.run H (sdpCalls [(0x5555, 0xAA), (0x2AAA, 0x55), (0x5555, 0x80),
      (0x5555, 0xAA), (0x2AAA, 0x55), (0x5555, 0x10)] ++ [Call.delay 100]) s := by
  simp [chip_erase, _set_output_enable_eq, _set_chip_enable_eq, _set_bus_mode_eq,
    _write_eeprom_eq, Dev.run_run, strobesCalls, sdpCalls, delay, call_eq_run]

theorem initEEPROM_eq (s : Dev σ) : initEEPROM H s = Dev.run H initCalls s := by
  simp [initEEPROM, _set_output_enable_eq, _set_chip_enable_eq, _set_write_enable_eq,
    _set_bus_mode_eq, pinMode, call_eq_run, Dev.run_run, initCalls]

theorem ensureSDPDisabled_body_eq (e : Nat) (s : Dev σ) :
    ensureSDPDisabled_body H e s =
      Dev.run H (sdpCalls [(0x5555, 0xAA), (0x2AAA, 0x55), (0x5555, 0x80),
        (0x5555, 0xAA), (0x2AAA, 0x55), (0x5555, 0x20)] ++ writeByteCalls 0 e) s := by
  simp [ensureSDPDisabled_body, sdp_disable_eq, _set_output_enable_eq, _set_chip_enable_eq,
    _set_bus_mode_eq, _write_eeprom_eq, Dev.run_run, writeByteCalls]

theorem ensureSDPDisabled_loop_eq (e : Nat) (n : Nat) :
    ∀ s : Dev σ, ensureSDPDisabled_loop H e n s = Dev.run H (sdpDisableLoopCalls e n) s := by
  induction n with
  | zero => intro s; simp [ensureSDPDisabled_loop, sdpDisableLoopCalls, Dev.run_nil]
  | succ n ih =>
    intro s
    simp only [ensureSDPDisabled_loop, ih, ensureSDPDisabled_body_eq, Dev.run_run,
      sdpDisableLoopCalls]

theorem ensureSDPDisabled_eq (s : Dev σ) :
    ensureSDPDisabled H s =
      Dev.run H (readByteCalls 0 ++
        sdpDisableLoopCalls (((readByte H 0 s).1 + 0xF) % 256) 255) s := by
  simp only [ensureSDPDisabled, ensureSDPDisabled_loop_eq, readByte_snd, Dev.run_run]

theorem writePage_eq_poll (fuel start : Nat) (data : Nat → Nat) (len : Nat) (s : Dev σ) :
    writePage H fuel start data len s =
      writePage_poll H (data 0) (H.clock s.ticks % 2 ^ 32) fuel
        (millis H (Dev.run H (writePageCalls start data len) s)).2 := by
  simp [writePage, _set_output_enable_eq, _set_bus_mode_eq, _set_chip_enable_eq,
    writePage_program_eq, _set_addr_eq, Dev.run_run, writePageCalls, millis, Dev.run_ticks]

end OpLogs
section OpSafety

variable {σ : Type} (H : Hardware σ)

theorem idle_in : (⟨PinMode.INPUT, HIGH, HIGH, HIGH⟩ : BusView).idle := ⟨rfl, Or.inl rfl⟩

theorem idle_out : (⟨PinMode.OUTPUT, HIGH, HIGH, HIGH⟩ : BusView).idle := ⟨rfl, Or.inr rfl⟩

theorem idle_selected : (⟨PinMode.INPUT, LOW, LOW, HIGH⟩ : BusView).idle := ⟨rfl, Or.inl rfl⟩

theorem writeByte_poll_block (a d t : Nat) (fuel : Nat) :
    ∀ (s : Dev σ) (r : Bool × Dev σ), writeByte_poll H a d t fuel s = some r →
      ∃ P, r.2.log = s.log ++ P ∧
        ∀ v : BusView, v.idle → Block P v ⟨PinMode.INPUT, HIGH, HIGH, HIGH⟩ := by
  induction fuel with
  | zero => intro s r h; simp [writeByte_poll] at h
  | succ fuel ih =>
    intro s r h
    simp only [writeByte_poll] at h
    by_cases hne : (readByte H a s).1 ≠ d
    · rw [if_pos hne] at h
      by_cases ht : elapsed (millis H (readByte H a s).2).1 t ≥ WRITE_TIMEOUT_MS
      · rw [if_pos ht] at h
        cases h
        exact ⟨readByteCalls a, by simp [millis, readByte_snd, Dev.run_log],
          fun v hv => Block_readByteCalls a v hv⟩
      · rw [if_neg ht] at h
        obtain ⟨P, hP, hB⟩ := ih _ r h
        refine ⟨readByteCalls a ++ P, ?_, fun v hv =>
          Block_append _ _ _ _ _ (Block_readByteCalls a v hv) (hB _ idle_in)⟩
        rw [hP]
        simp [millis, readByte_snd, Dev.run_log]
    · rw [if_neg hne] at h
      cases h
      exact ⟨readByteCalls a, by simp [readByte_snd, Dev.run_log],
        fun v hv => Block_readByteCalls a v hv⟩

theorem writePage_poll_block (d0 t : Nat) (fuel : Nat) :
    ∀ (s : Dev σ) (r : Bool × Dev σ), writePage_poll H d0 t fuel s = some r →
      ∃ P, r.2.log = s.log ++ P ∧
        Block P ⟨PinMode.INPUT, LOW, LOW, HIGH⟩
          (if r.1 then ⟨PinMode.INPUT, HIGH, HIGH, HIGH⟩ else ⟨PinMode.INPUT, LOW, LOW, HIGH⟩) := by
  induction fuel with
  | zero => intro s r h; simp [writePage_poll] at h
  | succ fuel ih =>
    intro s r h
    simp only [writePage_poll] at h
    by_cases hne : (_read_bus H s).1 ≠ d0
    · rw [if_pos hne] at h
      by_cases ht : elapsed (millis H (_read_bus H s).2).1 t ≥ WRITE_TIMEOUT_MS
      · rw [if_pos ht] at h
        cases h
        exact ⟨readBusCalls, by simp [millis, _read_bus_snd, Dev.run_log], Block_readBusCalls⟩
      · rw [if_neg ht] at h
        obtain ⟨P, hP, hB⟩ := ih _ r h
        refine ⟨readBusCalls ++ P, ?_, Block_append _ _ _ _ _ Block_readBusCalls hB⟩
        rw [hP]
        simp [millis, _read_bus_snd, Dev.run_log]
    · rw [if_neg hne] at h
      cases h
      refine ⟨readBusCalls ++ [Call.digitalWrite Pin.EEPROM_OE HIGH,
        Call.digitalWrite Pin.EEPROM_CE HIGH], ?_,
        Block_append _ _ _ _ _ Block_readBusCalls Block_pollExit⟩
      simp [_read_bus_snd, _set_output_enable_eq, _set_chip_enable_eq, Dev.run_run, Dev.run_log]

/-- The calls of `writeByte` keep the bus-state invariant and leave all three control lines
de-asserted, on the success path and on the timeout path. -/
theorem writeByte_block (fuel a d : Nat) (s : Dev σ) (r : Bool × Dev σ)
    (h : writeByte H fuel a d s = some r) :
    ∃ L, r.2.log = s.log ++ L ∧
      ∀ v : BusView, v.idle → Block L v ⟨PinMode.INPUT, HIGH, HIGH, HIGH⟩ := by
  rw [writeByte_eq_poll] at h
  obtain ⟨P, hP, hB⟩ := writeByte_poll_block H a d _ fuel _ r h
  refine ⟨writeByteCalls a d ++ P, ?_, fun v hv =>
    Block_append _ _ _ _ _ (Block_writeByteCalls a d v hv) (hB _ idle_out)⟩
  rw [hP]
  simp [millis, Dev.run_log]

/-- The calls of `writePage` keep the bus-state invariant; on success all control lines end
de-asserted, on a polling timeout chip-enable and output-enable are left asserted. -/
theorem writePage_block (fuel start : Nat) (data : Nat → Nat) (len : Nat) (s : Dev σ)
    (r : Bool × Dev σ) (h : writePage H fuel start data len s = some r) :
    ∃ L, r.2.log = s.log ++ L ∧
      ∀ v : BusView, v.idle → Block L v
        (if r.1 then ⟨PinMode.INPUT, HIGH, HIGH, HIGH⟩ else ⟨PinMode.INPUT, LOW, LOW, HIGH⟩) := by
  rw [writePage_eq_poll] at h
  obtain ⟨P, hP, hB⟩ := writePage_poll_block H _ _ fuel _ r h
  refine ⟨writePageCalls start data len ++ P, ?_, fun v hv =>
    Block_append _ _ _ _ _ (Block_writePageCalls start data len v hv) hB⟩
  rw [hP]
  simp [millis, Dev.run_log]

theorem Block_sdpDisableLoopCalls (e : Nat) (n : Nat) :
    ∀ v : BusView, v.idle → ∃ w : BusView, w.idle ∧ Block (sdpDisableLoopCalls e n) v w := by
  induction n with
  | zero => intro v hv; exact ⟨v, hv, Block_nil v⟩
  | succ n ih =>
    intro v hv
    obtain ⟨w, hw, hB⟩ := ih _ idle_out
    exact ⟨w, hw, Block_append _ _ _ _ _
      (Block_append _ _ _ _ _ (Block_sdpCalls _ v hv) (Block_writeByteCalls 0 e _ idle_out)) hB⟩

end OpSafety
section OpSequences

variable {σ : Type} (H : Hardware σ)

theorem writeByte_poll_mono (a d t : Nat) (fuel : Nat) :
    ∀ (s : Dev σ) (r : Bool × Dev σ), writeByte_poll H a d t fuel s = some r →
      writeByte_poll H a d t (fuel + 1) s = some r := by
  induction fuel with
  | zero => intro s r h; simp [writeByte_poll] at h
  | succ fuel ih =>
    intro s r h
    simp only [writeByte_poll] at h ⊢
    by_cases hne : (readByte H a s).1 ≠ d
    · rw [if_pos hne] at h ⊢
      by_cases ht : elapsed (millis H (readByte H a s).2).1 t ≥ WRITE_TIMEOUT_MS
      · rw [if_pos ht] at h ⊢; exact h
      · rw [if_neg ht] at h ⊢
        have := ih _ r h
        simp only [writeByte_poll] at this
        exact this
    · rw [if_neg hne] at h ⊢; exact h

theorem writePage_poll_mono (d0 t : Nat) (fuel : Nat) :
    ∀ (s : Dev σ) (r : Bool × Dev σ), writePage_poll H d0 t fuel s = some r →
      writePage_poll H d0 t (fuel + 1) s = some r := by
  induction fuel with
  | zero => intro s r h; simp [writePage_poll] at h
  | succ fuel ih =>
    intro s r h
    simp only [writePage_poll] at h ⊢
    by_cases hne : (_read_bus H s).1 ≠ d0
    · rw [if_pos hne] at h ⊢
      by_cases ht : elapsed (millis H (_read_bus H s).2).1 t ≥ WRITE_TIMEOUT_MS
      · rw [if_pos ht] at h ⊢; exact h
      · rw [if_neg ht] at h ⊢
        have := ih _ r h
        simp only [writePage_poll] at this
        exact this
    · rw [if_neg hne] at h ⊢; exact h

theorem writeByte_mono (a d : Nat) (s : Dev σ) (r : Bool × Dev σ) (fuel fuel' : Nat)
    (hf : fuel ≤ fuel') (h : writeByte H fuel a d s = some r) :
    writeByte H fuel' a d s = some r := by
  induction hf with
  | refl => exact h
  | step _ ih =>
    rw [writeByte_eq_poll] at ih ⊢
    exact writeByte_poll_mono H a d _ _ _ r ih

theorem writePage_mono (start : Nat) (data : Nat → Nat) (len : Nat) (s : Dev σ)
    (r : Bool × Dev σ) (fuel fuel' : Nat) (hf : fuel ≤ fuel')
    (h : writePage H fuel start data len s = some r) :
    writePage H fuel' start data len s = some r := by
  induction hf with
  | refl => exact h
  | step _ ih =>
    rw [writePage_eq_poll] at ih ⊢
    exact writePage_poll_mono H _ _ _ _ r ih

theorem exec_mono (op : PublicOp) (s s' : Dev σ) (fuel fuel' : Nat) (hf : fuel ≤ fuel')
    (h : op.exec H fuel s = some s') : op.exec H fuel' s = some s' := by
  cases op with
  | writeByte a d =>
    simp only [PublicOp.exec, Option.map_eq_some'] at h ⊢
    obtain ⟨r, hr, hs⟩ := h
    exact ⟨r, writeByte_mono H a d s r fuel fuel' hf hr, hs⟩
  | writePage st data len =>
    simp only [PublicOp.exec, Option.map_eq_some'] at h ⊢
    obtain ⟨r, hr, hs⟩ := h
    exact ⟨r, writePage_mono H st data len s r fuel fuel' hf hr, hs⟩
  | _ => exact h

theorem execOps_mono (ops : List PublicOp) :
    ∀ (s s' : Dev σ) (fuel fuel' : Nat), fuel ≤ fuel' → execOps H fuel ops s = some s' →
      execOps H fuel' ops s = some s' := by
  induction ops with
  | nil => intro s s' _ _ _ h; exact h
  | cons op ops ih =>
    intro s s' fuel fuel' hf h
    simp only [execOps, Option.bind_eq_some] at h ⊢
    obtain ⟨s1, h1, h2⟩ := h
    exact ⟨s1, exec_mono H op s s1 fuel fuel' hf h1, ih s1 s' fuel fuel' hf h2⟩

theorem exec_some (hclk : ClockAdvances H.clock) (op : PublicOp) (s : Dev σ) :
    ∃ N s', op.exec H N s = some s' := by
  cases op with
  | writeByte a d =>
    obtain ⟨N, hN⟩ := writeByte_some H hclk a d s
    obtain ⟨r, hr⟩ := hN N (le_refl N)
    exact ⟨N, r.2, by simp only [PublicOp.exec, hr, Option.map_some']⟩
  | writePage st data len =>
    obtain ⟨N, hN⟩ := writePage_some H hclk st data len s
    obtain ⟨r, hr⟩ := hN N (le_refl N)
    exact ⟨N, r.2, by simp only [PublicOp.exec, hr, Option.map_some']⟩
  | readByte a => exact ⟨0, _, rfl⟩
  | sdp_enable => exact ⟨0, _, rfl⟩
  | sdp_disable => exact ⟨0, _, rfl⟩
  | chip_erase => exact ⟨0, _, rfl⟩
  | ensureSDPDisabled => exact ⟨0, _, rfl⟩

theorem execOps_some (hclk : ClockAdvances H.clock) (ops : List PublicOp) :
    ∀ s : Dev σ, ∃ N s', ∀ fuel, N ≤ fuel → execOps H fuel ops s = some s' := by
  induction ops with
  | nil => intro s; exact ⟨0, s, fun _ _ => rfl⟩
  | cons op ops ih =>
    intro s
    obtain ⟨N1, s1, h1⟩ := exec_some H hclk op s
    obtain ⟨N2, s2, h2⟩ := ih s1
    refine ⟨max N1 N2, s2, fun fuel hf => ?_⟩
    simp only [execOps, Option.bind_eq_some]
    exact ⟨s1, exec_mono H op s s1 N1 fuel (le_trans (le_max_left _ _) hf) h1,
      h2 fuel (le_trans (le_max_right _ _) hf)⟩

/-- Every public operation keeps the bus-state invariant in all its pin states and returns in
an idle view. -/
theorem exec_block (fuel : Nat) (op : PublicOp) (s s' : Dev σ)
    (h : op.exec H fuel s = some s') :
    ∃ L, s'.log = s.log ++ L ∧ ∀ v : BusView, v.idle → ∃ w : BusView, w.idle ∧ Block L v w := by
  cases op with
  | readByte a =>
    simp only [PublicOp.exec, Option.some.injEq] at h
    subst h
    exact ⟨readByteCalls a, by rw [readByte_snd]; rfl,
      fun v hv => ⟨_, idle_in, Block_readByteCalls a v hv⟩⟩
  | writeByte a d =>
    simp only [PublicOp.exec, Option.map_eq_some'] at h
    obtain ⟨r, hr, rfl⟩ := h
    obtain ⟨L, hL, hB⟩ := writeByte_block H fuel a d s r hr
    exact ⟨L, hL, fun v hv => ⟨_, idle_in, hB v hv⟩⟩
  | writePage st data len =>
    simp only [PublicOp.exec, Option.map_eq_some'] at h
    obtain ⟨r, hr, rfl⟩ := h
    obtain ⟨L, hL, hB⟩ := writePage_block H fuel st data len s r hr
    refine ⟨L, hL, fun v hv => ⟨_, ?_, hB v hv⟩⟩
    cases r.1
    · exact idle_selected
    · exact idle_in
  | sdp_enable =>
    simp only [PublicOp.exec, Option.some.injEq] at h
    subst h
    exact ⟨_, by rw [sdp_enable_eq]; rfl, fun v hv => ⟨_, idle_out, Block_sdpCalls _ v hv⟩⟩
  | sdp_disable =>
    simp only [PublicOp.exec, Option.some.injEq] at h
    subst h
    exact ⟨_, by rw [sdp_disable_eq]; rfl, fun v hv => ⟨_, idle_out, Block_sdpCalls _ v hv⟩⟩
  | chip_erase =>
    simp only [PublicOp.exec, Option.some.injEq] at h
    subst h
    exact ⟨_, by rw [chip_erase_eq]; rfl, fun v hv => ⟨_, idle_out,
      Block_append _ _ _ _ _ (Block_sdpCalls _ v hv) (Block_delay 100 _ rfl)⟩⟩
  | ensureSDPDisabled =>
    simp only [PublicOp.exec, Option.some.injEq] at h
    subst h
    refine ⟨_, by rw [ensureSDPDisabled_eq]; rfl, fun v hv => ?_⟩
    obtain ⟨w, hw, hB⟩ := Block_sdpDisableLoopCalls (((readByte H 0 s).1 + 0xF) % 256) 255 _
      idle_in
    exact ⟨w, hw, Block_append _ _ _ _ _ (Block_readByteCalls 0 v hv) hB⟩

theorem execOps_block (fuel : Nat) (ops : List PublicOp) :
    ∀ (s s' : Dev σ), execOps H fuel ops s = some s' →
      ∃ L, s'.log = s.log ++ L ∧
        ∀ v : BusView, v.idle → ∃ w : BusView, w.idle ∧ Block L v w := by
  induction ops with
  | nil =>
    intro s s' h
    simp only [execOps, Option.some.injEq] at h
    subst h
    exact ⟨[], by simp, fun v hv => ⟨v, hv, Block_nil v⟩⟩
  | cons op ops ih =>
    intro s s' h
    simp only [execOps, Option.bind_eq_some] at h
    obtain ⟨s1, h1, h2⟩ := h
    obtain ⟨L1, hL1, hB1⟩ := exec_block H fuel op s s1 h1
    obtain ⟨L2, hL2, hB2⟩ := ih s1 s' h2
    refine ⟨L1 ++ L2, by rw [hL2, hL1, List.append_assoc], fun v hv => ?_⟩
    obtain ⟨w1, hw1, b1⟩ := hB1 v hv
    obtain ⟨w2, hw2, b2⟩ := hB2 w1 hw1
    exact ⟨w2, hw2, Block_append _ _ _ _ _ b1 b2⟩

/-- C12: in the state left by `initEEPROM` the bus-state invariant holds, and from there every
sequence of `readByte`, `writeByte`, `writePage`, `sdp_enable`, `sdp_disable`, `chip_erase` and
`ensureSDPDisabled` (success and timeout paths alike) keeps it in every intermediate pin state:
the data bus is an output whenever write-enable is asserted, an input whenever output-enable is
asserted, and the two enables are never asserted together; with a running millisecond counter
every such sequence also runs to its end. -/
theorem C12_bus_state_invariant (hclk : ClockAdvances H.clock) (s0 : Dev σ)
    (ops : List PublicOp) (l0 : Lines) :
    (initEEPROM H s0).log = s0.log ++ initCalls ∧
    BusInvariant (l0.run initCalls) ∧
    (∀ fuel s', execOps H fuel ops (initEEPROM H s0) = some s' →
      ∃ L, s'.log = s0.log ++ initCalls ++ L ∧ busSafe (l0.run initCalls) L) ∧
    ∃ N s', ∀ fuel, N ≤ fuel → execOps H fuel ops (initEEPROM H s0) = some s' := by
  have hlog : (initEEPROM H s0).log = s0.log ++ initCalls := by rw [initEEPROM_eq]; rfl
  refine ⟨hlog, hasView_invariant _ _ (initCalls_view l0) idle_in, ?_,
    execOps_some H hclk ops _⟩
  intro fuel s' h
  obtain ⟨L, hL, hB⟩ := execOps_block H fuel ops _ s' h
  obtain ⟨w, -, hb⟩ := hB _ idle_in
  exact ⟨L, by rw [hL, hlog], (hb _ (initCalls_view l0)).1⟩

end OpSequences
theorem C12_bus_state_invariant_witness :
    ClockAdvances (deadChip slowClock).clock ∧
    ((initEEPROM (deadChip slowClock) (Dev.init ())).log = (Dev.init ()).log ++ initCalls ∧
    BusInvariant (Lines.reset.run initCalls) ∧
    (∀ fuel s', execOps (deadChip slowClock) fuel
        [PublicOp.writePage 0x2000 (fun _ => 0x42) 256, PublicOp.readByte 0x10,
          PublicOp.writeByte 0x2000 0x42, PublicOp.chip_erase, PublicOp.ensureSDPDisabled]
        (initEEPROM (deadChip slowClock) (Dev.init ())) = some s' →
      ∃ L, s'.log = (Dev.init ()).log ++ initCalls ++ L ∧
        busSafe (Lines.reset.run initCalls) L) ∧
    ∃ N s', ∀ fuel, N ≤ fuel → execOps (deadChip slowClock) fuel
        [PublicOp.writePage 0x2000 (fun _ => 0x42) 256, PublicOp.readByte 0x10,
          PublicOp.writeByte 0x2000 0x42, PublicOp.chip_erase, PublicOp.ensureSDPDisabled]
        (initEEPROM (deadChip slowClock) (Dev.init ())) = some s') :=
  ⟨slowClock_advances,
    C12_bus_state_invariant (deadChip slowClock) slowClock_advances (Dev.init ())
      [PublicOp.writePage 0x2000 (fun _ => 0x42) 256, PublicOp.readByte 0x10,
        PublicOp.writeByte 0x2000 0x42, PublicOp.chip_erase, PublicOp.ensureSDPDisabled]
      Lines.reset⟩

section ReturnState

variable {σ : Type} (H : Hardware σ)

theorem _read_bus_deadChip (clock : Nat → Nat) (s : Dev Unit) :
    (_read_bus (deadChip clock) s).1 = 0 := by
  rw [_read_bus_val]
  show assemble false false false false false false false false = 0
  decide

/-- On a chip that never answers, with a clock that jumps a whole timeout per `millis()` call,
`writePage` of a page whose first byte is not zero gives up after its first poll. -/
theorem writePage_deadChip_times_out (fuel start : Nat) (data : Nat → Nat) (len : Nat)
    (hd : data 0 ≠ 0) (s : Dev Unit) :
    ∃ s', writePage (deadChip slowClock) (fuel + 1) start data len s = some (false, s') := by
  rw [writePage_eq_poll]
  simp only [writePage_poll, _read_bus_deadChip]
  rw [if_pos (Ne.symm hd)]
  have ht : elapsed (millis (deadChip slowClock) (_read_bus (deadChip slowClock)
      (millis (deadChip slowClock)
        (Dev.run (deadChip slowClock) (writePageCalls start data len) s)).2).2).1
      ((deadChip slowClock).clock s.ticks % 2 ^ 32) ≥ WRITE_TIMEOUT_MS := by
    simp only [millis, _read_bus_snd, Dev.run_ticks, deadChip, slowClock, elapsed,
      WRITE_TIMEOUT_MS]
    omega
  rw [if_pos ht]
  exact ⟨_, rfl⟩

theorem hasView_released (l : Lines) (b : PinMode) (h : l.hasView ⟨b, HIGH, HIGH, HIGH⟩) :
    l.released := ⟨h.2.1, h.2.2.1, h.2.2.2⟩

/-- C19: entered with write-enable de-asserted (and the bus an input unless output-enable is
de-asserted too), `readByte`, `sdp_enable`, `sdp_disable`, `chip_erase`, `writeByte` on both
its paths and `writePage` on its success path return with chip-enable, output-enable and
write-enable de-asserted; `writePage` on its data-polling timeout path returns `false` with
chip-enable and output-enable still asserted, and a chip that never answers takes that
path. -/
theorem C19_writePage_timeout_keeps_enables_asserted (s : Dev σ) (l : Lines) (v : BusView)
    (hv : v.idle) (hl : l.hasView v) :
    (∀ a, (readByte H a s).2.log = s.log ++ readByteCalls a ∧
      (l.run (readByteCalls a)).released) ∧
    (∃ L, (sdp_enable H s).log = s.log ++ L ∧ (l.run L).released) ∧
    (∃ L, (sdp_disable H s).log = s.log ++ L ∧ (l.run L).released) ∧
    (∃ L, (chip_erase H s).log = s.log ++ L ∧ (l.run L).released) ∧
    (∀ fuel a d r, writeByte H fuel a d s = some r →
      ∃ L, r.2.log = s.log ++ L ∧ (l.run L).released) ∧
    (∀ fuel start data len r, writePage H fuel start data len s = some r →
      ∃ L, r.2.log = s.log ++ L ∧
        (r.1 = true → (l.run L).released) ∧
        (r.1 = false → (l.run L).level Pin.EEPROM_CE = LOW ∧
          (l.run L).level Pin.EEPROM_OE = LOW ∧ (l.run L).level Pin.EEPROM_WE = HIGH)) ∧
    ∀ fuel start len (c : Dev Unit),
      ∃ c', writePage (deadChip slowClock) (fuel + 1) start (fun _ => 0x42) len c =
        some (false, c') := by
  refine ⟨fun a => ⟨by rw [readByte_snd]; rfl,
      hasView_released _ _ ((Block_readByteCalls a v hv) l hl).2⟩,
    ⟨_, by rw [sdp_enable_eq]; rfl, hasView_released _ _ ((Block_sdpCalls _ v hv) l hl).2⟩,
    ⟨_, by rw [sdp_disable_eq]; rfl, hasView_released _ _ ((Block_sdpCalls _ v hv) l hl).2⟩,
    ⟨_, by rw [chip_erase_eq]; rfl, hasView_released _ _
      ((Block_append _ _ _ _ _ (Block_sdpCalls _ v hv) (Block_delay 100 _ rfl)) l hl).2⟩,
    ?_, ?_, ?_⟩
  · intro fuel a d r h
    obtain ⟨L, hL, hB⟩ := writeByte_block H fuel a d s r h
    exact ⟨L, hL, hasView_released _ _ ((hB v hv) l hl).2⟩
  · intro fuel start data len r h
    obtain ⟨L, hL, hB⟩ := writePage_block H fuel start data len s r h
    have hw := ((hB v hv) l hl).2
    refine ⟨L, hL, fun ht => ?_, fun hf => ?_⟩
    · rw [ht] at hw
      exact hasView_released _ _ hw
    · rw [hf] at hw
      exact ⟨hw.2.1, hw.2.2.1, hw.2.2.2⟩
  · intro fuel start len c
    exact writePage_deadChip_times_out fuel start _ len (by decide) c

theorem C19_writePage_timeout_keeps_enables_asserted_witness :
    (⟨PinMode.INPUT, HIGH, HIGH, HIGH⟩ : BusView).idle ∧
    (Lines.reset.run initCalls).hasView ⟨PinMode.INPUT, HIGH, HIGH, HIGH⟩ ∧
    ∀ fuel start data len r,
      writePage (deadChip slowClock) fuel start data len
        (initEEPROM (deadChip slowClock) (Dev.init ())) = some r →
      ∃ L, r.2.log = (initEEPROM (deadChip slowClock) (Dev.init ())).log ++ L ∧
        (r.1 = true → ((Lines.reset.run initCalls).run L).released) ∧
        (r.1 = false → ((Lines.reset.run initCalls).run L).level Pin.EEPROM_CE = LOW ∧
          ((Lines.reset.run initCalls).run L).level Pin.EEPROM_OE = LOW ∧
          ((Lines.reset.run initCalls).run L).level Pin.EEPROM_WE = HIGH) :=
  ⟨idle_in, initCalls_view Lines.reset,
    (C19_writePage_timeout_keeps_enables_asserted (deadChip slowClock)
      (initEEPROM (deadChip slowClock) (Dev.init ())) (Lines.reset.run initCalls)
      ⟨PinMode.INPUT, HIGH, HIGH, HIGH⟩ idle_in (initCalls_view Lines.reset)).2.2.2.2.2.1⟩

end ReturnState

section PageAddress

variable {σ : Type} (H : Hardware σ)

theorem writePage_poll_calls (d0 t : Nat) (fuel : Nat) :
    ∀ (s : Dev σ) (r : Bool × Dev σ), writePage_poll H d0 t fuel s = some r →
      ∃ n, r.2.log = s.log ++ pollCalls (n + 1) r.1 := by
  induction fuel with
  | zero => intro s r h; simp [writePage_poll] at h
  | succ fuel ih =>
    intro s r h
    simp only [writePage_poll] at h
    by_cases hne : (_read_bus H s).1 ≠ d0
    · rw [if_pos hne] at h
      by_cases ht : elapsed (millis H (_read_bus H s).2).1 t ≥ WRITE_TIMEOUT_MS
      · rw [if_pos ht] at h
        cases h
        exact ⟨0, by simp [millis, _read_bus_snd, Dev.run_log, pollCalls]⟩
      · rw [if_neg ht] at h
        obtain ⟨n, hn⟩ := ih _ r h
        refine ⟨n + 1, ?_⟩
        rw [hn]
        simp [millis, _read_bus_snd, Dev.run_log, pollCalls]
    · rw [if_neg hne] at h
      cases h
      exact ⟨0, by simp [_read_bus_snd, _set_output_enable_eq, _set_chip_enable_eq, Dev.run_run,
        Dev.run_log, pollCalls]⟩

theorem run_addr_of_mem (cs : List Call)
    (h : ∀ c ∈ cs, c ≠ Call.digitalWrite Pin.EEPROM_ADR_RCLK HIGH) :
    ∀ l : Lines, (l.run cs).addr = l.addr := by
  induction cs with
  | nil => intro l; rfl
  | cons c cs ih =>
    intro l
    have hc := h c (List.mem_cons_self _ _)
    show ((l.step c).run cs).addr = l.addr
    rw [ih (fun d hd => h d (List.mem_cons_of_mem _ hd))]
    cases c with
    | pinMode p m => rfl
    | digitalWrite p v =>
      simp only [Lines.step]
      rw [if_neg]
      rintro ⟨rfl, rfl⟩
      exact hc rfl
    | digitalRead p => rfl
    | shiftOut d c v => rfl
    | delay ms => rfl

theorem pollCalls_mem (n : Nat) (ok : Bool) :
    ∀ c ∈ pollCalls n ok, c ≠ Call.digitalWrite Pin.EEPROM_ADR_RCLK HIGH := by
  induction n with
  | zero =>
    intro c hc
    cases ok <;> simp [pollCalls] at hc
    rcases hc with h | h <;> (subst h; simp)
  | succ n ih =>
    intro c hc
    simp only [pollCalls, List.mem_append] at hc
    rcases hc with hc | hc
    · simp only [readBusCalls, busModeCalls, List.cons_append, List.nil_append, List.mem_cons,
        List.mem_singleton, List.not_mem_nil, or_false] at hc
      rcases hc with h | h | h | h | h | h | h | h | h | h | h | h | h | h | h | h <;>
        (subst h; simp)
    · exact ih c hc

theorem writePageCalls_addr (start : Nat) (data : Nat → Nat) (len : Nat) (l : Lines) :
    (l.run (writePageCalls start data len)).addr = start % 65536 := by
  simp only [writePageCalls, ← List.append_assoc]
  rw [Lines.run_append]
  simp only [setAddrCalls, Lines.run, List.foldl_cons, List.foldl_nil, Lines.step]
  simp
  exact shiftReg_two_bytes _ _

/-- C20: `writePage(A, data, 256)` issues its 256 write strobes in index order, the `i`-th
writing `data[i]` at the 16-bit address `(A + i) mod 65536`, so that an index with
`A + i > 0xFFFF` is written at `A + i - 0x10000` (an address below `0x00FF`); it then latches
address `A`, and the completion poll that follows consists of bus reads only (the latched
address stays `A` throughout) and compares the byte read with `data[0]`. -/
theorem C20_page_commit_address_wraps (fuel start : Nat) (data : Nat → Nat) (s : Dev σ)
    (hA : start < 65536) :
    writePage H fuel start data 256 s =
      writePage_poll H (data 0) (H.clock s.ticks % 2 ^ 32) fuel
        (millis H (Dev.run H (writePageCalls start data 256) s)).2 ∧
    (∀ l : Lines, writeStrobes l (writePageCalls start data 256) =
      (List.range 256).map (fun i => ((start + i) % 65536, data i % 256))) ∧
    (∀ i, i < 256 → 65536 ≤ start + i →
      (start + i) % 65536 = start + i - 65536 ∧ start + i - 65536 < 255) ∧
    (∀ l : Lines, (l.run (writePageCalls start data 256)).addr = start) ∧
    ∀ r, writePage H fuel start data 256 s = some r →
      ∃ n, r.2.log = s.log ++ writePageCalls start data 256 ++ pollCalls (n + 1) r.1 ∧
        ∀ (l : Lines) (k : Nat), (l.run ((pollCalls (n + 1) r.1).take k)).addr = l.addr := by
  refine ⟨writePage_eq_poll H fuel start data 256 s, fun l => ?_, fun i hi hw => by omega,
    fun l => by rw [writePageCalls_addr, Nat.mod_eq_of_lt hA], fun r h => ?_⟩
  · simp only [writePageCalls]
    rw [writeStrobes_append, writeStrobes_append,
      writeStrobes_noStrobe _ NoStrobe_pageEnter, writeStrobes_programCalls,
      writeStrobes_noStrobe _ (NoStrobe_pollEnter start), List.nil_append, List.append_nil,
      List.range_eq_range']
    congr 1
    funext i
    rw [Nat.add_comm]
  · rw [writePage_eq_poll] at h
    obtain ⟨n, hn⟩ := writePage_poll_calls H _ _ fuel _ r h
    refine ⟨n, ?_, fun l k => run_addr_of_mem _ (fun c hc =>
      pollCalls_mem (n + 1) r.1 c (List.mem_of_mem_take hc)) l⟩
    rw [hn]
    simp [millis, Dev.run_log]

theorem C20_page_commit_address_wraps_witness :
    (0xFF80 : Nat) < 65536 ∧
    (writePage (deadChip slowClock) 1 0xFF80 (fun i => i + 1) 256 (Dev.init ()) =
      writePage_poll (deadChip slowClock) ((fun i => i + 1) 0)
        ((deadChip slowClock).clock (Dev.init ()).ticks % 2 ^ 32) 1
        (millis (deadChip slowClock) (Dev.run (deadChip slowClock)
          (writePageCalls 0xFF80 (fun i => i + 1) 256) (Dev.init ()))).2 ∧
    (∀ l : Lines, writeStrobes l (writePageCalls 0xFF80 (fun i => i + 1) 256) =
      (List.range 256).map (fun i => ((0xFF80 + i) % 65536, (fun i => i + 1) i % 256))) ∧
    (∀ i, i < 256 → 65536 ≤ 0xFF80 + i →
      (0xFF80 + i) % 65536 = 0xFF80 + i - 65536 ∧ 0xFF80 + i - 65536 < 255) ∧
    (∀ l : Lines, (l.run (writePageCalls 0xFF80 (fun i => i + 1) 256)).addr = 0xFF80) ∧
    ∀ r, writePage (deadChip slowClock) 1 0xFF80 (fun i => i + 1) 256 (Dev.init ()) = some r →
      ∃ n, r.2.log = (Dev.init ()).log ++ writePageCalls 0xFF80 (fun i => i + 1) 256 ++
          pollCalls (n + 1) r.1 ∧
        ∀ (l : Lines) (k : Nat), (l.run ((pollCalls (n + 1) r.1).take k)).addr = l.addr) :=
  ⟨by decide, C20_page_commit_address_wraps (deadChip slowClock) 1 0xFF80 (fun i => i + 1)
    (Dev.init ()) (by decide)⟩

end PageAddress

section EnsureSdp

variable {σ : Type} (H : Hardware σ)

theorem ensureSDPEnabled_loop_succ (fuel e n : Nat) (s : Dev σ) :
    ensureSDPEnabled_loop H fuel e (n + 1) s =
      match ensureSDPEnabled_body H fuel e s with
      | none => none
      | some r => if r.1 = false then some r.2 else ensureSDPEnabled_loop H fuel e n r.2 := rfl

theorem ensureSDPEnabled_loop_iff (fuel e : Nat) (n : Nat) :
    ∀ s s' : Dev σ, ensureSDPEnabled_loop H fuel e n s = some s' ↔
      ∃ k sk, k < n ∧ ensureSDPEnabled_iter H fuel e k s = some sk ∧
        ensureSDPEnabled_body H fuel e sk = some (false, s') := by
  induction n with
  | zero =>
    intro s s'
    simp [ensureSDPEnabled_loop]
  | succ n ih =>
    intro s s'
    rw [ensureSDPEnabled_loop_succ]
    cases hb : ensureSDPEnabled_body H fuel e s with
    | none =>
      refine ⟨fun h => (by cases h), ?_⟩
      rintro ⟨k, sk, _, hk, hk'⟩
      cases k with
      | zero =>
        simp only [ensureSDPEnabled_iter, Option.some.injEq] at hk
        subst hk
        rw [hb] at hk'
        cases hk'
      | succ k =>
        simp only [ensureSDPEnabled_iter, hb] at hk
        cases hk
    | some r =>
      obtain ⟨ok, s1⟩ := r
      cases ok with
      | false =>
        simp only [if_true, Option.some.injEq]
        constructor
        · rintro rfl
          exact ⟨0, s, Nat.succ_pos _, rfl, hb⟩
        · rintro ⟨k, sk, _, hk, hk'⟩
          cases k with
          | zero =>
            simp only [ensureSDPEnabled_iter, Option.some.injEq] at hk
            subst hk
            rw [hb] at hk'
            simp only [Option.some.injEq, Prod.mk.injEq, true_and] at hk'
            exact hk'
          | succ k =>
            simp [ensureSDPEnabled_iter, hb] at hk
      | true =>
        simp only [Bool.true_eq_false, if_false]
        rw [ih s1 s']
        constructor
        · rintro ⟨k, sk, hlt, hk, hk'⟩
          refine ⟨k + 1, sk, Nat.succ_lt_succ hlt, ?_, hk'⟩
          simp only [ensureSDPEnabled_iter, hb, if_true]
          exact hk
        · rintro ⟨k, sk, hlt, hk, hk'⟩
          cases k with
          | zero =>
            simp only [ensureSDPEnabled_iter, Option.some.injEq] at hk
            subst hk
            rw [hb] at hk'
            simp at hk'
          | succ k =>
            simp only [ensureSDPEnabled_iter, hb, if_true] at hk
            exact ⟨k, sk, Nat.lt_of_succ_lt_succ hlt, hk, hk'⟩

/-- On the ideal chip, which stores every byte written to it, the verification write always
returns true and the loop of `ensureSDPEnabled` is never left. -/
theorem ensureSDPEnabled_loop_ideal (clock : Nat → Nat) (fuel e : Nat) (he : e < 256)
    (n : Nat) : ∀ s : Dev Ideal,
      ensureSDPEnabled_loop (idealChip clock) (fuel + 1) e n s = none := by
  induction n with
  | zero => intro s; rfl
  | succ n ih =>
    intro s
    rw [ensureSDPEnabled_loop_succ, ensureSDPEnabled_body, writeByte_ideal clock fuel 0 e he]
    simp only [Bool.true_eq_false, if_false]
    exact ih _

/-- The verification write times out on a chip that never answers. -/
theorem writeByte_deadChip_false (fuel a d : Nat) (hd : d ≠ 0) (s : Dev Unit) :
    ∃ s', writeByte (deadChip slowClock) (fuel + 1) a d s = some (false, s') := by
  rw [writeByte_eq_poll]
  simp only [writeByte_poll]
  have hr : ∀ c : Dev Unit, (readByte (deadChip slowClock) a c).1 = 0 := by
    intro c
    simp only [readByte]
    exact _read_bus_deadChip slowClock _
  rw [if_pos (by rw [hr]; exact Ne.symm hd)]
  rw [if_pos]
  · exact ⟨_, rfl⟩
  · simp only [millis, readByte_snd, Dev.run_ticks, deadChip, slowClock, elapsed,
      WRITE_TIMEOUT_MS]
    omega

theorem readByte_deadChip (clock : Nat → Nat) (a : Nat) (s : Dev Unit) :
    (readByte (deadChip clock) a s).1 = 0 := by
  simp only [readByte]
  exact _read_bus_deadChip clock _

/-- C14, as stated, fails: on a chip that never answers the first verification write returns
false and `ensureSDPEnabled` returns right after that iteration, without any successful write;
on the ideal chip the first verification write returns true and the loop is never left. -/
theorem C14_counterexample :
    (∃ r, ensureSDPEnabled_body (deadChip slowClock) 1 0x0F
        (readByte (deadChip slowClock) 0x00 (Dev.init ())).2 = some r ∧ r.1 = false ∧
      ensureSDPEnabled (deadChip slowClock) 1 (Dev.init ()) = some r.2) ∧
    (∃ r, ensureSDPEnabled_body (idealChip tickClock) 1 0x0E
        (readByte (idealChip tickClock) 0x00 (Dev.init Ideal.erased)).2 = some r ∧ r.1 = true ∧
      ∀ n, ensureSDPEnabled_loop (idealChip tickClock) 1 0x0E n
        (readByte (idealChip tickClock) 0x00 (Dev.init Ideal.erased)).2 = none) := by
  constructor
  · obtain ⟨s', hs'⟩ := writeByte_deadChip_false 0 0x00 0x0F (by decide)
      (sdp_enable (deadChip slowClock) (readByte (deadChip slowClock) 0x00 (Dev.init ())).2)
    refine ⟨(false, s'), hs', rfl, ?_⟩
    simp only [ensureSDPEnabled, readByte_deadChip]
    rw [ensureSDPEnabled_loop_succ, ensureSDPEnabled_body, hs']
    rfl
  · exact ⟨_, writeByte_ideal tickClock 0 0x00 0x0E (by decide) _, rfl,
      fun n => ensureSDPEnabled_loop_ideal tickClock 0 0x0E (by decide) n _⟩

/-- C14 (amended): `ensureSDPEnabled` reads `e = readByte(0x00) + 0xF` (8 bit) and then runs
`sdp_enable()` followed by the verification write `writeByte(0x00, e)` in each loop iteration;
an iteration whose write returns false ends the loop, an iteration whose write returns true is
followed by the next one, so the loop is left exactly after the first iteration whose
verification write returns false. -/
theorem C14_loop_left_when_write_returns_false (fuel e n : Nat) (s s' : Dev σ) :
    ensureSDPEnabled H fuel s =
      ensureSDPEnabled_loop H fuel (((readByte H 0x00 s).1 + 0xF) % 256) fuel
        (readByte H 0x00 s).2 ∧
    ensureSDPEnabled_body H fuel e s = writeByte H fuel 0x00 e (sdp_enable H s) ∧
    (∀ s1, ensureSDPEnabled_body H fuel e s = some (false, s1) →
      ensureSDPEnabled_loop H fuel e (n + 1) s = some s1) ∧
    (∀ s1, ensureSDPEnabled_body H fuel e s = some (true, s1) →
      ensureSDPEnabled_loop H fuel e (n + 1) s = ensureSDPEnabled_loop H fuel e n s1) ∧
    (ensureSDPEnabled_loop H fuel e n s = some s' ↔
      ∃ k sk, k < n ∧ ensureSDPEnabled_iter H fuel e k s = some sk ∧
        ensureSDPEnabled_body H fuel e sk = some (false, s')) := by
  refine ⟨rfl, rfl, fun s1 h => ?_, fun s1 h => ?_, ensureSDPEnabled_loop_iff H fuel e n s s'⟩
  · rw [ensureSDPEnabled_loop_succ, h]
    rfl
  · rw [ensureSDPEnabled_loop_succ, h]
    rfl

end EnsureSdp

section LoopFuel

variable {σ : Type} (H : Hardware σ)

theorem loop_switch_mono (cmd addr_l addr_h data addr : Nat) (s : Firmware σ)
    (r : Nat × Firmware σ) (fuel fuel' : Nat) (hf : fuel ≤ fuel')
    (h : loop_switch H fuel cmd addr_l addr_h data addr s = some r) :
    loop_switch H fuel' cmd addr_l addr_h data addr s = some r := by
  simp only [loop_switch] at h ⊢
  by_cases h1 : cmd = CMD_READ
  · simpa only [if_pos h1] using h
  by_cases h2 : cmd = CMD_WRITE
  · simp only [if_neg h1, if_pos h2, Option.map_eq_some'] at h ⊢
    obtain ⟨w, hw, rfl⟩ := h
    exact ⟨w, writeByte_mono H _ _ _ w fuel fuel' hf hw, rfl⟩
  by_cases h3 : cmd = CMD_PAGE_WRITE_START
  · simpa only [if_neg h1, if_neg h2, if_pos h3] using h
  by_cases h4 : cmd = CMD_PAGE_WRITE_DATA
  · simp only [if_neg h1, if_neg h2, if_neg h3, if_pos h4] at h ⊢
    split at h
    · rename_i hc
      rw [if_pos hc]
      simp only [Option.map_eq_some'] at h ⊢
      obtain ⟨w, hw, rfl⟩ := h
      exact ⟨w, writePage_mono H _ _ _ _ w fuel fuel' hf hw, rfl⟩
    · rename_i hc
      rw [if_neg hc]
      exact h
  · simpa only [if_neg h1, if_neg h2, if_neg h3, if_neg h4] using h

theorem loop_body_mono (s s' : Firmware σ) (fuel fuel' : Nat) (hf : fuel ≤ fuel')
    (h : loop_body H fuel s = some s') : loop_body H fuel' s = some s' := by
  simp only [loop_body] at h ⊢
  split at h
  · rename_i hc
    rw [if_pos hc]
    exact h
  · rename_i hc
    rw [if_neg hc]
    simp only [Option.map_eq_some'] at h ⊢
    obtain ⟨r, hr, rfl⟩ := h
    exact ⟨r, loop_switch_mono H _ _ _ _ _ _ r fuel fuel' hf hr, rfl⟩

theorem loop_frames_mono (fuel fuel' : Nat) (hf : fuel ≤ fuel') (n : Nat) :
    ∀ (n' : Nat) (s s' : Firmware σ), n ≤ n' → loop_frames H fuel n s = some s' →
      loop_frames H fuel' n' s = some s' := by
  induction n with
  | zero =>
    intro n' s s' _ h
    simp only [loop_frames] at h
    split at h
    · cases h
    · rename_i hc
      cases h
      exact loop_frames_done H fuel' n' s (by simpa [Serial_available] using hc)
  | succ n ih =>
    intro n' s s' hn h
    obtain ⟨m, rfl⟩ : ∃ m, n' = m + 1 := ⟨n' - 1, by omega⟩
    simp only [loop_frames] at h ⊢
    split at h
    · rename_i hc
      rw [if_pos hc]
      simp only [Option.bind_eq_some] at h ⊢
      obtain ⟨s1, h1, h2⟩ := h
      exact ⟨s1, loop_body_mono H s s1 fuel fuel' hf h1, ih m s1 s' (by omega) h2⟩
    · rename_i hc
      rw [if_neg hc]
      exact h

/-- The result of `loop()` does not depend on the iteration bound once it is large enough. -/
theorem loop_mono (s s' : Firmware σ) (fuel fuel' : Nat) (hf : fuel ≤ fuel')
    (h : loop H fuel s = some s') : loop H fuel' s = some s' :=
  loop_frames_mono H fuel fuel' hf fuel fuel' _ s' hf h

theorem loop_frames_step (fuel n : Nat) (s s1 : Firmware σ) (hlen : 6 ≤ s.rx.length)
    (h : loop_body H fuel s = some s1) :
    loop_frames H fuel (n + 1) s = loop_frames H fuel n s1 := by
  rw [loop_frames_succ H fuel n s hlen, h, Option.some_bind]

theorem Firmware.ext_fields (a b : Firmware σ) (h1 : a.dev = b.dev) (h2 : a.rx = b.rx)
    (h3 : a.tx = b.tx) (h4 : a.pageData = b.pageData)
    (h5 : a.currentPageAddress = b.currentPageAddress)
    (h6 : a.currentPageOffset = b.currentPageOffset) : a = b := by
  cases a; cases b
  simp only at h1 h2 h3 h4 h5 h6
  subst h1 h2 h3 h4 h5 h6
  rfl

/-- Data frames that do not fill the page, with the state they leave. -/
theorem loop_frames_data_eq (fuel : Nat) (frames : List (Nat × Nat × Nat)) (s : Firmware σ)
    (rest : List Nat) (n : Nat)
    (hb : ∀ f ∈ frames, f.1 < 256 ∧ f.2.1 < 256 ∧ f.2.2 < 256)
    (hoff : s.currentPageOffset + 3 * frames.length < 256)
    (hrx : s.rx = dataFrames frames ++ rest) :
    loop_frames H fuel (frames.length + n) s =
      loop_frames H fuel n { pageData_pushAll (payloadBytes frames) s with
        rx := rest, tx := s.tx ++ echoAcks frames } := by
  obtain ⟨s1, hs1, hr, ht, hd, ha, hp, ho⟩ := loop_frames_data H fuel frames s rest n hb hoff hrx
  rw [hs1]
  congr 1
  exact Firmware.ext_fields _ _ (by rw [hd]; exact (pageData_pushAll_fields _ s).1.symm) hr ht
    hp (by rw [ha]; exact (pageData_pushAll_fields _ s).2.2.2.symm) ho

/-- A `PAGE_WRITE_DATA` frame that arrives with the cursor at 253 or above stores its three
bytes at the cursor and the two indices after it and runs `writePage` on the whole buffer;
the state it leaves does not depend on the iteration bound. -/
theorem loop_body_data_commit (hclk : ClockAdvances H.clock) (s : Firmware σ)
    (a b d : Nat) (rest : List Nat) (ha : a < 256) (hb : b < 256) (hd : d < 256)
    (hrx : s.rx = 0x7B :: 0xCD :: a :: b :: d :: 0x7D :: rest)
    (hlo : 253 ≤ s.currentPageOffset) (hhi : s.currentPageOffset ≤ 65532) :
    ∃ N ok dev', ∀ fuel, N ≤ fuel →
      writePage H fuel s.currentPageAddress (pageData_pushAll [a, b, d] s).pageData 256 s.dev =
        some (ok, dev') ∧
      loop_body H fuel s = some { pageData_pushAll [a, b, d] s with
        dev := dev', rx := rest, tx := s.tx ++ [0x7B, 255 - a, a, 0x7D] } := by
  obtain ⟨N, hN⟩ := writePage_some H hclk s.currentPageAddress
    (pageData_pushAll [a, b, d] s).pageData 256 s.dev
  obtain ⟨r, hr⟩ := hN N (le_refl _)
  refine ⟨N, r.1, r.2, fun fuel hf => ?_⟩
  have hw := writePage_mono H _ _ _ _ r N fuel hf hr
  have ho3 : (pageData_pushAll [a, b, d] s).currentPageOffset = s.currentPageOffset + 3 := by
    have h := pageData_pushAll_offset [a, b, d] s
      (by simp only [List.length_cons, List.length_nil]; omega)
    simpa using h
  refine ⟨hw, ?_⟩
  rw [loop_body_data H fuel s a b d rest ha hb hd hrx, if_pos (by rw [ho3]; omega), hw]
  rfl

end LoopFuel
section CursorAfterCommit

variable {σ : Type} (H : Hardware σ)

/-- The state left by a start frame and 85 data frames does not depend on the iteration
bound. -/
theorem page_sequence_state (hclk : ClockAdvances H.clock) (s : Firmware σ)
    (addr_l addr_h d0 : Nat) (payload : List (Nat × Nat × Nat))
    (hl : addr_l < 256) (hh : addr_h < 256) (hd0 : d0 < 256)
    (hpay : ∀ f ∈ payload, f.1 < 256 ∧ f.2.1 < 256 ∧ f.2.2 < 256)
    (hlen : payload.length = 85)
    (hrx : s.rx = startFrame addr_l addr_h d0 ++ dataFrames payload) :
    ∃ N s', (∀ fuel, N ≤ fuel → loop H fuel s = some s') ∧ s'.rx = [] ∧
      s'.currentPageAddress = addr_l + 256 * addr_h ∧ s'.currentPageOffset = 256 ∧
      (∀ i, i < 256 → s'.pageData i = (d0 :: payloadBytes payload).getD i 0) := by
  obtain ⟨N, hN⟩ := page_sequence H hclk s addr_l addr_h d0 payload hl hh hd0 hpay hlen hrx
  obtain ⟨s', ok, hloop, hr, -, ha, ho, hp, -⟩ := hN N (le_refl _)
  exact ⟨N, s', fun fuel hf => loop_mono H s s' N fuel hf hloop, hr, ha, ho, hp⟩

/-- A single `PAGE_WRITE_START` frame, whatever the cursor was. -/
theorem loop_start_frame (fuel : Nat) (s : Firmware σ) (addr_l addr_h d0 : Nat)
    (hl : addr_l < 256) (hh : addr_h < 256) (hd : d0 < 256)
    (hrx : s.rx = startFrame addr_l addr_h d0) :
    loop H (fuel + 1) s =
      some { s with
        rx := [],
        tx := s.tx ++ [0x7B, d0, 255 - d0, 0x7D],
        pageData := fun i => if i = 0 then d0 else s.pageData i,
        currentPageAddress := addr_l + 256 * addr_h,
        currentPageOffset := 1 } := by
  have hseek : loop_seek s = s := loop_seek_start s _ (by rw [hrx]; rfl)
  simp only [loop]
  rw [hseek, loop_frames_step H (fuel + 1) fuel s _ (by rw [hrx]; simp [startFrame])
    (loop_body_start H (fuel + 1) s addr_l addr_h d0 [] hl hh hd (by rw [hrx]; simp)),
    loop_frames_done H (fuel + 1) fuel _ (by simp)]

/-- A single `PAGE_WRITE_DATA` frame that arrives with the cursor at 253 or above. -/
theorem loop_data_commit (hclk : ClockAdvances H.clock) (s : Firmware σ) (a b d : Nat)
    (ha : a < 256) (hb : b < 256) (hd : d < 256)
    (hrx : s.rx = dataFrames [(a, b, d)])
    (hlo : 253 ≤ s.currentPageOffset) (hhi : s.currentPageOffset ≤ 65532) :
    ∃ N ok dev', ∀ fuel, N ≤ fuel →
      writePage H fuel s.currentPageAddress (pageData_pushAll [a, b, d] s).pageData 256 s.dev =
        some (ok, dev') ∧
      loop H fuel s = some { pageData_pushAll [a, b, d] s with
        dev := dev', rx := [], tx := s.tx ++ [0x7B, 255 - a, a, 0x7D] } := by
  have hrx' : s.rx = 0x7B :: 0xCD :: a :: b :: d :: 0x7D :: [] := by rw [hrx]; rfl
  obtain ⟨N, ok, dev', hN⟩ := loop_body_data_commit H hclk s a b d [] ha hb hd hrx' hlo hhi
  refine ⟨N + 1, ok, dev', fun fuel hf => ?_⟩
  obtain ⟨hw, hbody⟩ := hN fuel (by omega)
  refine ⟨hw, ?_⟩
  obtain ⟨m, rfl⟩ : ∃ m, fuel = m + 1 := ⟨fuel - 1, by omega⟩
  have hseek : loop_seek s = s := loop_seek_start s _ hrx'
  simp only [loop]
  rw [hseek, loop_frames_step H (m + 1) m s _ (by rw [hrx']; simp) hbody,
    loop_frames_done H (m + 1) m _ (by simp)]

theorem pageData_pushAll_three (a b d : Nat) (s : Firmware σ)
    (hhi : s.currentPageOffset ≤ 65532) :
    (pageData_pushAll [a, b, d] s).currentPageOffset = s.currentPageOffset + 3 ∧
    (pageData_pushAll [a, b, d] s).pageData s.currentPageOffset = a ∧
    (pageData_pushAll [a, b, d] s).pageData (s.currentPageOffset + 1) = b ∧
    (pageData_pushAll [a, b, d] s).pageData (s.currentPageOffset + 2) = d ∧
    (∀ i, i < s.currentPageOffset → (pageData_pushAll [a, b, d] s).pageData i = s.pageData i) ∧
    (pageData_pushAll [a, b, d] s).currentPageAddress = s.currentPageAddress := by
  have hlen : s.currentPageOffset + [a, b, d].length ≤ 65535 := by
    simp only [List.length_cons, List.length_nil]; omega
  have hget := fun i => pageData_pushAll_get [a, b, d] s i hlen
  simp only [List.length_cons, List.length_nil] at hget
  refine ⟨by simpa using pageData_pushAll_offset [a, b, d] s hlen, ?_, ?_, ?_, ?_,
    (pageData_pushAll_fields _ s).2.2.2⟩
  · rw [hget, if_pos (by omega)]; simp
  · rw [hget, if_pos (by omega)]; simp
  · rw [hget, if_pos (by omega)]; simp
  · intro i hi
    rw [hget, if_neg (by omega)]

end CursorAfterCommit
section CursorClaims

variable {σ : Type} (H : Hardware σ)

/-- C13, as stated, fails: after a start frame and the 85 data frames that fill and commit the
page, the cursor is still 256 (it is not reset), and one more `PAGE_WRITE_DATA` frame without
a new start frame is acknowledged with the inverted byte and runs `writePage` again. -/
theorem C13_counterexample :
    ∃ N s', (∀ fuel, N ≤ fuel → loop (deadChip slowClock) fuel (Firmware.init ()
        (startFrame 0x00 0x20 0x42 ++ dataFrames (List.replicate 85 (1, 2, 3)))) = some s') ∧
      s'.currentPageOffset = 256 ∧
      ∃ M s'', (∀ fuel, M ≤ fuel →
          loop (deadChip slowClock) fuel { s' with rx := dataFrames [(4, 5, 6)] } = some s'' ∧
          ∃ ok, writePage (deadChip slowClock) fuel s'.currentPageAddress s''.pageData 256
            s'.dev = some (ok, s''.dev)) ∧
        s''.tx = s'.tx ++ [0x7B, 251, 4, 0x7D] := by
  obtain ⟨N, s', hloop, -, -, ho, -⟩ := page_sequence_state (deadChip slowClock)
    slowClock_advances (Firmware.init ()
      (startFrame 0x00 0x20 0x42 ++ dataFrames (List.replicate 85 (1, 2, 3))))
    0x00 0x20 0x42 (List.replicate 85 (1, 2, 3)) (by decide) (by decide) (by decide)
    (fun f hf => by rw [List.eq_of_mem_replicate hf]; decide) (List.length_replicate _ _) rfl
  refine ⟨N, s', hloop, ho, ?_⟩
  obtain ⟨M, ok, dev', hM⟩ := loop_data_commit (deadChip slowClock) slowClock_advances
    { s' with rx := dataFrames [(4, 5, 6)] } 4 5 6 (by decide) (by decide) (by decide) rfl
    (by show 253 ≤ s'.currentPageOffset; omega)
    (by show s'.currentPageOffset ≤ 65532; omega)
  exact ⟨M, _, fun fuel hf => ⟨(hM fuel hf).2, ok, (hM fuel hf).1⟩, rfl⟩

/-- C13 (amended): the page commit does not reset the page buffer. After a start frame and the
85 data frames that fill and commit the page, the cursor is 256, the base address is the one of
the start frame and the buffer still holds the committed bytes; the next `PAGE_WRITE_START`
frame resets the buffer: it sets the base address, stores its data byte at index 0 and leaves
the cursor at 1. -/
theorem C13_cursor_reset_by_next_start (hclk : ClockAdvances H.clock) (s : Firmware σ)
    (addr_l addr_h d0 : Nat) (payload : List (Nat × Nat × Nat))
    (hl : addr_l < 256) (hh : addr_h < 256) (hd0 : d0 < 256)
    (hpay : ∀ f ∈ payload, f.1 < 256 ∧ f.2.1 < 256 ∧ f.2.2 < 256)
    (hlen : payload.length = 85)
    (hrx : s.rx = startFrame addr_l addr_h d0 ++ dataFrames payload) :
    ∃ N s', (∀ fuel, N ≤ fuel → loop H fuel s = some s') ∧ s'.rx = [] ∧
      s'.currentPageAddress = addr_l + 256 * addr_h ∧ s'.currentPageOffset = 256 ∧
      (∀ i, i < 256 → s'.pageData i = (d0 :: payloadBytes payload).getD i 0) ∧
      ∀ a_l a_h e fuel, a_l < 256 → a_h < 256 → e < 256 →
        loop H (fuel + 1) { s' with rx := startFrame a_l a_h e } =
          some { s' with
            rx := [],
            tx := s'.tx ++ [0x7B, e, 255 - e, 0x7D],
            pageData := fun i => if i = 0 then e else s'.pageData i,
            currentPageAddress := a_l + 256 * a_h,
            currentPageOffset := 1 } := by
  obtain ⟨N, s', hloop, hr, ha, ho, hp⟩ := page_sequence_state H hclk s addr_l addr_h d0 payload
    hl hh hd0 hpay hlen hrx
  exact ⟨N, s', hloop, hr, ha, ho, hp, fun a_l a_h e fuel h1 h2 h3 =>
    loop_start_frame H fuel { s' with rx := startFrame a_l a_h e } a_l a_h e h1 h2 h3 rfl⟩

theorem C13_cursor_reset_by_next_start_witness :
    ClockAdvances (deadChip slowClock).clock ∧
    (0x00 : Nat) < 256 ∧ (0x20 : Nat) < 256 ∧ (0x42 : Nat) < 256 ∧
    (∀ f ∈ List.replicate 85 ((1 : Nat), (2 : Nat), (3 : Nat)),
      f.1 < 256 ∧ f.2.1 < 256 ∧ f.2.2 < 256) ∧
    (List.replicate 85 ((1 : Nat), (2 : Nat), (3 : Nat))).length = 85 ∧
    (Firmware.init ()
      (startFrame 0x00 0x20 0x42 ++ dataFrames (List.replicate 85 (1, 2, 3)))).rx =
      startFrame 0x00 0x20 0x42 ++ dataFrames (List.replicate 85 (1, 2, 3)) ∧
    ∃ N s', (∀ fuel, N ≤ fuel → loop (deadChip slowClock) fuel (Firmware.init ()
        (startFrame 0x00 0x20 0x42 ++ dataFrames (List.replicate 85 (1, 2, 3)))) = some s') ∧
      s'.rx = [] ∧
      s'.currentPageAddress = 0x00 + 256 * 0x20 ∧ s'.currentPageOffset = 256 ∧
      (∀ i, i < 256 → s'.pageData i =
        (0x42 :: payloadBytes (List.replicate 85 (1, 2, 3))).getD i 0) ∧
      ∀ a_l a_h e fuel, a_l < 256 → a_h < 256 → e < 256 →
        loop (deadChip slowClock) (fuel + 1) { s' with rx := startFrame a_l a_h e } =
          some { s' with
            rx := [],
            tx := s'.tx ++ [0x7B, e, 255 - e, 0x7D],
            pageData := fun i => if i = 0 then e else s'.pageData i,
            currentPageAddress := a_l + 256 * a_h,
            currentPageOffset := 1 } :=
  ⟨slowClock_advances, by decide, by decide, by decide,
    fun f hf => by rw [List.eq_of_mem_replicate hf]; decide,
    List.length_replicate _ _, rfl,
    C13_cursor_reset_by_next_start (deadChip slowClock) slowClock_advances
      (Firmware.init () (startFrame 0x00 0x20 0x42 ++ dataFrames (List.replicate 85 (1, 2, 3))))
      0x00 0x20 0x42 (List.replicate 85 (1, 2, 3)) (by decide) (by decide) (by decide)
      (fun f hf => by rw [List.eq_of_mem_replicate hf]; decide) (List.length_replicate _ _) rfl⟩

end CursorClaims

section BufferBounds

variable {σ : Type} (H : Hardware σ)

theorem dataFrames_head (frames : List (Nat × Nat × Nat)) (rest : List Nat)
    (h : 0 < frames.length) : ∃ tl, dataFrames frames ++ rest = 0x7B :: tl := by
  cases frames with
  | nil => simp at h
  | cons f fs => exact ⟨_, rfl⟩

theorem pageData_pushAll_three_at (a b d c : Nat) (s : Firmware σ)
    (hc : s.currentPageOffset = c) (hhi : c ≤ 65532) :
    (pageData_pushAll [a, b, d] s).currentPageOffset = c + 3 ∧
    (pageData_pushAll [a, b, d] s).pageData c = a ∧
    (pageData_pushAll [a, b, d] s).pageData (c + 1) = b ∧
    (pageData_pushAll [a, b, d] s).pageData (c + 2) = d := by
  subst hc
  obtain ⟨h1, h2, h3, h4, -, -⟩ := pageData_pushAll_three a b d s hhi
  exact ⟨h1, h2, h3, h4⟩

/-- Without a start frame, 85 data frames move the cursor from 0 to 255 and the 86th stores
its second and third byte at the indices 256 and 257. -/
theorem data_frames_overrun (hclk : ClockAdvances H.clock) (s : Firmware σ)
    (frames : List (Nat × Nat × Nat)) (a b d : Nat)
    (hpay : ∀ g ∈ frames, g.1 < 256 ∧ g.2.1 < 256 ∧ g.2.2 < 256)
    (ha : a < 256) (hb : b < 256) (hd : d < 256)
    (hlen : frames.length = 85) (hoff : s.currentPageOffset = 0)
    (hrx : s.rx = dataFrames (frames ++ [(a, b, d)])) :
    ∃ N s', (∀ fuel, N ≤ fuel → loop H fuel s = some s') ∧
      s'.currentPageOffset = 258 ∧ s'.pageData 255 = a ∧ s'.pageData 256 = b ∧
      s'.pageData 257 = d := by
  have hrx2 : s.rx = dataFrames frames ++ dataFrames [(a, b, d)] := by
    rw [hrx, dataFrames_append]
  obtain ⟨tl, htl⟩ := dataFrames_head frames (dataFrames [(a, b, d)]) (by omega)
  have ho1 : (pageData_pushAll (payloadBytes frames) s).currentPageOffset = 255 := by
    rw [pageData_pushAll_offset _ s (by rw [payloadBytes_length, hoff, hlen]; decide),
      payloadBytes_length, hoff, hlen]
  obtain ⟨N, ok, dev', hN⟩ := loop_body_data_commit H hclk
    { pageData_pushAll (payloadBytes frames) s with
      rx := dataFrames [(a, b, d)], tx := s.tx ++ echoAcks frames }
    a b d [] ha hb hd rfl
    (by show 253 ≤ (pageData_pushAll (payloadBytes frames) s).currentPageOffset
        rw [ho1]; decide)
    (by show (pageData_pushAll (payloadBytes frames) s).currentPageOffset ≤ 65532
        rw [ho1]; decide)
  obtain ⟨h1, h2, h3, h4⟩ := pageData_pushAll_three_at a b d 255
    { pageData_pushAll (payloadBytes frames) s with
      rx := dataFrames [(a, b, d)], tx := s.tx ++ echoAcks frames } ho1 (by decide)
  refine ⟨max N 86, { pageData_pushAll [a, b, d]
      { pageData_pushAll (payloadBytes frames) s with
        rx := dataFrames [(a, b, d)], tx := s.tx ++ echoAcks frames } with
      dev := dev', rx := [], tx := s.tx ++ echoAcks frames ++ [0x7B, 255 - a, a, 0x7D] },
    fun fuel hf => ?_, h1, h2, h3, h4⟩
  have hf1 : N ≤ fuel := le_trans (le_max_left _ _) hf
  have hf2 : 86 ≤ fuel := le_trans (le_max_right _ _) hf
  obtain ⟨m, hm⟩ : ∃ m, fuel = frames.length + (m + 1) := ⟨fuel - 86, by rw [hlen]; omega⟩
  have hseek : loop_seek s = s := loop_seek_start s tl (by rw [hrx2, htl])
  simp only [loop]
  have hfuel : loop_frames H fuel fuel (loop_seek s) =
      loop_frames H fuel (frames.length + (m + 1)) s := by rw [hseek, ← hm]
  rw [hfuel, loop_frames_data_eq H fuel frames s _ (m + 1) hpay (by rw [hoff, hlen]; decide)
    hrx2, loop_frames_step H fuel m _ _ (by simp [dataFrames]) (hN fuel hf1).2,
    loop_frames_done H fuel m _ (by simp)]

/-- C18: the claimed bounds safety fails in both situations the claim names. Sent to the
firmware in its initial state (cursor 0) without a start frame, 86 `PAGE_WRITE_DATA` frames
end with stores at the indices 256 and 257 and the cursor at 258; and after a start frame and
the 85 data frames that commit the page, one more `PAGE_WRITE_DATA` frame stores its bytes at
the indices 256, 257 and 258 and leaves the cursor at 259. -/
theorem C18_page_buffer_overrun (hclk : ClockAdvances H.clock) (hw : σ)
    (addr_l addr_h d0 : Nat) (frames : List (Nat × Nat × Nat)) (a b d : Nat)
    (hl : addr_l < 256) (hh : addr_h < 256) (hd0 : d0 < 256)
    (hpay : ∀ g ∈ frames, g.1 < 256 ∧ g.2.1 < 256 ∧ g.2.2 < 256)
    (ha : a < 256) (hb : b < 256) (hd : d < 256) (hlen : frames.length = 85) :
    (Firmware.init hw (dataFrames (frames ++ [(a, b, d)]))).currentPageOffset = 0 ∧
    (∃ N s', (∀ fuel, N ≤ fuel →
        loop H fuel (Firmware.init hw (dataFrames (frames ++ [(a, b, d)]))) = some s') ∧
      s'.currentPageOffset = 258 ∧ s'.pageData 256 = b ∧ s'.pageData 257 = d) ∧
    ∃ N s' s'', (∀ fuel, N ≤ fuel →
        loop H fuel (Firmware.init hw (startFrame addr_l addr_h d0 ++ dataFrames frames)) =
          some s' ∧
        loop H fuel { s' with rx := dataFrames [(a, b, d)] } = some s'') ∧
      s'.currentPageOffset = 256 ∧ s''.currentPageOffset = 259 ∧
      s''.pageData 256 = a ∧ s''.pageData 257 = b ∧ s''.pageData 258 = d := by
  refine ⟨rfl, ?_, ?_⟩
  · obtain ⟨N, s', hloop, h1, -, h3, h4⟩ := data_frames_overrun H hclk
      (Firmware.init hw (dataFrames (frames ++ [(a, b, d)]))) frames a b d hpay ha hb hd hlen
      rfl rfl
    exact ⟨N, s', hloop, h1, h3, h4⟩
  · obtain ⟨N1, s', hloop, -, -, ho, -⟩ := page_sequence_state H hclk
      (Firmware.init hw (startFrame addr_l addr_h d0 ++ dataFrames frames))
      addr_l addr_h d0 frames hl hh hd0 hpay hlen rfl
    obtain ⟨N2, ok, dev', hN2⟩ := loop_data_commit H hclk
      { s' with rx := dataFrames [(a, b, d)] } a b d ha hb hd rfl
      (by show 253 ≤ s'.currentPageOffset; omega)
      (by show s'.currentPageOffset ≤ 65532; omega)
    obtain ⟨h1, h2, h3, h4⟩ := pageData_pushAll_three_at a b d 256
      { s' with rx := dataFrames [(a, b, d)] } ho (by decide)
    exact ⟨max N1 N2, s', _, fun fuel hf =>
      ⟨hloop fuel (le_trans (le_max_left _ _) hf),
        (hN2 fuel (le_trans (le_max_right _ _) hf)).2⟩, ho, h1, h2, h3, h4⟩

theorem C18_page_buffer_overrun_witness :
    ClockAdvances (deadChip slowClock).clock ∧
    (0x00 : Nat) < 256 ∧ (0x20 : Nat) < 256 ∧ (0x42 : Nat) < 256 ∧
    (∀ g ∈ List.replicate 85 ((1 : Nat), (2 : Nat), (3 : Nat)),
      g.1 < 256 ∧ g.2.1 < 256 ∧ g.2.2 < 256) ∧
    (4 : Nat) < 256 ∧ (5 : Nat) < 256 ∧ (6 : Nat) < 256 ∧
    (List.replicate 85 ((1 : Nat), (2 : Nat), (3 : Nat))).length = 85 ∧
    ((Firmware.init ()
      (dataFrames (List.replicate 85 (1, 2, 3) ++ [(4, 5, 6)]))).currentPageOffset = 0 ∧
    (∃ N s', (∀ fuel, N ≤ fuel →
        loop (deadChip slowClock) fuel
          (Firmware.init () (dataFrames (List.replicate 85 (1, 2, 3) ++ [(4, 5, 6)]))) =
            some s') ∧
      s'.currentPageOffset = 258 ∧ s'.pageData 256 = 5 ∧ s'.pageData 257 = 6) ∧
    ∃ N s' s'', (∀ fuel, N ≤ fuel →
        loop (deadChip slowClock) fuel
          (Firmware.init () (startFrame 0x00 0x20 0x42 ++
            dataFrames (List.replicate 85 (1, 2, 3)))) = some s' ∧
        loop (deadChip slowClock) fuel { s' with rx := dataFrames [(4, 5, 6)] } = some s'') ∧
      s'.currentPageOffset = 256 ∧ s''.currentPageOffset = 259 ∧
      s''.pageData 256 = 4 ∧ s''.pageData 257 = 5 ∧ s''.pageData 258 = 6) :=
  ⟨slowClock_advances, by decide, by decide, by decide,
    fun g hg => by rw [List.eq_of_mem_replicate hg]; decide,
    by decide, by decide, by decide, List.length_replicate _ _,
    C18_page_buffer_overrun (deadChip slowClock) slowClock_advances ()
      0x00 0x20 0x42 (List.replicate 85 (1, 2, 3)) 4 5 6 (by decide) (by decide) (by decide)
      (fun g hg => by rw [List.eq_of_mem_replicate hg]; decide)
      (by decide) (by decide) (by decide) (List.length_replicate _ _)⟩

end BufferBounds

section ReadIdempotence

variable {σ : Type} (H : Hardware σ)

theorem NoStrobe_readByteCalls (a : Nat) : NoStrobe (readByteCalls a) := by
  intro c hc
  simp only [readByteCalls, readBusCalls, busModeCalls, setAddrCalls, List.cons_append,
    List.nil_append, List.mem_cons, List.mem_singleton, List.not_mem_nil, or_false] at hc
  rcases hc with h | h | h | h | h | h | h | h | h | h | h | h | h | h | h | h | h | h | h | h |
    h | h | h | h | h | h | h | h | h | h | h | h <;> (subst h; simp)

/-- A `READ` frame calls `readByte` and answers with the byte it returned. -/
theorem loop_body_read (fuel : Nat) (s : Firmware σ) (addr_l addr_h x : Nat) (rest : List Nat)
    (hl : addr_l < 256) (hh : addr_h < 256)
    (hrx : s.rx = 0x7B :: 0xAA :: addr_l :: addr_h :: x :: 0x7D :: rest) :
    loop_body H fuel s =
      some { s with
        dev := (readByte H (addr_l + 256 * addr_h) s.dev).2,
        rx := rest,
        tx := s.tx ++ [0x7B, (readByte H (addr_l + 256 * addr_h) s.dev).1,
          255 - (readByte H (addr_l + 256 * addr_h) s.dev).1, 0x7D] } := by
  rw [loop_body_cons H fuel s _ _ _ _ _ _ rest hrx]
  simp only [PKG_START, PKG_END, Nat.reduceMod, ne_eq, not_true_eq_false, or_self, if_false,
    loop_switch, Nat.mod_eq_of_lt hl, Nat.mod_eq_of_lt hh, CMD_READ,
    addr_assemble addr_l addr_h hl hh, if_true, Option.map_some']
  simp [not8, Nat.mod_eq_of_lt (readByte_lt H _ _)]

theorem loop_frames_reads (clock : Nat → Nat) (fuel : Nat) (reads : List (Nat × Nat × Nat)) :
    ∀ (s : Firmware Ideal) (rest : List Nat) (n : Nat),
      (∀ f ∈ reads, f.1 < 256 ∧ f.2.1 < 256 ∧ f.2.2 < 256) →
      s.rx = readFrames reads ++ rest →
      ∃ s1, loop_frames (idealChip clock) fuel (reads.length + n) s =
          loop_frames (idealChip clock) fuel n s1 ∧
        s1.rx = rest ∧ s1.tx = s.tx ++ readAcks s.dev.hw.mem reads ∧
        s1.dev.hw.mem = s.dev.hw.mem ∧ s1.pageData = s.pageData ∧
        s1.currentPageAddress = s.currentPageAddress ∧
        s1.currentPageOffset = s.currentPageOffset := by
  induction reads with
  | nil =>
    intro s rest n _ hrx
    exact ⟨s, by simp, by simpa [readFrames] using hrx, by simp [readAcks], rfl, rfl, rfl, rfl⟩
  | cons f fs ih =>
    intro s rest n hb hrx
    obtain ⟨h1, h2, h3⟩ := hb f (List.mem_cons_self _ _)
    have hrx' : s.rx = 0x7B :: 0xAA :: f.1 :: f.2.1 :: f.2.2 :: 0x7D ::
        (readFrames fs ++ rest) := by
      simpa [readFrames] using hrx
    have hlen : 6 ≤ s.rx.length := by rw [hrx']; simp
    have hbody := loop_body_read (idealChip clock) fuel s f.1 f.2.1 f.2.2 _ h1 h2 hrx'
    have e : (f :: fs).length + n = (fs.length + n) + 1 := by simp only [List.length_cons]; omega
    rw [e, loop_frames_step (idealChip clock) fuel _ s _ hlen hbody]
    obtain ⟨s1, hs1, hr, ht, hm, hp, ha, ho⟩ := ih
      { s with
        dev := (readByte (idealChip clock) (f.1 + 256 * f.2.1) s.dev).2,
        rx := readFrames fs ++ rest,
        tx := s.tx ++ [0x7B, (readByte (idealChip clock) (f.1 + 256 * f.2.1) s.dev).1,
          255 - (readByte (idealChip clock) (f.1 + 256 * f.2.1) s.dev).1, 0x7D] }
      rest n (fun g hg => hb g (List.mem_cons_of_mem _ hg)) rfl
    refine ⟨s1, hs1, hr, ?_, ?_, hp, ha, ho⟩
    · rw [ht]
      simp only [readByte_ideal_mem, readByte_ideal_val, readAcks, List.append_assoc,
        Nat.mod_eq_of_lt (by omega : f.1 + 256 * f.2.1 < 65536)]
    · rw [hm]
      exact readByte_ideal_mem clock _ _

theorem loop_seek_readFrames (s : Firmware σ) (reads : List (Nat × Nat × Nat))
    (hrx : s.rx = readFrames reads) : loop_seek s = s := by
  cases reads with
  | nil =>
    cases s
    simp only [readFrames] at hrx
    subst hrx
    rfl
  | cons f fs => exact loop_seek_start s _ (by rw [hrx]; rfl)

theorem readFrames_length (reads : List (Nat × Nat × Nat)) :
    (readFrames reads).length = 6 * reads.length := by
  induction reads with
  | nil => rfl
  | cons f fs ih => simp only [readFrames, List.length_append, List.length_cons,
      List.length_nil, ih]; omega

/-- C11: `readByte` never asserts write-enable, on any hardware, and on the ideal chip it
leaves the stored contents as they were. A sequence of `READ` frames sent to the ideal chip is
answered frame by frame with the byte stored at the address of the frame (and the complement
of it), so two `READ` frames at the same address get the same response; the whole sequence
leaves the chip memory, the page buffer, the base address and the cursor unchanged. -/
theorem C11_read_idempotent (clock : Nat → Nat) (reads : List (Nat × Nat × Nat))
    (s : Firmware Ideal)
    (hb : ∀ f ∈ reads, f.1 < 256 ∧ f.2.1 < 256 ∧ f.2.2 < 256)
    (hrx : s.rx = readFrames reads) :
    (∀ (a : Nat) (c : Dev σ), (readByte H a c).2.log = c.log ++ readByteCalls a) ∧
    (∀ (a : Nat) (l : Lines), writeStrobes l (readByteCalls a) = []) ∧
    (∀ (a : Nat) (c : Dev Ideal), (readByte (idealChip clock) a c).2.hw.mem = c.hw.mem) ∧
    ∃ s', (∀ fuel, reads.length ≤ fuel → loop (idealChip clock) fuel s = some s') ∧
      s'.rx = [] ∧ s'.tx = s.tx ++ readAcks s.dev.hw.mem reads ∧
      s'.dev.hw.mem = s.dev.hw.mem ∧ s'.pageData = s.pageData ∧
      s'.currentPageAddress = s.currentPageAddress ∧
      s'.currentPageOffset = s.currentPageOffset := by
  refine ⟨fun a c => by rw [readByte_snd]; rfl,
    fun a l => writeStrobes_noStrobe _ (NoStrobe_readByteCalls a) l,
    fun a c => readByte_ideal_mem clock a c, ?_⟩
  obtain ⟨s1, hs1, hr, ht, hm, hp, ha, ho⟩ := loop_frames_reads clock reads.length reads s [] 0 hb
    (by rw [hrx, List.append_nil])
  have hdone : loop_frames (idealChip clock) reads.length 0 s1 = some s1 :=
    loop_frames_done (idealChip clock) _ 0 s1 (by rw [hr]; simp)
  have hloop : loop (idealChip clock) reads.length s = some s1 := by
    simp only [loop]
    rw [loop_seek_readFrames s reads hrx]
    have e : loop_frames (idealChip clock) reads.length reads.length s =
        loop_frames (idealChip clock) reads.length (reads.length + 0) s := rfl
    rw [e, hs1, hdone]
  exact ⟨s1, fun fuel hf => loop_mono (idealChip clock) s s1 _ fuel hf hloop, hr, ht, hm, hp,
    ha, ho⟩

theorem C11_read_idempotent_witness :
    (∀ f ∈ [((0x10 : Nat), (0x00 : Nat), (0x00 : Nat)), (0x34, 0x12, 0x00), (0x10, 0x00, 0x55)],
      f.1 < 256 ∧ f.2.1 < 256 ∧ f.2.2 < 256) ∧
    (Firmware.init Ideal.erased
      (readFrames [(0x10, 0x00, 0x00), (0x34, 0x12, 0x00), (0x10, 0x00, 0x55)])).rx =
      readFrames [(0x10, 0x00, 0x00), (0x34, 0x12, 0x00), (0x10, 0x00, 0x55)] ∧
    ((∀ (a : Nat) (c : Dev Unit),
      (readByte (deadChip slowClock) a c).2.log = c.log ++ readByteCalls a) ∧
    (∀ (a : Nat) (l : Lines), writeStrobes l (readByteCalls a) = []) ∧
    (∀ (a : Nat) (c : Dev Ideal), (readByte (idealChip tickClock) a c).2.hw.mem = c.hw.mem) ∧
    ∃ s', (∀ fuel,
        [((0x10 : Nat), (0x00 : Nat), (0x00 : Nat)), (0x34, 0x12, 0x00),
          (0x10, 0x00, 0x55)].length ≤ fuel →
        loop (idealChip tickClock) fuel (Firmware.init Ideal.erased
          (readFrames [(0x10, 0x00, 0x00), (0x34, 0x12, 0x00), (0x10, 0x00, 0x55)])) =
            some s') ∧
      s'.rx = [] ∧
      s'.tx = (Firmware.init Ideal.erased
          (readFrames [(0x10, 0x00, 0x00), (0x34, 0x12, 0x00), (0x10, 0x00, 0x55)])).tx ++
        readAcks (Firmware.init Ideal.erased
          (readFrames [(0x10, 0x00, 0x00), (0x34, 0x12, 0x00),
            (0x10, 0x00, 0x55)])).dev.hw.mem
          [(0x10, 0x00, 0x00), (0x34, 0x12, 0x00), (0x10, 0x00, 0x55)] ∧
      s'.dev.hw.mem = (Firmware.init Ideal.erased
        (readFrames [(0x10, 0x00, 0x00), (0x34, 0x12, 0x00),
          (0x10, 0x00, 0x55)])).dev.hw.mem ∧
      s'.pageData = (Firmware.init Ideal.erased
        (readFrames [(0x10, 0x00, 0x00), (0x34, 0x12, 0x00), (0x10, 0x00, 0x55)])).pageData ∧
      s'.currentPageAddress = (Firmware.init Ideal.erased
        (readFrames [(0x10, 0x00, 0x00), (0x34, 0x12, 0x00),
          (0x10, 0x00, 0x55)])).currentPageAddress ∧
      s'.currentPageOffset = (Firmware.init Ideal.erased
        (readFrames [(0x10, 0x00, 0x00), (0x34, 0x12, 0x00),
          (0x10, 0x00, 0x55)])).currentPageOffset) :=
  ⟨by decide, rfl,
    C11_read_idempotent (deadChip slowClock) tickClock
      [(0x10, 0x00, 0x00), (0x34, 0x12, 0x00), (0x10, 0x00, 0x55)]
      (Firmware.init Ideal.erased
        (readFrames [(0x10, 0x00, 0x00), (0x34, 0x12, 0x00), (0x10, 0x00, 0x55)]))
      (by decide) rfl⟩

end ReadIdempotence

end PEEPROM
